import Mathlib

/-!
Verification development for the Arrêt retro-emulator debugger backend.

Shallow embedding of the backend's pure algorithms and state-passing
translations of its stateful modules:

* `src/backend/arch/lr35902.cpp`  — table-driven LR35902 disassembler
* `src/backend/arch/r3000a.cpp`   — R3000A jump-instruction decoding
* `src/backend/arch/r3000a_stack.cpp` — prologue-scanning stack unwinder
* `src/backend/search.cpp`        — memory-search candidate bitfield
* `src/backend/breakpoint.cpp`    — breakpoint records, subscription sync,
                                    save/load persistence
* `src/backend/symbols.cpp`       — memory-map address resolution and the
                                    JSON symbol-file reader
* `src/backend/backend.cpp`       — event dispatcher and skip map

Machine integers are modelled as `Nat`/`Int` with explicit reductions
(`% 2^w`, `&&& mask`) at the points where the C code's types truncate.
-/

namespace Arret

/-- Result of disassembling one instruction (`struct Instruction` in
`src/backend/arch/arch.hpp`): address, byte length, mnemonic text,
`breaks_flow`, `has_target`, jump target, invalid-opcode flag. -/
structure Instruction where
  addr : Nat
  length : Nat
  text : String
  breaks_flow : Bool
  has_target : Bool
  target : Nat
  is_error : Bool
deriving Repr, DecidableEq

/-! ### printf-style hex formatting

The disassemblers build mnemonics with `snprintf` over format strings whose
only directives are zero-padded uppercase hex (`%02X`, `%04X`, `%08X`) and
`%u`.  We implement exactly that fragment. -/

/-- Uppercase hex digit for a value `0..15`. -/
def hexDigitU (n : Nat) : Char :=
  if n < 10 then Char.ofNat (48 + n) else Char.ofNat (65 + (n - 10))

/-- Hex digits of `n`, most significant first; empty for `0`.  Structural on
a fuel bound (`n / 16 < n` for `n > 0`, so fuel `n` always suffices). -/
def hexDigitsAux : Nat → Nat → List Char
  | 0, _ => []
  | _ + 1, 0 => []
  | fuel + 1, n => hexDigitsAux fuel (n / 16) ++ [hexDigitU (n % 16)]

/-- Hex digits of `n`, most significant first; empty for `0`. -/
def hexDigits (n : Nat) : List Char :=
  hexDigitsAux n n

/-- Decimal digits of `n`, most significant first; empty for `0`. -/
def decDigitsAux : Nat → Nat → List Char
  | 0, _ => []
  | _ + 1, 0 => []
  | fuel + 1, n => decDigitsAux fuel (n / 10) ++ [Char.ofNat (48 + n % 10)]

/-- Decimal digits of `n`, most significant first; empty for `0`. -/
def decDigits (n : Nat) : List Char :=
  decDigitsAux n n

/-- `printf %0wX`: uppercase hex, zero-padded to width `w` (a value of `0`
still prints one digit before padding). -/
def fmtHex (w : Nat) (n : Nat) : List Char :=
  let ds := if n = 0 then ['0'] else hexDigits n
  List.replicate (w - ds.length) '0' ++ ds

/-- `printf %u`: decimal, at least one digit. -/
def fmtDec (n : Nat) : List Char :=
  if n = 0 then ['0'] else decDigits n

/-- Apply a format string containing at most the directives `%02X`, `%04X`,
`%08X`, `%u` to the single numeric argument `v` (the `snprintf` calls in the
disassemblers pass one value per directive occurrence, and each format that
takes a value uses it for every directive). -/
def applyFmtAux (v : Nat) : List Char → List Char
  | [] => []
  | '%' :: '0' :: '2' :: 'X' :: rest => fmtHex 2 v ++ applyFmtAux v rest
  | '%' :: '0' :: '4' :: 'X' :: rest => fmtHex 4 v ++ applyFmtAux v rest
  | '%' :: '0' :: '8' :: 'X' :: rest => fmtHex 8 v ++ applyFmtAux v rest
  | '%' :: 'u' :: rest => fmtDec v ++ applyFmtAux v rest
  | c :: rest => c :: applyFmtAux v rest

/-- `snprintf(buf, fmt, v)` for the formats used by the opcode tables. -/
def applyFmt (fmt : String) (v : Nat) : String :=
  ⟨applyFmtAux v fmt.data⟩

/-- Sign extension of a byte (`(int8_t)(x & 0xFF)` in C). -/
def sext8 (b : Nat) : Int :=
  let v := b % 256
  if v < 128 then (v : Int) else (v : Int) - 256

/-- Sign extension of a 16-bit value (`(int16_t)x` in C, applied to a
`uint16_t`). -/
def sext16 (x : Nat) : Int :=
  let v := x % 65536
  if v < 32768 then (v : Int) else (v : Int) - 65536

/-- `uint64` wrap-around for a possibly negative intermediate `Int`. -/
def wrap64 (x : Int) : Nat :=
  (x.emod (2 ^ 64)).toNat

/-- Read a byte from the input buffer (`data[i]` on a `uint8_t` span; the
`% 256` materialises the byte type). -/
def byteAt (data : List Nat) (i : Nat) : Nat :=
  data.getD i 0 % 256

/-! ## LR35902 disassembler (`src/backend/arch/lr35902.cpp`) -/

/-- Flags on an opcode-table entry (`enum` in lr35902.cpp). -/
def F_BREAKS : Nat := 1

/-- Absolute jump-target flag. -/
def F_TARGET : Nat := 2

/-- Relative jump-target flag. -/
def F_REL_TARGET : Nat := 4

/-- One entry of the 256-entry opcode table (`struct OpEntry`): format
string (`none` marks an undefined opcode), immediate byte count, flags. -/
structure OpEntry where
  fmt : Option String
  imm_bytes : Nat
  flags : Nat
deriving Repr, DecidableEq

/-- Undefined-opcode table entry (`UND` macro). -/
def UND : OpEntry := ⟨none, 0, 0⟩

/-- Rows 0x00-0x3F of the base opcode table (`base_ops` in lr35902.cpp). -/
def base_ops_a : List OpEntry := [
  -- 0x00-0x0F
  ⟨some "NOP", 0, 0⟩,
  ⟨some "LD BC,$%04X", 2, 0⟩,
  ⟨some "LD (BC),A", 0, 0⟩,
  ⟨some "INC BC", 0, 0⟩,
  ⟨some "INC B", 0, 0⟩,
  ⟨some "DEC B", 0, 0⟩,
  ⟨some "LD B,$%02X", 1, 0⟩,
  ⟨some "RLCA", 0, 0⟩,
  ⟨some "LD ($@%04X),SP", 2, 0⟩,
  ⟨some "ADD HL,BC", 0, 0⟩,
  ⟨some "LD A,(BC)", 0, 0⟩,
  ⟨some "DEC BC", 0, 0⟩,
  ⟨some "INC C", 0, 0⟩,
  ⟨some "DEC C", 0, 0⟩,
  ⟨some "LD C,$%02X", 1, 0⟩,
  ⟨some "RRCA", 0, 0⟩,
  -- 0x10-0x1F
  ⟨some "STOP", 1, 0⟩,
  ⟨some "LD DE,$%04X", 2, 0⟩,
  ⟨some "LD (DE),A", 0, 0⟩,
  ⟨some "INC DE", 0, 0⟩,
  ⟨some "INC D", 0, 0⟩,
  ⟨some "DEC D", 0, 0⟩,
  ⟨some "LD D,$%02X", 1, 0⟩,
  ⟨some "RLA", 0, 0⟩,
  ⟨some "JR $@%04X", 1, F_BREAKS ||| F_REL_TARGET⟩,
  ⟨some "ADD HL,DE", 0, 0⟩,
  ⟨some "LD A,(DE)", 0, 0⟩,
  ⟨some "DEC DE", 0, 0⟩,
  ⟨some "INC E", 0, 0⟩,
  ⟨some "DEC E", 0, 0⟩,
  ⟨some "LD E,$%02X", 1, 0⟩,
  ⟨some "RRA", 0, 0⟩,
  -- 0x20-0x2F
  ⟨some "JR NZ,$@%04X", 1, F_REL_TARGET⟩,
  ⟨some "LD HL,$%04X", 2, 0⟩,
  ⟨some "LD (HL+),A", 0, 0⟩,
  ⟨some "INC HL", 0, 0⟩,
  ⟨some "INC H", 0, 0⟩,
  ⟨some "DEC H", 0, 0⟩,
  ⟨some "LD H,$%02X", 1, 0⟩,
  ⟨some "DAA", 0, 0⟩,
  ⟨some "JR Z,$@%04X", 1, F_REL_TARGET⟩,
  ⟨some "ADD HL,HL", 0, 0⟩,
  ⟨some "LD A,(HL+)", 0, 0⟩,
  ⟨some "DEC HL", 0, 0⟩,
  ⟨some "INC L", 0, 0⟩,
  ⟨some "DEC L", 0, 0⟩,
  ⟨some "LD L,$%02X", 1, 0⟩,
  ⟨some "CPL", 0, 0⟩,
  -- 0x30-0x3F
  ⟨some "JR NC,$@%04X", 1, F_REL_TARGET⟩,
  ⟨some "LD SP,$%04X", 2, 0⟩,
  ⟨some "LD (HL-),A", 0, 0⟩,
  ⟨some "INC SP", 0, 0⟩,
  ⟨some "INC (HL)", 0, 0⟩,
  ⟨some "DEC (HL)", 0, 0⟩,
  ⟨some "LD (HL),$%02X", 1, 0⟩,
  ⟨some "SCF", 0, 0⟩,
  ⟨some "JR C,$@%04X", 1, F_REL_TARGET⟩,
  ⟨some "ADD HL,SP", 0, 0⟩,
  ⟨some "LD A,(HL-)", 0, 0⟩,
  ⟨some "DEC SP", 0, 0⟩,
  ⟨some "INC A", 0, 0⟩,
  ⟨some "DEC A", 0, 0⟩,
  ⟨some "LD A,$%02X", 1, 0⟩,
  ⟨some "CCF", 0, 0⟩]

/-- Rows 0x40-0x7F of the base opcode table. -/
def base_ops_b : List OpEntry := [
  -- 0x40-0x4F
  ⟨some "LD B,B", 0, 0⟩,
  ⟨some "LD B,C", 0, 0⟩,
  ⟨some "LD B,D", 0, 0⟩,
  ⟨some "LD B,E", 0, 0⟩,
  ⟨some "LD B,H", 0, 0⟩,
  ⟨some "LD B,L", 0, 0⟩,
  ⟨some "LD B,(HL)", 0, 0⟩,
  ⟨some "LD B,A", 0, 0⟩,
  ⟨some "LD C,B", 0, 0⟩,
  ⟨some "LD C,C", 0, 0⟩,
  ⟨some "LD C,D", 0, 0⟩,
  ⟨some "LD C,E", 0, 0⟩,
  ⟨some "LD C,H", 0, 0⟩,
  ⟨some "LD C,L", 0, 0⟩,
  ⟨some "LD C,(HL)", 0, 0⟩,
  ⟨some "LD C,A", 0, 0⟩,
  -- 0x50-0x5F
  ⟨some "LD D,B", 0, 0⟩,
  ⟨some "LD D,C", 0, 0⟩,
  ⟨some "LD D,D", 0, 0⟩,
  ⟨some "LD D,E", 0, 0⟩,
  ⟨some "LD D,H", 0, 0⟩,
  ⟨some "LD D,L", 0, 0⟩,
  ⟨some "LD D,(HL)", 0, 0⟩,
  ⟨some "LD D,A", 0, 0⟩,
  ⟨some "LD E,B", 0, 0⟩,
  ⟨some "LD E,C", 0, 0⟩,
  ⟨some "LD E,D", 0, 0⟩,
  ⟨some "LD E,E", 0, 0⟩,
  ⟨some "LD E,H", 0, 0⟩,
  ⟨some "LD E,L", 0, 0⟩,
  ⟨some "LD E,(HL)", 0, 0⟩,
  ⟨some "LD E,A", 0, 0⟩,
  -- 0x60-0x6F
  ⟨some "LD H,B", 0, 0⟩,
  ⟨some "LD H,C", 0, 0⟩,
  ⟨some "LD H,D", 0, 0⟩,
  ⟨some "LD H,E", 0, 0⟩,
  ⟨some "LD H,H", 0, 0⟩,
  ⟨some "LD H,L", 0, 0⟩,
  ⟨some "LD H,(HL)", 0, 0⟩,
  ⟨some "LD H,A", 0, 0⟩,
  ⟨some "LD L,B", 0, 0⟩,
  ⟨some "LD L,C", 0, 0⟩,
  ⟨some "LD L,D", 0, 0⟩,
  ⟨some "LD L,E", 0, 0⟩,
  ⟨some "LD L,H", 0, 0⟩,
  ⟨some "LD L,L", 0, 0⟩,
  ⟨some "LD L,(HL)", 0, 0⟩,
  ⟨some "LD L,A", 0, 0⟩,
  -- 0x70-0x7F
  ⟨some "LD (HL),B", 0, 0⟩,
  ⟨some "LD (HL),C", 0, 0⟩,
  ⟨some "LD (HL),D", 0, 0⟩,
  ⟨some "LD (HL),E", 0, 0⟩,
  ⟨some "LD (HL),H", 0, 0⟩,
  ⟨some "LD (HL),L", 0, 0⟩,
  ⟨some "HALT", 0, 0⟩,
  ⟨some "LD (HL),A", 0, 0⟩,
  ⟨some "LD A,B", 0, 0⟩,
  ⟨some "LD A,C", 0, 0⟩,
  ⟨some "LD A,D", 0, 0⟩,
  ⟨some "LD A,E", 0, 0⟩,
  ⟨some "LD A,H", 0, 0⟩,
  ⟨some "LD A,L", 0, 0⟩,
  ⟨some "LD A,(HL)", 0, 0⟩,
  ⟨some "LD A,A", 0, 0⟩]

/-- Rows 0x80-0xBF of the base opcode table. -/
def base_ops_c : List OpEntry := [
  -- 0x80-0x8F
  ⟨some "ADD A,B", 0, 0⟩,
  ⟨some "ADD A,C", 0, 0⟩,
  ⟨some "ADD A,D", 0, 0⟩,
  ⟨some "ADD A,E", 0, 0⟩,
  ⟨some "ADD A,H", 0, 0⟩,
  ⟨some "ADD A,L", 0, 0⟩,
  ⟨some "ADD A,(HL)", 0, 0⟩,
  ⟨some "ADD A,A", 0, 0⟩,
  ⟨some "ADC A,B", 0, 0⟩,
  ⟨some "ADC A,C", 0, 0⟩,
  ⟨some "ADC A,D", 0, 0⟩,
  ⟨some "ADC A,E", 0, 0⟩,
  ⟨some "ADC A,H", 0, 0⟩,
  ⟨some "ADC A,L", 0, 0⟩,
  ⟨some "ADC A,(HL)", 0, 0⟩,
  ⟨some "ADC A,A", 0, 0⟩,
  -- 0x90-0x9F
  ⟨some "SUB B", 0, 0⟩,
  ⟨some "SUB C", 0, 0⟩,
  ⟨some "SUB D", 0, 0⟩,
  ⟨some "SUB E", 0, 0⟩,
  ⟨some "SUB H", 0, 0⟩,
  ⟨some "SUB L", 0, 0⟩,
  ⟨some "SUB (HL)", 0, 0⟩,
  ⟨some "SUB A", 0, 0⟩,
  ⟨some "SBC A,B", 0, 0⟩,
  ⟨some "SBC A,C", 0, 0⟩,
  ⟨some "SBC A,D", 0, 0⟩,
  ⟨some "SBC A,E", 0, 0⟩,
  ⟨some "SBC A,H", 0, 0⟩,
  ⟨some "SBC A,L", 0, 0⟩,
  ⟨some "SBC A,(HL)", 0, 0⟩,
  ⟨some "SBC A,A", 0, 0⟩,
  -- 0xA0-0xAF
  ⟨some "AND B", 0, 0⟩,
  ⟨some "AND C", 0, 0⟩,
  ⟨some "AND D", 0, 0⟩,
  ⟨some "AND E", 0, 0⟩,
  ⟨some "AND H", 0, 0⟩,
  ⟨some "AND L", 0, 0⟩,
  ⟨some "AND (HL)", 0, 0⟩,
  ⟨some "AND A", 0, 0⟩,
  ⟨some "XOR B", 0, 0⟩,
  ⟨some "XOR C", 0, 0⟩,
  ⟨some "XOR D", 0, 0⟩,
  ⟨some "XOR E", 0, 0⟩,
  ⟨some "XOR H", 0, 0⟩,
  ⟨some "XOR L", 0, 0⟩,
  ⟨some "XOR (HL)", 0, 0⟩,
  ⟨some "XOR A", 0, 0⟩,
  -- 0xB0-0xBF
  ⟨some "OR B", 0, 0⟩,
  ⟨some "OR C", 0, 0⟩,
  ⟨some "OR D", 0, 0⟩,
  ⟨some "OR E", 0, 0⟩,
  ⟨some "OR H", 0, 0⟩,
  ⟨some "OR L", 0, 0⟩,
  ⟨some "OR (HL)", 0, 0⟩,
  ⟨some "OR A", 0, 0⟩,
  ⟨some "CP B", 0, 0⟩,
  ⟨some "CP C", 0, 0⟩,
  ⟨some "CP D", 0, 0⟩,
  ⟨some "CP E", 0, 0⟩,
  ⟨some "CP H", 0, 0⟩,
  ⟨some "CP L", 0, 0⟩,
  ⟨some "CP (HL)", 0, 0⟩,
  ⟨some "CP A", 0, 0⟩]

/-- Rows 0xC0-0xFF of the base opcode table. -/
def base_ops_d : List OpEntry := [
  -- 0xC0-0xCF
  ⟨some "RET NZ", 0, 0⟩,
  ⟨some "POP BC", 0, 0⟩,
  ⟨some "JP NZ,$@%04X", 2, F_TARGET⟩,
  ⟨some "JP $@%04X", 2, F_BREAKS ||| F_TARGET⟩,
  ⟨some "CALL NZ,$@%04X", 2, 0⟩,
  ⟨some "PUSH BC", 0, 0⟩,
  ⟨some "ADD A,$%02X", 1, 0⟩,
  ⟨some "RST $00", 0, 0⟩,
  ⟨some "RET Z", 0, 0⟩,
  ⟨some "RET", 0, F_BREAKS⟩,
  ⟨some "JP Z,$@%04X", 2, F_TARGET⟩,
  ⟨none, 0, 0⟩,
  ⟨some "CALL Z,$@%04X", 2, 0⟩,
  ⟨some "CALL $@%04X", 2, 0⟩,
  ⟨some "ADC A,$%02X", 1, 0⟩,
  ⟨some "RST $08", 0, 0⟩,
  -- 0xD0-0xDF
  ⟨some "RET NC", 0, 0⟩,
  ⟨some "POP DE", 0, 0⟩,
  ⟨some "JP NC,$@%04X", 2, F_TARGET⟩,
  UND,
  ⟨some "CALL NC,$@%04X", 2, 0⟩,
  ⟨some "PUSH DE", 0, 0⟩,
  ⟨some "SUB $%02X", 1, 0⟩,
  ⟨some "RST $10", 0, 0⟩,
  ⟨some "RET C", 0, 0⟩,
  ⟨some "RETI", 0, F_BREAKS⟩,
  ⟨some "JP C,$@%04X", 2, F_TARGET⟩,
  UND,
  ⟨some "CALL C,$@%04X", 2, 0⟩,
  UND,
  ⟨some "SBC A,$%02X", 1, 0⟩,
  ⟨some "RST $18", 0, 0⟩,
  -- 0xE0-0xEF
  ⟨some "LDH ($@FF%02X),A", 1, 0⟩,
  ⟨some "POP HL", 0, 0⟩,
  ⟨some "LD ($FF00+C),A", 0, 0⟩,
  UND,
  UND,
  ⟨some "PUSH HL", 0, 0⟩,
  ⟨some "AND $%02X", 1, 0⟩,
  ⟨some "RST $20", 0, 0⟩,
  ⟨some "ADD SP,$%02X", 1, 0⟩,
  ⟨some "JP HL", 0, F_BREAKS⟩,
  ⟨some "LD ($@%04X),A", 2, 0⟩,
  UND,
  UND,
  UND,
  ⟨some "XOR $%02X", 1, 0⟩,
  ⟨some "RST $28", 0, 0⟩,
  -- 0xF0-0xFF
  ⟨some "LDH A,($@FF%02X)", 1, 0⟩,
  ⟨some "POP AF", 0, 0⟩,
  ⟨some "LD A,($FF00+C)", 0, 0⟩,
  ⟨some "DI", 0, 0⟩,
  UND,
  ⟨some "PUSH AF", 0, 0⟩,
  ⟨some "OR $%02X", 1, 0⟩,
  ⟨some "RST $30", 0, 0⟩,
  ⟨some "LD HL,SP+$%02X", 1, 0⟩,
  ⟨some "LD SP,HL", 0, 0⟩,
  ⟨some "LD A,($@%04X)", 2, 0⟩,
  ⟨some "EI", 0, 0⟩,
  UND,
  UND,
  ⟨some "CP $%02X", 1, 0⟩,
  ⟨some "RST $38", 0, 0⟩]

/-- The 256-entry base opcode table (`base_ops` in lr35902.cpp), in opcode
order 0x00..0xFF. -/
def base_ops : List OpEntry := base_ops_a ++ base_ops_b ++ base_ops_c ++ base_ops_d

/-- CB-prefix register names (`cb_regs`). -/
def cb_regs : List String := ["B", "C", "D", "E", "H", "L", "(HL)", "A"]

/-- CB-prefix operation names for `0x00-0x3F` (`cb_ops`). -/
def cb_ops : List String := ["RLC", "RRC", "RL", "RR", "SLA", "SRA", "SWAP", "SRL"]

/-- CB-prefix group names for `0x40-0xFF` (`cb_groups`). -/
def cb_groups : List String := ["", "BIT", "RES", "SET"]

/-- `decode_cb`: synthesize a CB-prefixed instruction from bit patterns. -/
def decode_cb (op : Nat) (addr : Nat) : Instruction :=
  let op := op % 256
  let group := op >>> 6
  let reg := op &&& 7
  let text :=
    if group = 0 then
      let which := (op >>> 3) &&& 7
      cb_ops.getD which "" ++ " " ++ cb_regs.getD reg ""
    else
      let bit := (op >>> 3) &&& 7
      cb_groups.getD group "" ++ " " ++ ⟨fmtDec bit⟩ ++ "," ++ cb_regs.getD reg ""
  ⟨addr, 2, text, false, false, 0, false⟩

/-- `DB $XX` pseudo-instruction for undefined or truncated opcodes. -/
def dbInst (op : Nat) (addr : Nat) : Instruction :=
  ⟨addr, 1, "DB $" ++ ⟨fmtHex 2 op⟩, false, false, 0, true⟩

/-- Main loop of `dis_lr35902`, advancing `pos` through the buffer.  `pos`
strictly increases at every iteration, so `fuel = data.length + 1` steps
always reach the `pos ≥ data.length` exit; `fuel` only makes that
termination argument structural. -/
def dis_lr35902_go (fuel : Nat) (data : List Nat) (base_addr : Nat) (pos : Nat) :
    List Instruction :=
  match fuel with
  | 0 => []
  | fuel + 1 =>
  if pos < data.length then
    let addr := (base_addr + pos) % 2 ^ 64
    let op := byteAt data pos
    if op = 0xCB then
      if pos + 1 ≥ data.length then
        [dbInst op addr]
      else
        decode_cb (byteAt data (pos + 1)) addr :: dis_lr35902_go fuel data base_addr (pos + 2)
    else
      let e := base_ops.getD op UND
      match e.fmt with
      | none => dbInst op addr :: dis_lr35902_go fuel data base_addr (pos + 1)
      | some fmt =>
        let total := 1 + e.imm_bytes
        if pos + total > data.length then
          [dbInst op addr]
        else
          let imm :=
            if e.imm_bytes = 1 then byteAt data (pos + 1)
            else if e.imm_bytes = 2 then
              byteAt data (pos + 1) ||| (byteAt data (pos + 2) <<< 8)
            else 0
          let breaks := e.flags &&& F_BREAKS ≠ 0
          if e.flags &&& F_REL_TARGET ≠ 0 then
            let offset := sext8 imm
            let target := wrap64 ((addr : Int) + 2 + offset) &&& 0xFFFF
            ⟨addr, total, applyFmt fmt target, breaks, true, target, false⟩ ::
              dis_lr35902_go fuel data base_addr (pos + total)
          else if e.flags &&& F_TARGET ≠ 0 then
            ⟨addr, total, applyFmt fmt imm, breaks, true, imm, false⟩ ::
              dis_lr35902_go fuel data base_addr (pos + total)
          else if e.imm_bytes > 0 then
            ⟨addr, total, applyFmt fmt imm, breaks, false, 0, false⟩ ::
              dis_lr35902_go fuel data base_addr (pos + total)
          else
            ⟨addr, total, fmt, breaks, false, 0, false⟩ ::
              dis_lr35902_go fuel data base_addr (pos + total)
  else []

/-- `dis_lr35902(data, base_addr)`: table-driven LR35902 disassembly. -/
def dis_lr35902 (data : List Nat) (base_addr : Nat) : List Instruction :=
  dis_lr35902_go (data.length + 1) data base_addr 0

example : dis_lr35902 [0xC3, 0x50, 0x01] 0x0100 =
    [⟨0x0100, 3, "JP $@0150", true, true, 0x0150, false⟩] := by decide

example : dis_lr35902 [0x18, 0xFE] 0x0150 =
    [⟨0x0150, 2, "JR $@0150", true, true, 0x0150, false⟩] := by decide

/-- Masking a wrapped 64-bit value with `0xFFFF` is reduction mod `2^16`. -/
theorem wrap64_and_ffff (x : Int) : wrap64 x &&& 0xFFFF = (x.emod 65536).toNat := by
  have h16 := Nat.and_pow_two_sub_one_eq_mod (wrap64 x) 16
  norm_num at h16
  rw [h16]
  unfold wrap64
  rw [show ((2 : Int) ^ 64) = 18446744073709551616 from by norm_num]
  have h1 : 0 ≤ x.emod 18446744073709551616 := Int.emod_nonneg x (by norm_num)
  have h3 : 0 ≤ x.emod 65536 := Int.emod_nonneg x (by norm_num)
  have key : (((x.emod 18446744073709551616).toNat % 65536 : Nat) : Int) = ((x.emod 65536).toNat : Int) := by
    push_cast
    rw [Int.toNat_of_nonneg h1, Int.toNat_of_nonneg h3]
    exact Int.emod_emod_of_dvd x (by norm_num)
  exact_mod_cast key

set_option maxRecDepth 4096 in
/-- The only base-table entries carrying `F_REL_TARGET` are the five `JR`
opcodes, each with a one-byte immediate. -/
theorem base_ops_rel_cases : ∀ o, o < 256 →
    (base_ops.getD o UND).flags &&& F_REL_TARGET ≠ 0 →
    o = 0x18 ∨ o = 0x20 ∨ o = 0x28 ∨ o = 0x30 ∨ o = 0x38 := by decide

/-- `sext8` only depends on the low byte of its argument. -/
theorem sext8_mod256 (b : Nat) : sext8 (b % 256) = sext8 b := by
  unfold sext8
  have h : b % 256 % 256 = b % 256 := by omega
  rw [h]

set_option maxHeartbeats 1000000 in
set_option maxRecDepth 10000 in
/-- Decoding a two-byte buffer whose opcode's table entry carries
`F_REL_TARGET` (all such entries have a one-byte immediate) yields a single
instruction of length 2 whose target is `(addr + length + sext8 imm) mod
2^16`. -/
theorem dis_lr35902_rel_case (op b base o flg : Nat) (fmt : String)
    (hcase : op % 256 = o) (ho : ¬(o = 0xCB))
    (hE : base_ops.getD o UND = ⟨some fmt, 1, flg⟩)
    (hrel : ¬(flg &&& 4 = 0)) :
    ∃ i, dis_lr35902 [op, b] base = [i] ∧ i.addr = base % 2 ^ 64 ∧
      i.length = 2 ∧ i.has_target = true ∧
      i.target = (((i.addr : Int) + (i.length : Int) + sext8 b).emod 65536).toNat := by
  have hbyte0 : byteAt [op, b] 0 = o := by simp [byteAt, hcase]
  have hbyte1 : byteAt [op, b] (0 + 1) = b % 256 := by simp [byteAt]
  unfold dis_lr35902
  simp only [dis_lr35902_go, List.length, hbyte0, hbyte1, hE]
  rw [if_neg ho]
  norm_num [F_REL_TARGET, F_BREAKS, F_TARGET, if_neg hrel]
  rw [sext8_mod256, wrap64_and_ffff]

set_option maxRecDepth 4096 in
/-- C5.  LR35902 relative branch target: for every instruction whose table
entry has the `RELATIVE_TARGET` flag, `dis_lr35902` computes
`target = (addr + instruction_length + sign-extended imm8) mod 2^16`; in
particular disassembling `[0x18, 0xFE]` at base `0x0150` yields one
instruction with addr `0x0150`, length 2, text `JR $@0150`,
breaks_flow true, and target `0x0150`. -/
theorem lr35902_relative_branch_target :
    (∀ op b base_addr,
      (base_ops.getD (op % 256) UND).flags &&& F_REL_TARGET ≠ 0 →
      ∃ i, dis_lr35902 [op, b] base_addr = [i] ∧ i.addr = base_addr % 2 ^ 64 ∧
        i.length = 2 ∧ i.has_target = true ∧
        i.target = (((i.addr : Int) + (i.length : Int) + sext8 b).emod (2 ^ 16)).toNat) ∧
    dis_lr35902 [0x18, 0xFE] 0x0150 =
      [⟨0x0150, 2, "JR $@0150", true, true, 0x0150, false⟩] := by
  constructor
  · intro op b base h
    have h65536 : ((2 : Int) ^ 16) = 65536 := by norm_num
    rw [h65536]
    have h256 : op % 256 < 256 := Nat.mod_lt _ (by norm_num)
    rcases base_ops_rel_cases (op % 256) h256 h with h5 | h5 | h5 | h5 | h5
    · exact dis_lr35902_rel_case op b base 0x18 5 "JR $@%04X" h5 (by norm_num)
        (by decide) (by decide)
    · exact dis_lr35902_rel_case op b base 0x20 4 "JR NZ,$@%04X" h5 (by norm_num)
        (by decide) (by decide)
    · exact dis_lr35902_rel_case op b base 0x28 4 "JR Z,$@%04X" h5 (by norm_num)
        (by decide) (by decide)
    · exact dis_lr35902_rel_case op b base 0x30 4 "JR NC,$@%04X" h5 (by norm_num)
        (by decide) (by decide)
    · exact dis_lr35902_rel_case op b base 0x38 4 "JR C,$@%04X" h5 (by norm_num)
        (by decide) (by decide)
  · decide

/-- Witness for C5: the universal part applied at the concrete input
`op = 0x18`, `b = 0xFE`, `base = 0x0150`. -/
theorem lr35902_relative_branch_target_witness :
    ∃ i, dis_lr35902 [0x18, 0xFE] 0x0150 = [i] ∧ i.addr = 0x0150 % 2 ^ 64 ∧
      i.length = 2 ∧ i.has_target = true ∧
      i.target = (((i.addr : Int) + (i.length : Int) + sext8 0xFE).emod (2 ^ 16)).toNat :=
  lr35902_relative_branch_target.1 0x18 0xFE 0x0150 (by decide)

/-! ## R3000A disassembler, jump instructions (`src/backend/arch/r3000a.cpp`)

The main loop of `dis_r3000a` reads a 32-bit little-endian word, dispatches
on the primary opcode field, and handles `J` (0x02) and `JAL` (0x03)
inline; every other opcode is handled by a sub-decoder (`decode_special`,
`decode_regimm`, the inline arithmetic/branch/coprocessor cases) that
returns one 4-byte `Instruction` and never produces a `J`/`JAL` result.
The embedding keeps the loop and the two jump cases verbatim and abstracts
the remaining opcode classes — which the jump-target claim never reaches —
as function parameters, so every theorem below holds for all of their
completions. -/

/-- `field_op(w)`: primary opcode field, bits 31..26. -/
def field_op (w : Nat) : Nat := (w >>> 26) &&& 0x3F

/-- `field_target(w)`: 26-bit jump target field. -/
def field_target (w : Nat) : Nat := w &&& 0x03FFFFFF

/-- Main loop of `dis_r3000a`: read words little-endian while
`pos + 4 <= size`, decode `J`/`JAL` inline, delegate opcode 0 to
`decode_special`, opcode 1 to `decode_regimm`, and every remaining opcode
to `decodeRest`. -/
def dis_r3000a_go (decodeSpecial decodeRegimm decodeRest : Nat → Nat → Instruction)
    (fuel : Nat) (data : List Nat) (base_addr : Nat) (pos : Nat) :
    List Instruction :=
  match fuel with
  | 0 => []
  | fuel + 1 =>
  if pos + 4 ≤ data.length then
    let addr := (base_addr + pos) % 2 ^ 64
    let w := byteAt data pos ||| (byteAt data (pos + 1) <<< 8) |||
             (byteAt data (pos + 2) <<< 16) ||| (byteAt data (pos + 3) <<< 24)
    let op := field_op w
    let rest := dis_r3000a_go decodeSpecial decodeRegimm decodeRest fuel data base_addr (pos + 4)
    if op = 0x00 then decodeSpecial w addr :: rest
    else if op = 0x01 then decodeRegimm w addr :: rest
    else if op = 0x02 then
      let t := (addr &&& 0xF0000000) ||| (field_target w <<< 2)
      ⟨addr, 4, applyFmt "J $@%08X" (t % 2 ^ 32), true, true, t, false⟩ :: rest
    else if op = 0x03 then
      let t := (addr &&& 0xF0000000) ||| (field_target w <<< 2)
      ⟨addr, 4, applyFmt "JAL $@%08X" (t % 2 ^ 32), false, true, t, false⟩ :: rest
    else decodeRest w addr :: rest
  else []

/-- `dis_r3000a(data, base_addr)` with the non-jump opcode decoders held
abstract. -/
def dis_r3000a_with (decodeSpecial decodeRegimm decodeRest : Nat → Nat → Instruction)
    (data : List Nat) (base_addr : Nat) : List Instruction :=
  dis_r3000a_go decodeSpecial decodeRegimm decodeRest (data.length + 1) data base_addr 0

/-- C6.  R3000A J/JAL target computation: for every `J` or `JAL`
instruction word `w` at address `PC`, `dis_r3000a` computes
`target = (PC & 0xF0000000) | ((w & 0x03FFFFFF) << 2)`; in particular the
word `0x0C100000` disassembled at PC `0x80001000` yields mnemonic
`JAL $@80400000` with target `0x80400000`.  (The theorem quantifies over
the sub-decoders for all non-jump opcodes, which the `J`/`JAL` paths never
invoke.) -/
theorem r3000a_jump_target :
    (∀ ds dr drest b0 b1 b2 b3 base_addr,
      (field_op (byteAt [b0, b1, b2, b3] 0 ||| (byteAt [b0, b1, b2, b3] 1 <<< 8) |||
        (byteAt [b0, b1, b2, b3] 2 <<< 16) ||| (byteAt [b0, b1, b2, b3] 3 <<< 24)) = 0x02 ∨
       field_op (byteAt [b0, b1, b2, b3] 0 ||| (byteAt [b0, b1, b2, b3] 1 <<< 8) |||
        (byteAt [b0, b1, b2, b3] 2 <<< 16) ||| (byteAt [b0, b1, b2, b3] 3 <<< 24)) = 0x03) →
      ∃ i, dis_r3000a_with ds dr drest [b0, b1, b2, b3] base_addr = [i] ∧
        i.addr = base_addr % 2 ^ 64 ∧ i.length = 4 ∧ i.has_target = true ∧
        i.target = (i.addr &&& 0xF0000000) |||
          (((byteAt [b0, b1, b2, b3] 0 ||| (byteAt [b0, b1, b2, b3] 1 <<< 8) |||
             (byteAt [b0, b1, b2, b3] 2 <<< 16) ||| (byteAt [b0, b1, b2, b3] 3 <<< 24))
            &&& 0x03FFFFFF) <<< 2)) ∧
    (∀ ds dr drest, dis_r3000a_with ds dr drest [0x00, 0x00, 0x10, 0x0C] 0x80001000 =
      [⟨0x80001000, 4, "JAL $@80400000", false, true, 0x80400000, false⟩]) := by
  constructor
  · intro ds dr drest b0 b1 b2 b3 base h
    unfold dis_r3000a_with
    rcases h with h | h <;>
    · simp only [dis_r3000a_go, List.length, h]
      norm_num [field_op] at h ⊢
      norm_num [h, field_target]
  · intro ds dr drest
    unfold dis_r3000a_with
    have hw : byteAt [0x00, 0x00, 0x10, 0x0C] 0 |||
        (byteAt [0x00, 0x00, 0x10, 0x0C] (0 + 1) <<< 8) |||
        (byteAt [0x00, 0x00, 0x10, 0x0C] (0 + 2) <<< 16) |||
        (byteAt [0x00, 0x00, 0x10, 0x0C] (0 + 3) <<< 24) = 202375168 := by decide
    simp only [dis_r3000a_go, List.length, hw]
    rw [if_pos (by norm_num)]
    rw [if_neg (show ¬field_op 202375168 = 0x00 from by decide),
        if_neg (show ¬field_op 202375168 = 0x01 from by decide),
        if_neg (show ¬field_op 202375168 = 0x02 from by decide),
        if_pos (show field_op 202375168 = 0x03 from by decide),
        if_neg (show ¬(0 + 4 + 4 ≤ 0 + 1 + 1 + 1 + 1) from by norm_num)]
    decide

/-- Witness for C6: the universal part applied to the JAL word `0x0C100000`
at PC `0x80001000`, with trivial sub-decoders. -/
theorem r3000a_jump_target_witness :
    ∃ i, dis_r3000a_with (fun _ _ => ⟨0, 0, "", false, false, 0, false⟩)
        (fun _ _ => ⟨0, 0, "", false, false, 0, false⟩)
        (fun _ _ => ⟨0, 0, "", false, false, 0, false⟩)
        [0x00, 0x00, 0x10, 0x0C] 0x80001000 = [i] ∧
      i.addr = 0x80001000 % 2 ^ 64 ∧ i.length = 4 ∧ i.has_target = true ∧
      i.target = (i.addr &&& 0xF0000000) |||
        (((byteAt [0x00, 0x00, 0x10, 0x0C] 0 |||
           (byteAt [0x00, 0x00, 0x10, 0x0C] 1 <<< 8) |||
           (byteAt [0x00, 0x00, 0x10, 0x0C] 2 <<< 16) |||
           (byteAt [0x00, 0x00, 0x10, 0x0C] 3 <<< 24)) &&& 0x03FFFFFF) <<< 2) :=
  r3000a_jump_target.1 _ _ _ 0x00 0x00 0x10 0x0C 0x80001000 (Or.inr (by decide))

/-! ## R3000A stack unwinder (`src/backend/arch/r3000a_stack.cpp`) -/

/-- Outcomes of a stack trace (`enum class StackTraceStatus`). -/
inductive StackTraceStatus where
  | OK
  | MAX_DEPTH
  | SCAN_LIMIT
  | INVALID_SP
  | INVALID_RA
  | READ_ERROR
deriving Repr, DecidableEq

/-- One unwound frame: pc, sp, and function start address
(`UINT64_MAX = 2^64 - 1` marks an unknown function). -/
structure StackFrame where
  pc : Nat
  sp : Nat
  func_addr : Nat
deriving Repr, DecidableEq

/-- Stack-trace result (`struct StackTrace`). -/
structure StackTrace where
  status : StackTraceStatus
  frames : List StackFrame
deriving Repr, DecidableEq

/-- PSX RAM window size (2 MB). -/
def RAM_SIZE : Nat := 0x200000

/-- KUSEG RAM base. -/
def KUSEG_BASE : Nat := 0x00000000

/-- KSEG0 RAM base. -/
def KSEG0_BASE : Nat := 0x80000000

/-- KSEG1 RAM base. -/
def KSEG1_BASE : Nat := 0xA0000000

/-- Backward-scan instruction bound (`MAX_SCAN_INSNS`). -/
def MAX_SCAN_INSNS : Nat := 2000

/-- Largest accepted prologue frame size (`MAX_FRAME_SIZE`, 64 KB). -/
def MAX_FRAME_SIZE : Nat := 0x10000

/-- `is_ram_addr`: membership in one of the three mirrored 2 MB PSX RAM
windows (the computed `off` in the source is discarded). -/
def is_ram_addr (addr : Nat) : Bool :=
  if addr < KUSEG_BASE + RAM_SIZE then true
  else if KSEG0_BASE ≤ addr ∧ addr < KSEG0_BASE + RAM_SIZE then true
  else if KSEG1_BASE ≤ addr ∧ addr < KSEG1_BASE + RAM_SIZE then true
  else false

/-- `read32`: four little-endian byte peeks (side effects disabled). -/
def read32 (mem : Nat → Nat) (addr : Nat) : Nat :=
  (mem addr % 256) ||| ((mem (addr + 1) % 256) <<< 8) |||
  ((mem (addr + 2) % 256) <<< 16) ||| ((mem (addr + 3) % 256) <<< 24)

/-- `uint32` subtraction with wrap-around (both arguments below `2^32`). -/
def sub32 (a b : Nat) : Nat := (a + 2 ^ 32 - b % 2 ^ 32) % 2 ^ 32

/-- Backward scan from `a` (exclusive) down to `limit` looking for the
prologue `addiu sp, sp, -N` (`0x27BDxxxx` with negative `imm16`); returns
`(frame_size, func_start)` on success.  The loop strictly decreases `a` by
4 while `a ≥ 4`, so fuel `a` always suffices. -/
def scanBack (mem : Nat → Nat) : Nat → Nat → Nat → Option (Nat × Nat)
  | 0, _, _ => none
  | fuel + 1, a, limit =>
    if a > limit then
      if a < 4 then none
      else
        let insn := read32 mem (a - 4)
        if insn &&& 0xFFFF0000 = 0x27BD0000 ∧ sext16 (insn &&& 0xFFFF) < 0 then
          some ((-(sext16 (insn &&& 0xFFFF))).toNat, a - 4)
        else scanBack mem fuel (a - 4) limit
    else none

/-- Forward scan from `func_start` (at most ten words, bounded by `pc`)
looking for `sw ra, offset(sp)` (`0xAFBFxxxx`); returns the `uint16`
offset. -/
def findSwRa (mem : Nat → Nat) : Nat → Nat → Nat → Nat → Option Nat
  | 0, _, _, _ => none
  | fuel + 1, a, stopA, stopB =>
    if a < stopA ∧ a < stopB then
      let insn := read32 mem a
      if insn &&& 0xFFFF0000 = 0xAFBF0000 then some (insn &&& 0xFFFF)
      else findSwRa mem fuel ((a + 4) % 2 ^ 32) stopA stopB
    else none

/-- The scan lower bound for a given `scan_pc` (`scan_limit_addr` in the
source, including the `uint32` wrap-around of `scan_pc - KSEG0_BASE` for
KUSEG addresses). -/
def scan_limit_addr (scan_pc : Nat) : Nat :=
  let lim0 := if sub32 scan_pc KSEG0_BASE > MAX_SCAN_INSNS * 4
              then sub32 scan_pc (MAX_SCAN_INSNS * 4) else KSEG0_BASE
  if scan_pc < KSEG0_BASE then
    (if scan_pc > MAX_SCAN_INSNS * 4 then scan_pc - MAX_SCAN_INSNS * 4 else 0)
  else lim0

/-- One `for (depth …)` loop of `r3000a_stack_trace`, as a countdown on the
remaining depth budget (`remaining = max_depth - depth`); falling off the
loop yields `MAX_DEPTH` exactly as in the source. -/
def stack_loop (mem : Nat → Nat) :
    Nat → Nat → Nat → Nat → Nat → List StackFrame → StackTrace
  | 0, _, _, _, _, frames => ⟨.MAX_DEPTH, frames⟩
  | remaining + 1, depth, pc, sp, ra, frames =>
    if ra = 0 then ⟨.OK, frames⟩
    else if ra &&& 3 ≠ 0 then ⟨.INVALID_RA, frames⟩
    else if is_ram_addr ra = false then ⟨.INVALID_RA, frames⟩
    else
      let scan_pc := pc
      let found := scanBack mem scan_pc scan_pc (scan_limit_addr scan_pc)
      if (match found with
          | some (fs, _) => decide (fs > MAX_FRAME_SIZE)
          | none => false) = true then
        ⟨.SCAN_LIMIT, frames⟩
      else
        let ra_offset := match found with
          | some (_, fstart) => findSwRa mem 16 fstart ((fstart + 40) % 2 ^ 32) scan_pc
          | none => none
        -- (next_ra, frame_size, func_start); `none` is the non-leaf
        -- no-`sw ra` dead end that returns SCAN_LIMIT
        let step : Option (Nat × Nat × Option Nat) :=
          match found, ra_offset with
          | some (fs, fstart), some off =>
            some (read32 mem ((sp + off) % 2 ^ 32), fs, some fstart)
          | some (fs, fstart), none =>
            if depth = 0 then some (ra, fs, some fstart) else none
          | none, _ =>
            if depth = 0 then some (ra, 0, none) else none
        match step with
        | none => ⟨.SCAN_LIMIT, frames⟩
        | some (next_ra, frame_size, func_start) =>
          let next_sp := (sp + frame_size) % 2 ^ 32
          if frame_size > 0 ∧ (next_sp < sp ∨ next_sp &&& 3 ≠ 0) then
            ⟨.INVALID_SP, frames⟩
          else
            let frames2 := frames ++ [⟨next_ra, next_sp, func_start.getD (2 ^ 64 - 1)⟩]
            if next_ra = 0 then ⟨.OK, frames2⟩
            else stack_loop mem remaining (depth + 1) next_ra next_sp next_ra frames2

/-- `r3000a_stack_trace(cpu, max_depth)`: the CPU is modelled by its
memory (absent ⇒ `READ_ERROR`) and its `PC`/`SP`/`RA` registers (read with
a `uint32` cast). -/
def r3000a_stack_trace (mem : Option (Nat → Nat)) (pc0 sp0 ra0 : Nat)
    (max_depth : Nat) : StackTrace :=
  match mem with
  | none => ⟨.READ_ERROR, []⟩
  | some m =>
    let pc := pc0 % 2 ^ 32
    let sp := sp0 % 2 ^ 32
    let ra := ra0 % 2 ^ 32
    stack_loop m max_depth 0 pc sp ra [⟨pc, sp, 2 ^ 64 - 1⟩]

/-- C8.  Stack unwinder invalid-return-address handling: at every depth of
`r3000a_stack_trace` (i.e. at every entry into the unwinding loop with
depth budget left), a nonzero return address that is misaligned or outside
the three 2 MB PSX RAM windows makes the unwinder stop with `INVALID_RA`;
and every run terminates with one of `OK`, `MAX_DEPTH`, `SCAN_LIMIT`,
`INVALID_SP`, `INVALID_RA`, `READ_ERROR`. -/
theorem r3000a_stack_trace_invalid_ra :
    (∀ mem remaining depth pc sp ra frames, 0 < remaining → ra ≠ 0 →
      (ra &&& 3 ≠ 0 ∨ is_ram_addr ra = false) →
      (stack_loop mem remaining depth pc sp ra frames).status =
        StackTraceStatus.INVALID_RA) ∧
    (∀ mem pc0 sp0 ra0 max_depth,
      (r3000a_stack_trace mem pc0 sp0 ra0 max_depth).status = StackTraceStatus.OK ∨
      (r3000a_stack_trace mem pc0 sp0 ra0 max_depth).status = StackTraceStatus.MAX_DEPTH ∨
      (r3000a_stack_trace mem pc0 sp0 ra0 max_depth).status = StackTraceStatus.SCAN_LIMIT ∨
      (r3000a_stack_trace mem pc0 sp0 ra0 max_depth).status = StackTraceStatus.INVALID_SP ∨
      (r3000a_stack_trace mem pc0 sp0 ra0 max_depth).status = StackTraceStatus.INVALID_RA ∨
      (r3000a_stack_trace mem pc0 sp0 ra0 max_depth).status = StackTraceStatus.READ_ERROR) := by
  constructor
  · intro mem remaining depth pc sp ra frames hrem hra hbad
    obtain ⟨r, rfl⟩ : ∃ r, remaining = r + 1 :=
      ⟨remaining - 1, by omega⟩
    simp only [stack_loop]
    rw [if_neg hra]
    by_cases halign : ra &&& 3 ≠ 0
    · rw [if_pos halign]
    · rw [if_neg halign]
      rcases hbad with hbad | hbad
      · exact absurd hbad halign
      · rw [if_pos hbad]
  · intro mem pc0 sp0 ra0 max_depth
    cases h : (r3000a_stack_trace mem pc0 sp0 ra0 max_depth).status <;> simp

/-- Witness for C8: the loop entered with the nonzero misaligned return
address `2` immediately reports `INVALID_RA`. -/
theorem r3000a_stack_trace_invalid_ra_witness :
    (stack_loop (fun _ => 0) 1 0 0 0 2 []).status = StackTraceStatus.INVALID_RA :=
  r3000a_stack_trace_invalid_ra.1 (fun _ => 0) 1 0 0 0 2 [] (by decide) (by decide)
    (Or.inl (by decide))

/-! ## Memory-search engine (`src/backend/search.cpp`)

The engine's session state (the `s_*` statics) is modelled as an explicit
`SearchState` value; an absent session (freed or failed reset) is `none`.
The target memory region is modelled by its base address, size, and a pure
`peek` (side-effect-free reads). -/

/-- The slice of `rd_Memory` that the search engine uses. -/
structure SearchMem where
  base_address : Nat
  size : Nat
  peek : Nat → Nat

/-- Comparison operators (`ar_search_op`). -/
inductive SearchOp where
  | EQ
  | NE
  | LT
  | GT
  | LE
  | GE
deriving Repr, DecidableEq

/-- `AR_SEARCH_VS_PREV` (`(uint64_t)-1`). -/
def AR_SEARCH_VS_PREV : Nat := 2 ^ 64 - 1

/-- Session state (the module statics after a successful reset). -/
structure SearchState where
  mem : SearchMem
  data_size : Nat
  alignment : Nat
  base_addr : Nat
  region_size : Nat
  num_slots : Nat
  candidates : List Nat
  prev : List Nat
  count : Nat

/-- `bit_set`-style test: `(bf[i >> 3] >> (i & 7)) & 1`. -/
def bit_test (bf : List Nat) (i : Nat) : Bool :=
  ((bf.getD (i >>> 3) 0 >>> (i &&& 7)) &&& 1) = 1

/-- `bit_clear`: `bf[i >> 3] &= ~(1u << (i & 7))` on a `uint8_t` cell
(the complement within eight bits is `255 ^^^ (1 <<< k)`). -/
def bit_clear (bf : List Nat) (i : Nat) : List Nat :=
  bf.set (i >>> 3) (bf.getD (i >>> 3) 0 &&& (255 ^^^ (1 <<< (i &&& 7))))

/-- Number of set bits of the candidate bitfield, as read through
`bit_test` over all addressable bit positions. -/
def bf_popcount (bf : List Nat) : Nat :=
  ((Finset.range (bf.length * 8)).filter (fun i => bit_test bf i = true)).card

/-- `read_value(addr, size)`: little-endian multi-byte read via `peek`. -/
def read_value (peek : Nat → Nat) (addr : Nat) (size : Nat) : Nat :=
  (List.range size).foldl (fun v i => v ||| ((peek (addr + i) % 256) <<< (i * 8))) 0

/-- `uint64` decrement with wrap-around (`s_count--`). -/
def sub64_1 (n : Nat) : Nat := (n + (2 ^ 64 - 1)) % 2 ^ 64

/-- Body of `ar_search_reset` after the size/alignment normalisation:
allocate the all-set bitfield, clear trailing bits, snapshot previous
values.  A zero slot count yields `none` (the C code returns `false` with
the session freed; allocation failure is not modelled). -/
def ar_search_reset_core (m : SearchMem) (ds al : Nat) : Option SearchState :=
  let base := m.base_address
  let rsize := m.size
  let num_slots := rsize / al
  if num_slots = 0 then none
  else
    let bf_bytes := (num_slots + 7) / 8
    let cand0 := List.replicate bf_bytes 0xFF
    let tail := bf_bytes * 8 - num_slots
    let cand := if tail > 0 then
        cand0.set (bf_bytes - 1)
          (cand0.getD (bf_bytes - 1) 0 &&& ((1 <<< (num_slots &&& 7)) - 1))
      else cand0
    let prev := (List.range num_slots).map (fun i => read_value m.peek (base + i * al) ds)
    some ⟨m, ds, al, base, rsize, num_slots, cand, prev, num_slots⟩

/-- `ar_search_reset(region, data_size, alignment)`: reject sizes and
alignments outside `{1,2,4}` (replaced by 1), auto-raise the alignment to
the data size, then initialise the session.  A missing region yields
`none`. -/
def ar_search_reset (mem : Option SearchMem) (data_size0 alignment0 : Int) :
    Option SearchState :=
  match mem with
  | none => none
  | some m =>
    let ds : Int := if data_size0 ≠ 1 ∧ data_size0 ≠ 2 ∧ data_size0 ≠ 4 then 1 else data_size0
    let al : Int := if alignment0 ≠ 1 ∧ alignment0 ≠ 2 ∧ alignment0 ≠ 4 then 1 else alignment0
    let al : Int := if al < ds then ds else al
    ar_search_reset_core m ds.toNat al.toNat

/-- `switch (op)` comparison of the filter pass. -/
def search_keep (op : SearchOp) (cur cmp : Nat) : Bool :=
  match op with
  | .EQ => cur == cmp
  | .NE => cur != cmp
  | .LT => decide (cur < cmp)
  | .GT => decide (cur > cmp)
  | .LE => decide (cur ≤ cmp)
  | .GE => decide (cur ≥ cmp)

/-- Inner bit loop of the first filter pass: scan bits `bit..7` of the
snapshot byte `bitsSnap` (taken before any clearing in this byte), break
once the slot index passes `num_slots`, clear failing candidates and
decrement the count. -/
def filter_bits (peek : Nat → Nat) (ds al base num_slots : Nat) (prev : List Nat)
    (op : SearchOp) (value : Nat) (byte_i bitsSnap : Nat) :
    Nat → Nat → List Nat → Nat → List Nat × Nat
  | 0, _, cand, count => (cand, count)
  | fuel + 1, bit, cand, count =>
    if bitsSnap &&& (1 <<< bit) = 0 then
      filter_bits peek ds al base num_slots prev op value byte_i bitsSnap fuel
        (bit + 1) cand count
    else
      let slot := byte_i * 8 + bit
      if slot ≥ num_slots then (cand, count)
      else
        let cur := read_value peek (base + slot * al) ds
        let cmp := if value = AR_SEARCH_VS_PREV then prev.getD slot 0 else value
        if search_keep op cur cmp then
          filter_bits peek ds al base num_slots prev op value byte_i bitsSnap fuel
            (bit + 1) cand count
        else
          filter_bits peek ds al base num_slots prev op value byte_i bitsSnap fuel
            (bit + 1) (bit_clear cand slot) (sub64_1 count)

/-- Outer byte loop of the first filter pass. -/
def filter_pass (peek : Nat → Nat) (ds al base num_slots : Nat) (prev : List Nat)
    (op : SearchOp) (value : Nat) (bf_bytes : Nat) :
    Nat → Nat → List Nat → Nat → List Nat × Nat
  | 0, _, cand, count => (cand, count)
  | fuel + 1, byte_i, cand, count =>
    if byte_i < bf_bytes then
      let bits := cand.getD byte_i 0
      if bits = 0 then
        filter_pass peek ds al base num_slots prev op value bf_bytes fuel
          (byte_i + 1) cand count
      else
        let r := filter_bits peek ds al base num_slots prev op value byte_i bits
          8 0 cand count
        filter_pass peek ds al base num_slots prev op value bf_bytes fuel
          (byte_i + 1) r.1 r.2
    else (cand, count)

/-- Inner bit loop of the `prev` refresh pass (survivors only). -/
def prev_bits (peek : Nat → Nat) (ds al base num_slots : Nat)
    (byte_i bitsSnap : Nat) : Nat → Nat → List Nat → List Nat
  | 0, _, prev => prev
  | fuel + 1, bit, prev =>
    if bitsSnap &&& (1 <<< bit) = 0 then
      prev_bits peek ds al base num_slots byte_i bitsSnap fuel (bit + 1) prev
    else
      let slot := byte_i * 8 + bit
      if slot ≥ num_slots then prev
      else
        prev_bits peek ds al base num_slots byte_i bitsSnap fuel (bit + 1)
          (prev.set slot (read_value peek (base + slot * al) ds))

/-- Outer byte loop of the `prev` refresh pass. -/
def prev_pass (peek : Nat → Nat) (ds al base num_slots : Nat) (cand : List Nat)
    (bf_bytes : Nat) : Nat → Nat → List Nat → List Nat
  | 0, _, prev => prev
  | fuel + 1, byte_i, prev =>
    if byte_i < bf_bytes then
      let bits := cand.getD byte_i 0
      if bits = 0 then
        prev_pass peek ds al base num_slots cand bf_bytes fuel (byte_i + 1) prev
      else
        prev_pass peek ds al base num_slots cand bf_bytes fuel (byte_i + 1)
          (prev_bits peek ds al base num_slots byte_i bits 8 0 prev)
    else prev

/-- `ar_search_filter(op, value)` on an active session: first pass clears
failing candidates and decrements the count, second pass refreshes
`prev[slot]` for survivors; returns the updated session and the returned
count. -/
def ar_search_filter (st : SearchState) (op : SearchOp) (value : Nat) :
    SearchState × Nat :=
  let bf_bytes := (st.num_slots + 7) / 8
  let r := filter_pass st.mem.peek st.data_size st.alignment st.base_addr
    st.num_slots st.prev op value bf_bytes bf_bytes 0 st.candidates st.count
  let prev := prev_pass st.mem.peek st.data_size st.alignment st.base_addr
    st.num_slots r.1 bf_bytes bf_bytes 0 st.prev
  ({ st with candidates := r.1, prev := prev, count := r.2 }, r.2)

/-! ### Bitfield lemmas for the search engine -/

theorem shiftRight3 (i : Nat) : i >>> 3 = i / 8 := by
  rw [Nat.shiftRight_eq_div_pow]

theorem and7 (i : Nat) : i &&& 7 = i % 8 := by
  have h := Nat.and_pow_two_sub_one_eq_mod i 3
  norm_num at h
  exact h

theorem sr_and_one (x i : Nat) : (x >>> i) &&& 1 = if x.testBit i then 1 else 0 := by
  rcases h : x.testBit i with _ | _
  · simp [Nat.testBit_to_div_mod] at h
    simp [Nat.shiftRight_eq_div_pow, Nat.and_one_is_mod, h]
  · simp [Nat.testBit_to_div_mod] at h
    simp [Nat.shiftRight_eq_div_pow, Nat.and_one_is_mod, h]

/-- `bit_test` reads exactly bit `i % 8` of byte `i / 8`. -/
theorem bit_test_testBit (bf : List Nat) (i : Nat) :
    bit_test bf i = (bf.getD (i / 8) 0).testBit (i % 8) := by
  unfold bit_test
  rw [shiftRight3, and7, sr_and_one]
  by_cases h : (bf.getD (i / 8) 0).testBit (i % 8) <;> simp [h]

theorem length_bit_clear (bf : List Nat) (i : Nat) :
    (bit_clear bf i).length = bf.length := by
  simp [bit_clear]

/-- Bits other than `i` are unaffected by `bit_clear bf i`. -/
theorem bit_test_clear_ne (bf : List Nat) (i j : Nat) (h : j ≠ i) :
    bit_test (bit_clear bf i) j = bit_test bf j := by
  rw [bit_test_testBit, bit_test_testBit]
  unfold bit_clear
  rw [shiftRight3, and7]
  by_cases hb : j / 8 = i / 8
  · have hbit : j % 8 ≠ i % 8 := by omega
    rw [hb]
    by_cases hlen : i / 8 < bf.length
    · rw [show ((bf.set (i / 8) (bf.getD (i / 8) 0 &&& (255 ^^^ 1 <<< (i % 8)))).getD (i / 8) 0)
          = bf.getD (i / 8) 0 &&& (255 ^^^ 1 <<< (i % 8)) by
        simp [List.getD, List.getElem?_set_eq_of_lt _ hlen]]
      rw [Nat.testBit_and, Nat.testBit_xor, Nat.one_shiftLeft, Nat.testBit_two_pow]
      have h8 : (255 : Nat) = 2 ^ 8 - 1 := by norm_num
      rw [h8, Nat.testBit_two_pow_sub_one]
      have hj8 : j % 8 < 8 := Nat.mod_lt _ (by norm_num)
      simp [hj8, hbit.symm]
    · rw [List.set_eq_of_length_le (by omega)]
  · rw [show ((bf.set (i / 8) (bf.getD (i / 8) 0 &&& (255 ^^^ 1 <<< (i % 8)))).getD (j / 8) 0)
        = bf.getD (j / 8) 0 by
      simp [List.getD, List.getElem?_set_ne (by omega : i / 8 ≠ j / 8)]]

/-- `bit_clear bf i` leaves bit `i` clear. -/
theorem bit_test_clear_self (bf : List Nat) (i : Nat) :
    bit_test (bit_clear bf i) i = false := by
  rw [bit_test_testBit]
  unfold bit_clear
  rw [shiftRight3, and7]
  by_cases hlen : i / 8 < bf.length
  · rw [show ((bf.set (i / 8) (bf.getD (i / 8) 0 &&& (255 ^^^ 1 <<< (i % 8)))).getD (i / 8) 0)
        = bf.getD (i / 8) 0 &&& (255 ^^^ 1 <<< (i % 8)) by
      simp [List.getD, List.getElem?_set_eq_of_lt _ hlen]]
    rw [Nat.testBit_and, Nat.testBit_xor, Nat.one_shiftLeft, Nat.testBit_two_pow]
    have h8 : (255 : Nat) = 2 ^ 8 - 1 := by norm_num
    rw [h8, Nat.testBit_two_pow_sub_one]
    have hi8 : i % 8 < 8 := Nat.mod_lt _ (by norm_num)
    simp [hi8]
  · rw [List.set_eq_of_length_le (by omega)]
    have : bf.getD (i / 8) 0 = 0 := by
      simp [List.getD, List.getElem?_eq_none (by omega : bf.length ≤ i / 8)]
    rw [this]
    simp

/-- A set bit lies inside the list (bytes beyond the end read as `0`). -/
theorem bit_test_lt_length (bf : List Nat) (i : Nat) (h : bit_test bf i = true) :
    i / 8 < bf.length := by
  by_contra hge
  rw [bit_test_testBit] at h
  rw [show bf.getD (i / 8) 0 = 0 by
    simp [List.getD, List.getElem?_eq_none (by omega : bf.length ≤ i / 8)]] at h
  simp at h

/-- Clearing a set bit decreases the popcount by one. -/
theorem bf_popcount_clear (bf : List Nat) (i : Nat) (hset : bit_test bf i = true) :
    bf_popcount (bit_clear bf i) = bf_popcount bf - 1 ∧ 0 < bf_popcount bf := by
  have hlen := bit_test_lt_length bf i hset
  have hi : i < bf.length * 8 := by omega
  have hfilt : (Finset.range ((bit_clear bf i).length * 8)).filter
      (fun j => bit_test (bit_clear bf i) j = true) =
      ((Finset.range (bf.length * 8)).filter (fun j => bit_test bf j = true)).erase i := by
    rw [length_bit_clear]
    ext j
    by_cases hj : j = i
    · subst hj
      simp [bit_test_clear_self]
    · simp [Finset.mem_erase, hj, bit_test_clear_ne bf i j hj]
  have hmem : i ∈ (Finset.range (bf.length * 8)).filter (fun j => bit_test bf j = true) := by
    simp [hi, hset]
  constructor
  · unfold bf_popcount
    rw [hfilt, Finset.card_erase_of_mem hmem]
  · unfold bf_popcount
    exact Finset.card_pos.mpr ⟨i, hmem⟩

theorem bf_popcount_le (bf : List Nat) : bf_popcount bf ≤ bf.length * 8 := by
  unfold bf_popcount
  calc ((Finset.range (bf.length * 8)).filter (fun i => bit_test bf i = true)).card
      ≤ (Finset.range (bf.length * 8)).card := Finset.card_filter_le _ _
    _ = bf.length * 8 := Finset.card_range _

theorem and_two_pow_eq_zero (x j : Nat) :
    x &&& 1 <<< j = 0 ↔ x.testBit j = false := by
  rw [Nat.one_shiftLeft, Nat.and_two_pow]
  rcases h : x.testBit j with _ | _ <;> simp [h]

/-- Bit `j` of byte `byte_i` as seen through `bit_test`. -/
theorem bit_test_byte (cand : List Nat) (byte_i j : Nat) (hj : j < 8) :
    bit_test cand (byte_i * 8 + j) = (cand.getD byte_i 0).testBit j := by
  rw [bit_test_testBit]
  have h1 : (byte_i * 8 + j) / 8 = byte_i := by omega
  have h2 : (byte_i * 8 + j) % 8 = j := by omega
  rw [h1, h2]

/-- The inner filter loop keeps `count` equal to the popcount: every
`bit_clear` of a (still-set) candidate bit is paired with exactly one
decrement. -/
theorem filter_bits_invariant (peek : Nat → Nat) (ds al base num_slots : Nat)
    (prev : List Nat) (op : SearchOp) (value : Nat) (byte_i bitsSnap : Nat) :
    ∀ fuel bit cand count, bit + fuel ≤ 8 →
      cand.length * 8 < 2 ^ 64 →
      count = bf_popcount cand →
      (∀ j, bit ≤ j → j < 8 → bitsSnap.testBit j = bit_test cand (byte_i * 8 + j)) →
      (filter_bits peek ds al base num_slots prev op value byte_i bitsSnap
        fuel bit cand count).2 =
        bf_popcount (filter_bits peek ds al base num_slots prev op value byte_i
          bitsSnap fuel bit cand count).1 ∧
      (filter_bits peek ds al base num_slots prev op value byte_i bitsSnap
        fuel bit cand count).1.length = cand.length := by
  intro fuel
  induction fuel with
  | zero =>
    intro bit cand count hbit hlen hcount hsnap
    simp [filter_bits, hcount]
  | succ fuel ih =>
    intro bit cand count hbit hlen hcount hsnap
    simp only [filter_bits]
    by_cases h0 : bitsSnap &&& 1 <<< bit = 0
    · rw [if_pos h0]
      exact ih (bit + 1) cand count (by omega) hlen hcount
        (fun j hj1 hj2 => hsnap j (by omega) hj2)
    · rw [if_neg h0]
      by_cases hslot : byte_i * 8 + bit ≥ num_slots
      · rw [if_pos hslot]
        exact ⟨hcount, rfl⟩
      · rw [if_neg hslot]
        have hbit8 : bit < 8 := by omega
        by_cases hkeep : search_keep op (read_value peek (base + (byte_i * 8 + bit) * al) ds)
            (if value = AR_SEARCH_VS_PREV then prev.getD (byte_i * 8 + bit) 0 else value) = true
        · rw [if_pos hkeep]
          exact ih (bit + 1) cand count (by omega) hlen hcount
            (fun j hj1 hj2 => hsnap j (by omega) hj2)
        · rw [if_neg hkeep]
          have hsetbit : bit_test cand (byte_i * 8 + bit) = true := by
            have := hsnap bit (le_refl bit) hbit8
            rcases h : bitsSnap.testBit bit with _ | _
            · exact absurd ((and_two_pow_eq_zero bitsSnap bit).mpr h) h0
            · rw [h] at this
              exact this.symm
          obtain ⟨hclear, hpos⟩ := bf_popcount_clear cand (byte_i * 8 + bit) hsetbit
          have hble := bf_popcount_le cand
          have hsub : sub64_1 count = bf_popcount (bit_clear cand (byte_i * 8 + bit)) := by
            rw [hclear]
            unfold sub64_1
            omega
          obtain ⟨ha, hb⟩ := ih (bit + 1) (bit_clear cand (byte_i * 8 + bit))
            (sub64_1 count) (by omega) (by rw [length_bit_clear]; exact hlen) hsub
            (fun j hj1 hj2 => by
              rw [bit_test_clear_ne cand (byte_i * 8 + bit) (byte_i * 8 + j) (by omega)]
              exact hsnap j (by omega) hj2)
          exact ⟨ha, by rw [hb, length_bit_clear]⟩

/-- The outer filter loop preserves `count = popcount`. -/
theorem filter_pass_invariant (peek : Nat → Nat) (ds al base num_slots : Nat)
    (prev : List Nat) (op : SearchOp) (value : Nat) (bf_bytes : Nat) :
    ∀ fuel byte_i cand count,
      cand.length * 8 < 2 ^ 64 →
      count = bf_popcount cand →
      (filter_pass peek ds al base num_slots prev op value bf_bytes
        fuel byte_i cand count).2 =
        bf_popcount (filter_pass peek ds al base num_slots prev op value bf_bytes
          fuel byte_i cand count).1 := by
  intro fuel
  induction fuel with
  | zero =>
    intro byte_i cand count hlen hcount
    simp [filter_pass, hcount]
  | succ fuel ih =>
    intro byte_i cand count hlen hcount
    simp only [filter_pass]
    by_cases hb : byte_i < bf_bytes
    · rw [if_pos hb]
      by_cases hz : cand.getD byte_i 0 = 0
      · rw [if_pos hz]
        exact ih (byte_i + 1) cand count hlen hcount
      · rw [if_neg hz]
        obtain ⟨h1, h2⟩ := filter_bits_invariant peek ds al base num_slots prev op value
          byte_i (cand.getD byte_i 0) 8 0 cand count (by omega) hlen hcount
          (fun j hj1 hj2 => (bit_test_byte cand byte_i j hj2).symm)
        exact ih (byte_i + 1) _ _ (h2 ▸ hlen) h1
    · rw [if_neg hb]
      exact hcount

theorem mod255_two_pow (k : Nat) (hk : k ≤ 8) : (255 : Nat) % 2 ^ k = 2 ^ k - 1 := by
  have hdvd : (2 ^ k : Nat) ∣ 2 ^ 8 := pow_dvd_pow 2 hk
  obtain ⟨c, hc⟩ := hdvd
  have hpos : 0 < (2 : Nat) ^ k := pow_pos (by norm_num) k
  rcases c with _ | c
  · norm_num at hc
  · have hc2 : (255 : Nat) = 2 ^ k * c + (2 ^ k - 1) := by
      have h8 : (2 : Nat) ^ 8 = 256 := by norm_num
      rw [h8] at hc
      have : 2 ^ k * (c + 1) = 2 ^ k * c + 2 ^ k := by ring
      omega
    rw [hc2, Nat.mul_add_mod]
    exact Nat.mod_eq_of_lt (by omega)

/-- Bit `i` of the freshly initialised candidate bitfield (all-set bytes
with the trailing bits of the last byte cleared) is set exactly for
`i < n`. -/
theorem reset_cand_bit (n B : Nat) (hn : 0 < n) (hB : B = (n + 7) / 8) (i : Nat) :
    bit_test (if B * 8 - n > 0 then
        (List.replicate B (255 : Nat)).set (B - 1)
          ((List.replicate B (255 : Nat)).getD (B - 1) 0 &&& ((1 <<< (n &&& 7)) - 1))
      else List.replicate B (255 : Nat)) i = decide (i < n) := by
  have h255 : (255 : Nat) = 2 ^ 8 - 1 := by norm_num
  have hB8 : n ≤ B * 8 ∧ B * 8 < n + 8 := by omega
  have hBpos : 0 < B := by omega
  by_cases hk : n % 8 = 0
  · rw [if_neg (by omega)]
    rw [bit_test_testBit]
    by_cases hi : i / 8 < B
    · rw [show (List.replicate B (255 : Nat)).getD (i / 8) 0 = 255 by
        simp [List.getD, List.getElem?_replicate, hi]]
      rw [h255, Nat.testBit_two_pow_sub_one]
      have h8 : i % 8 < 8 := Nat.mod_lt _ (by norm_num)
      have hin : i < n := by omega
      simp [h8, hin]
    · rw [show (List.replicate B (255 : Nat)).getD (i / 8) 0 = 0 by
        simp [List.getD, List.getElem?_replicate, hi]]
      have hin : ¬(i < n) := by omega
      simp [hin]
  · have hk8 : n % 8 < 8 := Nat.mod_lt _ (by norm_num)
    rw [if_pos (by omega)]
    rw [show (List.replicate B (255 : Nat)).getD (B - 1) 0 = 255 by
      simp [List.getD, List.getElem?_replicate, Nat.sub_lt hBpos one_pos]]
    rw [and7, Nat.one_shiftLeft, Nat.and_pow_two_sub_one_eq_mod,
      mod255_two_pow (n % 8) (by omega)]
    rw [bit_test_testBit]
    have hnB : n = (B - 1) * 8 + n % 8 := by omega
    by_cases hi1 : i / 8 < B - 1
    · rw [show ((List.replicate B (255 : Nat)).set (B - 1) (2 ^ (n % 8) - 1)).getD (i / 8) 0
          = 255 by
        simp [List.getD, List.getElem?_set_ne (by omega : B - 1 ≠ i / 8),
          List.getElem?_replicate, show i / 8 < B by omega]]
      rw [h255, Nat.testBit_two_pow_sub_one]
      have h8 : i % 8 < 8 := Nat.mod_lt _ (by norm_num)
      have hin : i < n := by omega
      simp [h8, hin]
    · by_cases hi2 : i / 8 = B - 1
      · rw [show ((List.replicate B (255 : Nat)).set (B - 1) (2 ^ (n % 8) - 1)).getD (i / 8) 0
            = 2 ^ (n % 8) - 1 by
          rw [hi2]
          simp [List.getD, List.getElem?_set_eq_of_lt _
            (by simp [Nat.sub_lt hBpos one_pos] : B - 1 < (List.replicate B (255 : Nat)).length)]]
        rw [Nat.testBit_two_pow_sub_one]
        by_cases hin : i < n
        · have : i % 8 < n % 8 := by omega
          simp [this, hin]
        · have : ¬(i % 8 < n % 8) := by omega
          simp [this, hin]
      · rw [show ((List.replicate B (255 : Nat)).set (B - 1) (2 ^ (n % 8) - 1)).getD (i / 8) 0
            = 0 by
          simp [List.getD, List.getElem?_set_ne (by omega : B - 1 ≠ i / 8),
            List.getElem?_replicate, show ¬(i / 8 < B) by omega]]
        have hin : ¬(i < n) := by omega
        simp [hin]

/-- Length of the freshly initialised candidate bitfield. -/
theorem reset_cand_length (n B : Nat) :
    (if B * 8 - n > 0 then
        (List.replicate B (255 : Nat)).set (B - 1)
          ((List.replicate B (255 : Nat)).getD (B - 1) 0 &&& ((1 <<< (n &&& 7)) - 1))
      else List.replicate B (255 : Nat)).length = B := by
  by_cases h : B * 8 - n > 0 <;> simp [h]

/-- Popcount of the freshly initialised candidate bitfield. -/
theorem reset_cand_popcount (n B : Nat) (hn : 0 < n) (hB : B = (n + 7) / 8) :
    bf_popcount (if B * 8 - n > 0 then
        (List.replicate B (255 : Nat)).set (B - 1)
          ((List.replicate B (255 : Nat)).getD (B - 1) 0 &&& ((1 <<< (n &&& 7)) - 1))
      else List.replicate B (255 : Nat)) = n := by
  unfold bf_popcount
  rw [reset_cand_length]
  have hfilt : (Finset.range (B * 8)).filter (fun i =>
      bit_test (if B * 8 - n > 0 then
        (List.replicate B (255 : Nat)).set (B - 1)
          ((List.replicate B (255 : Nat)).getD (B - 1) 0 &&& ((1 <<< (n &&& 7)) - 1))
      else List.replicate B (255 : Nat)) i = true) = Finset.range n := by
    ext i
    rw [Finset.mem_filter, Finset.mem_range, Finset.mem_range,
      reset_cand_bit n B hn hB i]
    have : n ≤ B * 8 := by omega
    constructor
    · intro ⟨_, h2⟩
      simpa using h2
    · intro h
      exact ⟨by omega, by simpa using h⟩
  rw [hfilt, Finset.card_range]

/-- A successful `ar_search_reset_core` establishes the count/popcount
invariant, with the trailing bits of the last byte clear. -/
theorem reset_core_spec (m : SearchMem) (ds al : Nat) (st : SearchState)
    (h : ar_search_reset_core m ds al = some st) :
    bf_popcount st.candidates = st.num_slots ∧
    st.count = st.num_slots ∧
    st.num_slots = m.size / st.alignment ∧
    (∀ i, st.num_slots ≤ i → bit_test st.candidates i = false) := by
  simp only [ar_search_reset_core] at h
  split at h
  · exact absurd h (by simp)
  · next hne =>
    injection h with h
    subst h
    refine ⟨?_, rfl, rfl, ?_⟩
    · exact reset_cand_popcount _ _ (Nat.pos_of_ne_zero hne) rfl
    · intro i hi
      rw [reset_cand_bit _ _ (Nat.pos_of_ne_zero hne) rfl i]
      simp only [decide_eq_false_iff_not]
      dsimp only at hi
      omega

/-- C4.  Memory-search count invariant: a successful
`ar_search_reset(region, size, align)` leaves a candidate bitfield with
exactly `num_slots = region_size / alignment` bits set (trailing bits of
the last byte clear) and `count = num_slots`; and every `ar_search_filter`
call on a session whose count matches the bitfield returns a count equal
to the number of bits still set in the bitfield. -/
theorem search_count_invariant :
    (∀ mem ds0 al0 st, ar_search_reset (some mem) ds0 al0 = some st →
      bf_popcount st.candidates = st.num_slots ∧
      st.count = st.num_slots ∧
      st.num_slots = mem.size / st.alignment ∧
      (∀ i, st.num_slots ≤ i → bit_test st.candidates i = false)) ∧
    (∀ st op value, st.candidates.length * 8 < 2 ^ 64 →
      st.count = bf_popcount st.candidates →
      (ar_search_filter st op value).2 =
        bf_popcount (ar_search_filter st op value).1.candidates) := by
  constructor
  · intro mem ds0 al0 st h
    simp only [ar_search_reset] at h
    exact reset_core_spec _ _ _ _ h
  · intro st op value hlen hcount
    unfold ar_search_filter
    simp only
    exact filter_pass_invariant st.mem.peek st.data_size st.alignment st.base_addr
      st.num_slots st.prev op value ((st.num_slots + 7) / 8) ((st.num_slots + 7) / 8)
      0 st.candidates st.count hlen hcount

/-- Witness for C4: a 16-byte region at base 0 with `size = align = 1`
yields 16 set bits and `count = 16`; one `EQ 0` filter pass on the
all-zero region keeps all candidates and returns `16 = popcount`. -/
theorem search_count_invariant_witness :
    (∃ st, ar_search_reset (some ⟨0, 16, fun _ => 0⟩) 1 1 = some st ∧
      bf_popcount st.candidates = st.num_slots ∧
      st.count = st.num_slots ∧
      st.num_slots = 16 ∧
      (ar_search_filter st SearchOp.EQ 0).2 =
        bf_popcount (ar_search_filter st SearchOp.EQ 0).1.candidates) := by
  have h : ar_search_reset (some ⟨0, 16, fun _ => 0⟩) 1 1 =
      some ⟨⟨0, 16, fun _ => 0⟩, 1, 1, 0, 16, 16,
        [255, 255], List.replicate 16 0, 16⟩ := by rfl
  obtain ⟨h1, h2, _, _⟩ := search_count_invariant.1 _ 1 1 _ h
  refine ⟨_, h, h1, h2, by decide, ?_⟩
  exact search_count_invariant.2 _ SearchOp.EQ 0 (by decide) (by rw [h1, h2])

/-! ## Breakpoint engine (`src/backend/breakpoint.cpp`)

The module statics (`g_bps`, `g_next_id`, `g_sub_to_bp`, `g_sub_failed`,
`g_deferred_deletes`) become a `BpState` value.  The core's
`subscribe`/`unsubscribe` interface is modelled by an environment: the
list of CPUs (for `find_cpu`), and an oracle giving the
`rd_SubscriptionID` returned by each successive `subscribe` call (negative
⇒ failure), consumed through a call counter carried in the state.
`unsubscribe` has no observable effect on the module state.  `auto_save`
(a file write) is not modelled. -/

/-- `AR_BP_EXECUTE`. -/
def AR_BP_EXECUTE : Nat := 0x1

/-- `AR_BP_READ`. -/
def AR_BP_READ : Nat := 0x2

/-- `AR_BP_WRITE`. -/
def AR_BP_WRITE : Nat := 0x4

/-- `struct ar_breakpoint` (the fixed `char` arrays become strings,
truncated to the array capacity where `strncpy` truncates). -/
structure ar_breakpoint where
  id : Int
  address : Nat
  enabled : Bool
  temporary : Bool
  flags : Nat
  condition : String
  cpu_id : String
deriving Repr, DecidableEq

/-- The slice of `rd_Cpu` that the breakpoint engine consults: the id
string and whether `v1.memory_region` is non-null. -/
structure BpCpu where
  id : String
  has_mem : Bool
deriving Repr, DecidableEq

/-- Environment of the breakpoint module: primary CPU, the system's CPU
list, presence of a usable debugger interface, and the subscribe oracle. -/
structure BpEnv where
  primary : Option BpCpu
  cpus : List BpCpu
  hasDif : Bool
  oracle : Nat → Int

/-- Module state (`g_bps` is a `std::map`, modelled as an id-sorted
association list; `g_sub_to_bp` an `unordered_map` (assoc list with
upsert); `g_sub_failed` a `std::set` of ids). -/
structure BpState where
  bps : List (Int × ar_breakpoint)
  next_id : Int
  sub_to_bp : List (Int × Int)
  sub_failed : List Int
  deferred : List Int
  oracle_pos : Nat
deriving Repr, DecidableEq

/-- `std::map` ordered insert-or-assign. -/
def map_insert (l : List (Int × ar_breakpoint)) (id : Int) (bp : ar_breakpoint) :
    List (Int × ar_breakpoint) :=
  match l with
  | [] => [(id, bp)]
  | (k, v) :: rest =>
    if id < k then (id, bp) :: (k, v) :: rest
    else if id = k then (id, bp) :: rest
    else (k, v) :: map_insert rest id bp

/-- `std::map::erase` by key. -/
def map_erase (l : List (Int × ar_breakpoint)) (id : Int) :
    List (Int × ar_breakpoint) :=
  match l with
  | [] => []
  | (k, v) :: rest => if k = id then rest else (k, v) :: map_erase rest id

/-- `std::map::find` by key. -/
def map_find (l : List (Int × ar_breakpoint)) (id : Int) : Option ar_breakpoint :=
  match l with
  | [] => none
  | (k, v) :: rest => if k = id then some v else map_find rest id

/-- `unordered_map` assignment `m[k] = v`. -/
def umap_set (l : List (Int × Int)) (k v : Int) : List (Int × Int) :=
  match l with
  | [] => [(k, v)]
  | (a, b) :: rest => if a = k then (a, v) :: rest else (a, b) :: umap_set rest k v

/-- `std::set::insert`. -/
def iset_insert (l : List Int) (x : Int) : List Int :=
  if x ∈ l then l else l ++ [x]

/-- `find_cpu(id)`: `NULL`/empty id yields the primary CPU, otherwise the
system's CPU list is searched by id string. -/
def find_cpu (env : BpEnv) (id : String) : Option BpCpu :=
  if id = "" then env.primary
  else env.cpus.find? (fun c => c.id = id)

/-- Per-record step of `sync_subscriptions`: subscribe the execution
watchpoint for an `X` record and the memory watchpoint for an `R|W`
record, recording failures (negative ids) by breakpoint id. -/
def sync_one (env : BpEnv) (acc : List (Int × Int) × List Int × Nat)
    (entry : Int × ar_breakpoint) : List (Int × Int) × List Int × Nat :=
  let (s2b, failed, pos) := acc
  let (id, bp) := entry
  if ¬bp.enabled then (s2b, failed, pos)
  else
    match find_cpu env bp.cpu_id with
    | none => (s2b, failed, pos)
    | some cpu =>
      let (s2b, failed, pos) :=
        if bp.flags &&& AR_BP_EXECUTE ≠ 0 then
          let sid := env.oracle pos
          if sid ≥ 0 then (umap_set s2b sid id, failed, pos + 1)
          else (s2b, iset_insert failed id, pos + 1)
        else (s2b, failed, pos)
      if bp.flags &&& (AR_BP_READ ||| AR_BP_WRITE) ≠ 0 then
        if ¬cpu.has_mem then (s2b, iset_insert failed id, pos)
        else
          let sid := env.oracle pos
          if sid ≥ 0 then (umap_set s2b sid id, failed, pos + 1)
          else (s2b, iset_insert failed id, pos + 1)
      else (s2b, failed, pos)

/-- `sync_subscriptions()`: unsubscribe everything, then walk the enabled
records in id order re-subscribing.  Without a debugger interface the
function returns immediately (leaving stale tables in place). -/
def bp_sync (env : BpEnv) (st : BpState) : BpState :=
  if ¬env.hasDif then st
  else
    let r := st.bps.foldl (sync_one env) ([], [], st.oracle_pos)
    { st with sub_to_bp := r.1, sub_failed := r.2.1, oracle_pos := r.2.2 }

/-- `ar_bp_add`: insert a fresh record, resynchronise, and roll back
(erase + resynchronise, returning `-1`) when the sync recorded a
subscription failure for the new record. -/
def ar_bp_add (env : BpEnv) (st : BpState) (addr : Nat) (flags : Nat)
    (enabled temporary : Bool) (cond cpu_id : Option String) : Int × BpState :=
  let bp : ar_breakpoint :=
    ⟨st.next_id, addr, enabled, temporary, flags,
      ⟨(cond.getD "").data.take 255⟩, ⟨(cpu_id.getD "").data.take 63⟩⟩
  let st := { st with next_id := st.next_id + 1,
                      bps := map_insert st.bps bp.id bp }
  let st := bp_sync env st
  if bp.id ∈ st.sub_failed then
    let st := { st with bps := map_erase st.bps bp.id }
    (-1, bp_sync env st)
  else (bp.id, st)

/-- `ar_bp_delete`. -/
def ar_bp_delete (env : BpEnv) (st : BpState) (id : Int) : Bool × BpState :=
  match map_find st.bps id with
  | none => (false, st)
  | some _ => (true, bp_sync env { st with bps := map_erase st.bps id })

/-- `ar_bp_replace`: overwrite every field but the id, resynchronise, and
restore the old field values (resynchronising again, returning `false`)
when the sync recorded a subscription failure for the record. -/
def ar_bp_replace (env : BpEnv) (st : BpState) (id : Int) (addr : Nat)
    (flags : Nat) (enabled temporary : Bool) (cond cpu_id : Option String) :
    Bool × BpState :=
  match map_find st.bps id with
  | none => (false, st)
  | some old =>
    let newbp : ar_breakpoint :=
      ⟨old.id, addr, enabled, temporary, flags,
        ⟨(cond.getD "").data.take 255⟩, ⟨(cpu_id.getD "").data.take 63⟩⟩
    let st := { st with bps := map_insert st.bps id newbp }
    let st := bp_sync env st
    if id ∈ st.sub_failed then
      let st := { st with bps := map_insert st.bps id old }
      (false, bp_sync env st)
    else (true, st)

/-- `ar_bp_clear`. -/
def ar_bp_clear (env : BpEnv) (st : BpState) : BpState :=
  bp_sync env { st with bps := [] }

/-! ### Breakpoint persistence (`ar_bp_save` / `ar_bp_load`)

The file is modelled as its list of lines (without terminators); `fgets`
splits on line feeds, and every saved line is far below the 512-byte line
buffer (cpu ≤ 63, address ≤ 16, flags ≤ 5, condition ≤ 255 characters). -/

/-- Flag letters of a record, in write order: `X`, `R`, `W`, then `t` for
temporary and `d` for disabled. -/
def bp_flags_string (bp : ar_breakpoint) : String :=
  (if bp.flags &&& AR_BP_EXECUTE ≠ 0 then "X" else "") ++
  (if bp.flags &&& AR_BP_READ ≠ 0 then "R" else "") ++
  (if bp.flags &&& AR_BP_WRITE ≠ 0 then "W" else "") ++
  (if bp.temporary then "t" else "") ++
  (if ¬bp.enabled then "d" else "")

/-- One saved line: `[cpu.]<%04lX addr> <flags>[t][d] [condition]`. -/
def bp_save_line (bp : ar_breakpoint) : String :=
  (if bp.cpu_id ≠ "" then bp.cpu_id ++ "." else "") ++
  (⟨fmtHex 4 (bp.address % 2 ^ 64)⟩ : String) ++ " " ++ bp_flags_string bp ++
  (if bp.condition ≠ "" then " " ++ bp.condition else "")

/-- `ar_bp_save`: one line per record, in id order. -/
def ar_bp_save_lines (bps : List (Int × ar_breakpoint)) : List String :=
  bps.map (fun p => bp_save_line p.2)

/-- `isspace` for `sscanf`. -/
def isSpaceC (c : Char) : Bool :=
  c = ' ' ∨ c = '\t' ∨ c = '\n' ∨ c = '\r' ∨ c = '\x0b' ∨ c = '\x0c'

/-- `sscanf` `%<w>s`: skip whitespace, read at most `w` non-whitespace
characters; returns the token and the remaining input. -/
def scan_s (w : Nat) (cs : List Char) : List Char × List Char :=
  let cs := cs.dropWhile isSpaceC
  let tok := (cs.takeWhile (fun c => ¬isSpaceC c)).take w
  (tok, cs.drop tok.length)

/-- `sscanf` `" %255[^\n]"`: skip whitespace, read at most 255 characters
up to a line feed. -/
def scan_rest (cs : List Char) : List Char × List Char :=
  let cs := cs.dropWhile isSpaceC
  let tok := (cs.takeWhile (fun c => c ≠ '\n')).take 255
  (tok, cs.drop tok.length)

/-- Value of a hex digit, if any. -/
def hexDigitVal (c : Char) : Option Nat :=
  if '0' ≤ c ∧ c ≤ '9' then some (c.toNat - 48)
  else if 'a' ≤ c ∧ c ≤ 'f' then some (c.toNat - 87)
  else if 'A' ≤ c ∧ c ≤ 'F' then some (c.toNat - 55)
  else none

/-- Hex accumulation, stopping at the first non-digit. -/
def hexAccum : List Char → Nat → Nat
  | [], v => v
  | c :: rest, v =>
    match hexDigitVal c with
    | some d => hexAccum rest (v * 16 + d)
    | none => v

/-- `strtoull(s, NULL, 16)` on the address token (overflow clamping is not
modelled; saved addresses have at most 16 digits). -/
def strtoull16 (cs : List Char) : Nat :=
  let cs := cs.dropWhile isSpaceC
  let cs := match cs with
    | '0' :: 'x' :: rest => rest
    | '0' :: 'X' :: rest => rest
    | _ => cs
  hexAccum cs 0

/-- Split the optional `cpu.` prefix at the first dot (`strchr`); a prefix
that is empty or 64+ characters long leaves the cpu id empty but still
strips through the dot. -/
def split_cpu (tok : List Char) : List Char × List Char :=
  match tok.findIdx? (fun c => c = '.') with
  | none => ([], tok)
  | some p =>
    let cpu := if 0 < p ∧ p < 64 then tok.take p else []
    (cpu, tok.drop (p + 1))

/-- Flag-letter parsing, case-insensitive via `c & ~0x20`; state is
`(flags, enabled, temporary)`. -/
def parse_bp_flags : List Char → Nat × Bool × Bool → Nat × Bool × Bool
  | [], acc => acc
  | c :: rest, (flags, enabled, temporary) =>
    let cu := c.toNat &&& 0xDF
    if cu = 88 then parse_bp_flags rest (flags ||| AR_BP_EXECUTE, enabled, temporary)
    else if cu = 82 then parse_bp_flags rest (flags ||| AR_BP_READ, enabled, temporary)
    else if cu = 87 then parse_bp_flags rest (flags ||| AR_BP_WRITE, enabled, temporary)
    else if cu = 68 then parse_bp_flags rest (flags, false, temporary)
    else if cu = 84 then parse_bp_flags rest (flags, enabled, true)
    else parse_bp_flags rest (flags, enabled, temporary)

/-- Trailing-whitespace trim of the condition (`' '` and `'\t'` only). -/
def trimTrailWs (cs : List Char) : List Char :=
  (cs.reverse.dropWhile (fun c => c = ' ' ∨ c = '\t')).reverse

/-- Strip trailing `'\n'`/`'\r'` characters (the line-terminator loop of
`ar_bp_load`). -/
def stripLineEnd (cs : List Char) : List Char :=
  (cs.reverse.dropWhile (fun c => c = '\n' ∨ c = '\r')).reverse

/-- Parse one line of a breakpoint file; `none` means the line is skipped
(blank, comment, or fewer than two `sscanf` assignments). -/
def parse_bp_line (line : String) : Option (String × Nat × Nat × Bool × Bool × String) :=
  match stripLineEnd line.data with
  | [] => none
  | c0 :: _ =>
    if c0 = '#' then none
    else
      let r1 := scan_s 127 (stripLineEnd line.data)
      if r1.1 = [] then none
      else
        let r2 := scan_s 63 r1.2
        if r2.1 = [] then none
        else
          let r3 := scan_rest r2.2
          let sc := split_cpu r1.1
          let addr := strtoull16 sc.2
          let pf := parse_bp_flags r2.1 (0, true, false)
          let cond := trimTrailWs r3.1
          some (⟨sc.1⟩, addr, pf.1, pf.2.1, pf.2.2, ⟨cond⟩)

/-- Resynchronisation never touches the record table itself. -/
theorem bp_sync_bps (env : BpEnv) (st : BpState) : (bp_sync env st).bps = st.bps := by
  unfold bp_sync
  split <;> rfl

/-- Resynchronisation never touches the id counter. -/
theorem bp_sync_next_id (env : BpEnv) (st : BpState) :
    (bp_sync env st).next_id = st.next_id := by
  unfold bp_sync
  split <;> rfl

/-- Erasing a freshly inserted (previously absent) key restores the map. -/
theorem map_erase_insert_fresh (l : List (Int × ar_breakpoint)) (k : Int)
    (v : ar_breakpoint) (h : k ∉ l.map Prod.fst) :
    map_erase (map_insert l k v) k = l := by
  induction l with
  | nil => simp [map_insert, map_erase]
  | cons a rest ih =>
    simp only [List.map_cons, List.mem_cons] at h
    push_neg at h
    obtain ⟨h1, h2⟩ := h
    simp only [map_insert]
    by_cases hlt : k < a.1
    · rw [if_pos hlt]
      simp [map_erase]
    · rw [if_neg hlt, if_neg h1]
      simp only [map_erase, if_neg (show ¬(a.1 = k) from fun he => h1 he.symm)]
      rw [ih h2]

/-- A found key is a key of the map. -/
theorem map_find_mem (l : List (Int × ar_breakpoint)) (k : Int) (v : ar_breakpoint)
    (h : map_find l k = some v) : k ∈ l.map Prod.fst := by
  induction l with
  | nil => simp [map_find] at h
  | cons a rest ih =>
    simp only [map_find] at h
    by_cases ha : a.1 = k
    · simp [ha]
    · rw [if_neg ha] at h
      simp [ih h]

/-- Re-inserting the old value over a replaced binding restores the map
(`std::map` keys are strictly sorted). -/
theorem map_insert_insert_old (l : List (Int × ar_breakpoint)) (k : Int)
    (vnew vold : ar_breakpoint) (hsorted : (l.map Prod.fst).Pairwise (· < ·))
    (hfind : map_find l k = some vold) :
    map_insert (map_insert l k vnew) k vold = l := by
  induction l with
  | nil => simp [map_find] at hfind
  | cons a rest ih =>
    simp only [List.map_cons, List.pairwise_cons] at hsorted
    obtain ⟨hhead, htail⟩ := hsorted
    simp only [map_find] at hfind
    by_cases heq : a.1 = k
    · rw [if_pos heq] at hfind
      injection hfind with hfind
      rw [show map_insert (a :: rest) k vnew = (k, vnew) :: rest by
        simp only [map_insert]
        rw [if_neg (by omega : ¬k < a.1), if_pos heq.symm]]
      rw [show map_insert ((k, vnew) :: rest) k vold = (k, vold) :: rest by
        simp only [map_insert]
        rw [if_neg (by omega : ¬k < k)]
        simp]
      have ha : a = (k, vold) := by
        obtain ⟨a1, a2⟩ := a
        simp only at heq hfind
        rw [heq, hfind]
      rw [ha]
    · rw [if_neg heq] at hfind
      have hmem : k ∈ rest.map Prod.fst := map_find_mem rest k vold hfind
      have hlt : a.1 < k := hhead k hmem
      rw [show map_insert (a :: rest) k vnew = a :: map_insert rest k vnew by
        simp only [map_insert]
        rw [if_neg (by omega : ¬k < a.1), if_neg (fun h : k = a.1 => heq h.symm)]]
      rw [show map_insert (a :: map_insert rest k vnew) k vold
          = a :: map_insert (map_insert rest k vnew) k vold by
        simp only [map_insert]
        rw [if_neg (by omega : ¬k < a.1), if_neg (fun h : k = a.1 => heq h.symm)]]
      rw [ih htail hfind]

/-- C2.  Breakpoint add/replace atomicity: whenever the post-mutation
synchronisation records a failed subscription for the mutated record,
`ar_bp_add` returns `-1` (resp. `ar_bp_replace` returns `false`) and the
final state is the pre-call breakpoint table, re-synchronised: the added
record is erased again (resp. the old field values are reinstated).
The freshness hypothesis (`ar_bp_add`) and the sorted-key hypothesis
(`ar_bp_replace`) are the `std::map` invariants of the live table. -/
theorem bp_add_replace_rollback :
    (∀ env st addr flags enabled temporary cond cpu_id,
      (∀ k ∈ st.bps.map Prod.fst, k < st.next_id) →
      ∀ stIns, stIns = bp_sync env ({ st with
          next_id := st.next_id + 1,
          bps := map_insert st.bps st.next_id
            ⟨st.next_id, addr, enabled, temporary, flags,
              ⟨(cond.getD "").data.take 255⟩, ⟨(cpu_id.getD "").data.take 63⟩⟩ }) →
      st.next_id ∈ stIns.sub_failed →
      ar_bp_add env st addr flags enabled temporary cond cpu_id =
        (-1, bp_sync env { stIns with bps := st.bps }) ∧
      (ar_bp_add env st addr flags enabled temporary cond cpu_id).2.bps = st.bps) ∧
    (∀ env st id addr flags enabled temporary cond cpu_id old,
      (st.bps.map Prod.fst).Pairwise (· < ·) →
      map_find st.bps id = some old →
      ∀ stIns, stIns = bp_sync env ({ st with
          bps := map_insert st.bps id
            ⟨old.id, addr, enabled, temporary, flags,
              ⟨(cond.getD "").data.take 255⟩, ⟨(cpu_id.getD "").data.take 63⟩⟩ }) →
      id ∈ stIns.sub_failed →
      ar_bp_replace env st id addr flags enabled temporary cond cpu_id =
        (false, bp_sync env { stIns with bps := st.bps }) ∧
      (ar_bp_replace env st id addr flags enabled temporary cond cpu_id).2.bps
        = st.bps) := by
  constructor
  · intro env st addr flags enabled temporary cond cpu_id hfresh stIns hIns hfail
    have hrestore : map_erase stIns.bps st.next_id = st.bps := by
      rw [hIns, bp_sync_bps]
      exact map_erase_insert_fresh st.bps st.next_id _
        (fun hmem => absurd (hfresh _ hmem) (by omega))
    have hmain : ar_bp_add env st addr flags enabled temporary cond cpu_id =
        (-1, bp_sync env { stIns with bps := st.bps }) := by
      unfold ar_bp_add
      dsimp only
      rw [← hIns, if_pos hfail, hrestore]
    exact ⟨hmain, by rw [hmain, bp_sync_bps]⟩
  · intro env st id addr flags enabled temporary cond cpu_id old hsorted hfind
      stIns hIns hfail
    have hrestore : map_insert stIns.bps id old = st.bps := by
      rw [hIns, bp_sync_bps]
      exact map_insert_insert_old st.bps id _ old hsorted hfind
    have hmain : ar_bp_replace env st id addr flags enabled temporary cond cpu_id =
        (false, bp_sync env { stIns with bps := st.bps }) := by
      unfold ar_bp_replace
      rw [hfind]
      dsimp only
      rw [← hIns, if_pos hfail, hrestore]
    exact ⟨hmain, by rw [hmain, bp_sync_bps]⟩

/-- Witness for C2: with an oracle that always fails subscriptions, adding
an execution breakpoint to an empty table rolls back (returns `-1`, table
stays empty), and replacing a flagless record with an execution breakpoint
rolls back (returns `false`, record keeps its old fields). -/
theorem bp_add_replace_rollback_witness :
    (ar_bp_add ⟨some ⟨"cpu0", true⟩, [], true, fun _ => -1⟩
        ⟨[], 1, [], [], [], 0⟩ 0x100 1 true false none none =
      (-1, bp_sync ⟨some ⟨"cpu0", true⟩, [], true, fun _ => -1⟩
        { bp_sync ⟨some ⟨"cpu0", true⟩, [], true, fun _ => -1⟩
            { bps := map_insert [] 1 ⟨1, 0x100, true, false, 1, ⟨[]⟩, ⟨[]⟩⟩,
              next_id := 2, sub_to_bp := [], sub_failed := [], deferred := [],
              oracle_pos := 0 } with bps := [] })) ∧
    (ar_bp_replace ⟨some ⟨"cpu0", true⟩, [], true, fun _ => -1⟩
        ⟨[(1, ⟨1, 0x200, true, false, 0, ⟨[]⟩, ⟨[]⟩⟩)], 2, [], [], [], 0⟩
        1 0x300 1 true false none none).2.bps =
      [(1, ⟨1, 0x200, true, false, 0, ⟨[]⟩, ⟨[]⟩⟩)] := by
  constructor
  · exact (bp_add_replace_rollback.1 ⟨some ⟨"cpu0", true⟩, [], true, fun _ => -1⟩
      ⟨[], 1, [], [], [], 0⟩ 0x100 1 true false none none (by simp) _ rfl
      (by decide)).1
  · exact (bp_add_replace_rollback.2 ⟨some ⟨"cpu0", true⟩, [], true, fun _ => -1⟩
      ⟨[(1, ⟨1, 0x200, true, false, 0, ⟨[]⟩, ⟨[]⟩⟩)], 2, [], [], [], 0⟩
      1 0x300 1 true false none none ⟨1, 0x200, true, false, 0, ⟨[]⟩, ⟨[]⟩⟩
      (by decide) (by decide) _ rfl (by decide)).2

theorem umap_set_mem (l : List (Int × Int)) (k v : Int) (p : Int × Int)
    (h : p ∈ umap_set l k v) : p ∈ l ∨ p.2 = v := by
  induction l with
  | nil => simp [umap_set] at h; simp [h]
  | cons a rest ih =>
    simp only [umap_set] at h
    by_cases ha : a.1 = k
    · rw [if_pos ha] at h
      rcases List.mem_cons.mp h with h | h
      · right; rw [h]
      · left; exact List.mem_cons_of_mem _ h
    · rw [if_neg ha] at h
      rcases List.mem_cons.mp h with h | h
      · left; exact h ▸ List.mem_cons_self _ _
      · rcases ih h with h | h
        · left; exact List.mem_cons_of_mem _ h
        · right; exact h

theorem iset_insert_mem (l : List Int) (y x : Int) (h : x ∈ iset_insert l y) :
    x ∈ l ∨ x = y := by
  unfold iset_insert at h
  by_cases hy : y ∈ l
  · rw [if_pos hy] at h
    exact Or.inl h
  · rw [if_neg hy] at h
    rcases List.mem_append.mp h with h | h
    · exact Or.inl h
    · exact Or.inr (List.mem_singleton.mp h)

/-- Failures recorded by one step of the sync walk stem from the record
being processed and only if it requests an execution or memory
subscription. -/
theorem sync_one_sources (env : BpEnv) (s2b : List (Int × Int)) (failed : List Int)
    (pos : Nat) (id : Int) (bp : ar_breakpoint) :
    (∀ x ∈ (sync_one env (s2b, failed, pos) (id, bp)).2.1,
      x ∈ failed ∨ (x = id ∧ (bp.flags &&& AR_BP_EXECUTE ≠ 0 ∨
        bp.flags &&& (AR_BP_READ ||| AR_BP_WRITE) ≠ 0))) ∧
    (∀ p ∈ (sync_one env (s2b, failed, pos) (id, bp)).1,
      p ∈ s2b ∨ (p.2 = id ∧ (bp.flags &&& AR_BP_EXECUTE ≠ 0 ∨
        bp.flags &&& (AR_BP_READ ||| AR_BP_WRITE) ≠ 0))) := by
  unfold sync_one
  dsimp only
  by_cases hen : ¬bp.enabled
  · rw [if_pos hen]
    exact ⟨fun x hx => Or.inl hx, fun p hp => Or.inl hp⟩
  · rw [if_neg hen]
    rcases hfc : find_cpu env bp.cpu_id with _ | cpu
    · exact ⟨fun x hx => Or.inl hx, fun p hp => Or.inl hp⟩
    · by_cases hx : bp.flags &&& AR_BP_EXECUTE ≠ 0
      · rw [if_pos hx]
        by_cases ho : env.oracle pos ≥ 0
        · rw [if_pos ho]
          dsimp only
          by_cases hrw : bp.flags &&& (AR_BP_READ ||| AR_BP_WRITE) ≠ 0
          · rw [if_pos hrw]
            by_cases hm : ¬cpu.has_mem
            · rw [if_pos hm]
              refine ⟨fun x hxx => ?_, fun p hp => ?_⟩
              · rcases iset_insert_mem failed id x hxx with h | h
                · exact Or.inl h
                · exact Or.inr ⟨h, Or.inl hx⟩
              · rcases umap_set_mem s2b (env.oracle pos) id p hp with h | h
                · exact Or.inl h
                · exact Or.inr ⟨h, Or.inl hx⟩
            · rw [if_neg hm]
              by_cases ho2 : env.oracle (pos + 1) ≥ 0
              · rw [if_pos ho2]
                refine ⟨fun x hxx => Or.inl hxx, fun p hp => ?_⟩
                rcases umap_set_mem _ (env.oracle (pos + 1)) id p hp with h | h
                · rcases umap_set_mem s2b (env.oracle pos) id p h with h2 | h2
                  · exact Or.inl h2
                  · exact Or.inr ⟨h2, Or.inl hx⟩
                · exact Or.inr ⟨h, Or.inl hx⟩
              · rw [if_neg ho2]
                refine ⟨fun x hxx => ?_, fun p hp => ?_⟩
                · rcases iset_insert_mem failed id x hxx with h | h
                  · exact Or.inl h
                  · exact Or.inr ⟨h, Or.inl hx⟩
                · rcases umap_set_mem s2b (env.oracle pos) id p hp with h | h
                  · exact Or.inl h
                  · exact Or.inr ⟨h, Or.inl hx⟩
          · rw [if_neg hrw]
            refine ⟨fun x hxx => Or.inl hxx, fun p hp => ?_⟩
            rcases umap_set_mem s2b (env.oracle pos) id p hp with h | h
            · exact Or.inl h
            · exact Or.inr ⟨h, Or.inl hx⟩
        · rw [if_neg ho]
          dsimp only
          by_cases hrw : bp.flags &&& (AR_BP_READ ||| AR_BP_WRITE) ≠ 0
          · rw [if_pos hrw]
            by_cases hm : ¬cpu.has_mem
            · rw [if_pos hm]
              refine ⟨fun x hxx => ?_, fun p hp => Or.inl hp⟩
              rcases iset_insert_mem _ id x hxx with h | h
              · rcases iset_insert_mem failed id x h with h2 | h2
                · exact Or.inl h2
                · exact Or.inr ⟨h2, Or.inl hx⟩
              · exact Or.inr ⟨h, Or.inl hx⟩
            · rw [if_neg hm]
              by_cases ho2 : env.oracle (pos + 1) ≥ 0
              · rw [if_pos ho2]
                refine ⟨fun x hxx => ?_, fun p hp => ?_⟩
                · rcases iset_insert_mem failed id x hxx with h | h
                  · exact Or.inl h
                  · exact Or.inr ⟨h, Or.inl hx⟩
                · rcases umap_set_mem s2b (env.oracle (pos + 1)) id p hp with h | h
                  · exact Or.inl h
                  · exact Or.inr ⟨h, Or.inl hx⟩
              · rw [if_neg ho2]
                refine ⟨fun x hxx => ?_, fun p hp => Or.inl hp⟩
                rcases iset_insert_mem _ id x hxx with h | h
                · rcases iset_insert_mem failed id x h with h2 | h2
                  · exact Or.inl h2
                  · exact Or.inr ⟨h2, Or.inl hx⟩
                · exact Or.inr ⟨h, Or.inl hx⟩
          · rw [if_neg hrw]
            refine ⟨fun x hxx => ?_, fun p hp => Or.inl hp⟩
            rcases iset_insert_mem failed id x hxx with h | h
            · exact Or.inl h
            · exact Or.inr ⟨h, Or.inl hx⟩
      · rw [if_neg hx]
        dsimp only
        by_cases hrw : bp.flags &&& (AR_BP_READ ||| AR_BP_WRITE) ≠ 0
        · rw [if_pos hrw]
          by_cases hm : ¬cpu.has_mem
          · rw [if_pos hm]
            refine ⟨fun x hxx => ?_, fun p hp => Or.inl hp⟩
            rcases iset_insert_mem failed id x hxx with h | h
            · exact Or.inl h
            · exact Or.inr ⟨h, Or.inr hrw⟩
          · rw [if_neg hm]
            by_cases ho2 : env.oracle pos ≥ 0
            · rw [if_pos ho2]
              refine ⟨fun x hxx => Or.inl hxx, fun p hp => ?_⟩
              rcases umap_set_mem s2b (env.oracle pos) id p hp with h | h
              · exact Or.inl h
              · exact Or.inr ⟨h, Or.inr hrw⟩
            · rw [if_neg ho2]
              refine ⟨fun x hxx => ?_, fun p hp => Or.inl hp⟩
              rcases iset_insert_mem failed id x hxx with h | h
              · exact Or.inl h
              · exact Or.inr ⟨h, Or.inr hrw⟩
        · rw [if_neg hrw]
          exact ⟨fun x hxx => Or.inl hxx, fun p hp => Or.inl hp⟩

/-- Sources of the full sync walk: every recorded failure and every
subscription binding points at a table record that requests an execution
or memory subscription. -/
theorem sync_fold_sources (env : BpEnv) :
    ∀ (bps : List (Int × ar_breakpoint)) (acc : List (Int × Int) × List Int × Nat),
      (∀ x ∈ (bps.foldl (sync_one env) acc).2.1,
        x ∈ acc.2.1 ∨ ∃ bp, (x, bp) ∈ bps ∧ (bp.flags &&& AR_BP_EXECUTE ≠ 0 ∨
          bp.flags &&& (AR_BP_READ ||| AR_BP_WRITE) ≠ 0)) ∧
      (∀ p ∈ (bps.foldl (sync_one env) acc).1,
        p ∈ acc.1 ∨ ∃ bp, (p.2, bp) ∈ bps ∧ (bp.flags &&& AR_BP_EXECUTE ≠ 0 ∨
          bp.flags &&& (AR_BP_READ ||| AR_BP_WRITE) ≠ 0)) := by
  intro bps
  induction bps with
  | nil => intro acc; simp
  | cons a rest ih =>
    intro acc
    rw [List.foldl_cons]
    obtain ⟨ihf, ihs⟩ := ih (sync_one env acc a)
    obtain ⟨h1f, h1s⟩ := sync_one_sources env acc.1 acc.2.1 acc.2.2 a.1 a.2
    constructor
    · intro x hx
      rcases ihf x hx with h | ⟨bp, hbp, hfl⟩
      · rcases h1f x h with h2 | ⟨hx2, hfl⟩
        · exact Or.inl h2
        · exact Or.inr ⟨a.2, by rw [hx2]; exact ⟨List.mem_cons_self _ _, hfl⟩⟩
      · exact Or.inr ⟨bp, List.mem_cons_of_mem _ hbp, hfl⟩
    · intro p hp
      rcases ihs p hp with h | ⟨bp, hbp, hfl⟩
      · rcases h1s p h with h2 | ⟨hp2, hfl⟩
        · exact Or.inl h2
        · exact Or.inr ⟨a.2, by rw [hp2]; exact ⟨List.mem_cons_self _ _, hfl⟩⟩
      · exact Or.inr ⟨bp, List.mem_cons_of_mem _ hbp, hfl⟩

/-- Membership after an ordered insert. -/
theorem mem_map_insert (l : List (Int × ar_breakpoint)) (k : Int)
    (v : ar_breakpoint) (p : Int × ar_breakpoint) (h : p ∈ map_insert l k v) :
    p = (k, v) ∨ p ∈ l := by
  induction l with
  | nil => simp [map_insert] at h; exact Or.inl h
  | cons a rest ih =>
    simp only [map_insert] at h
    by_cases hlt : k < a.1
    · rw [if_pos hlt] at h
      rcases List.mem_cons.mp h with h | h
      · exact Or.inl h
      · exact Or.inr h
    · rw [if_neg hlt] at h
      by_cases heq : k = a.1
      · rw [if_pos heq] at h
        rcases List.mem_cons.mp h with h | h
        · exact Or.inl h
        · exact Or.inr (List.mem_cons_of_mem _ h)
      · rw [if_neg heq] at h
        rcases List.mem_cons.mp h with h | h
        · exact Or.inr (h ▸ List.mem_cons_self _ _)
        · rcases ih h with h | h
          · exact Or.inl h
          · exact Or.inr (List.mem_cons_of_mem _ h)

/-- A binding read back from a fresh ordered insert is the inserted one. -/
theorem mem_map_insert_fresh (l : List (Int × ar_breakpoint)) (k : Int)
    (v v' : ar_breakpoint) (hfresh : k ∉ l.map Prod.fst)
    (h : (k, v') ∈ map_insert l k v) : v' = v := by
  rcases mem_map_insert l k v (k, v') h with h2 | h2
  · injection h2 with _ h2
  · exact absurd (List.mem_map_of_mem Prod.fst h2) hfresh

/-- Clearing the low three bits clears the execute bit and the
read/write bits. -/
theorem and_seven_zero (x : Nat) (h : x &&& 7 = 0) : x &&& 1 = 0 ∧ x &&& 6 = 0 := by
  have hb : ∀ j, x.testBit j = true → ¬(j < 3) := by
    intro j hj hlt
    have h3 : (x &&& 7).testBit j = true := by
      rw [Nat.testBit_and, hj]
      rw [show (7 : Nat) = 2 ^ 3 - 1 from by norm_num, Nat.testBit_two_pow_sub_one]
      simp [hlt]
    rw [h] at h3
    simp at h3
  constructor
  · apply Nat.eq_of_testBit_eq
    intro j
    rw [Nat.testBit_and, Nat.zero_testBit]
    by_cases hj : j < 3
    · have hx : x.testBit j = false := by
        rcases hxx : x.testBit j with _ | _
        · rfl
        · exact absurd hj (hb j hxx)
      simp [hx]
    · have hp : (2 : Nat) ^ 3 ≤ 2 ^ j := Nat.pow_le_pow_right (by norm_num) (by omega)
      have h1 : (1 : Nat).testBit j = false :=
        Nat.testBit_eq_false_of_lt (by norm_num at hp ⊢; omega)
      simp [h1]
  · apply Nat.eq_of_testBit_eq
    intro j
    rw [Nat.testBit_and, Nat.zero_testBit]
    by_cases hj : j < 3
    · have hx : x.testBit j = false := by
        rcases hxx : x.testBit j with _ | _
        · rfl
        · exact absurd hj (hb j hxx)
      simp [hx]
    · have hp : (2 : Nat) ^ 3 ≤ 2 ^ j := Nat.pow_le_pow_right (by norm_num) (by omega)
      have h6 : (6 : Nat).testBit j = false :=
        Nat.testBit_eq_false_of_lt (by norm_num at hp ⊢; omega)
      simp [h6]

/-- With a debugger interface present, every failure recorded by a sync
names a table record requesting an execution or memory subscription. -/
theorem bp_sync_failed_sources (env : BpEnv) (st : BpState)
    (hdif : env.hasDif = true) :
    ∀ x ∈ (bp_sync env st).sub_failed,
      ∃ bp, (x, bp) ∈ st.bps ∧ (bp.flags &&& AR_BP_EXECUTE ≠ 0 ∨
        bp.flags &&& (AR_BP_READ ||| AR_BP_WRITE) ≠ 0) := by
  intro x hx
  unfold bp_sync at hx
  rw [if_neg (by simp [hdif])] at hx
  dsimp only at hx
  rcases (sync_fold_sources env st.bps ([], [], st.oracle_pos)).1 x hx with h | h
  · simp at h
  · exact h

/-- With a debugger interface present, every subscription binding created
by a sync names a table record requesting an execution or memory
subscription. -/
theorem bp_sync_s2b_sources (env : BpEnv) (st : BpState)
    (hdif : env.hasDif = true) :
    ∀ p ∈ (bp_sync env st).sub_to_bp,
      ∃ bp, (p.2, bp) ∈ st.bps ∧ (bp.flags &&& AR_BP_EXECUTE ≠ 0 ∨
        bp.flags &&& (AR_BP_READ ||| AR_BP_WRITE) ≠ 0) := by
  intro p hp
  unfold bp_sync at hp
  rw [if_neg (by simp [hdif])] at hp
  dsimp only at hp
  rcases (sync_fold_sources env st.bps ([], [], st.oracle_pos)).2 p hp with h | h
  · simp at h
  · exact h

/-- C9.  `ar_bp_add` with a flags value containing none of X, R, W
succeeds (returning the fresh positive id) and the subsequent
synchronisation creates no subscription bound to that record, so the
breakpoint is stored but can never fire. -/
theorem bp_add_no_flags (env : BpEnv) (st : BpState) (addr : Nat)
    (enabled temporary : Bool) (cond cpu_id : Option String) (flags : Nat)
    (hflags : flags &&& (AR_BP_EXECUTE ||| AR_BP_READ ||| AR_BP_WRITE) = 0)
    (hdif : env.hasDif = true) (hpos : 0 < st.next_id)
    (hfresh : ∀ k ∈ st.bps.map Prod.fst, k < st.next_id) :
    (ar_bp_add env st addr flags enabled temporary cond cpu_id).1 = st.next_id ∧
    0 < (ar_bp_add env st addr flags enabled temporary cond cpu_id).1 ∧
    (ar_bp_add env st addr flags enabled temporary cond cpu_id).1 ∉
      st.bps.map Prod.fst ∧
    (∀ p ∈ (ar_bp_add env st addr flags enabled temporary cond cpu_id).2.sub_to_bp,
      p.2 ≠ (ar_bp_add env st addr flags enabled temporary cond cpu_id).1) := by
  have h7 : flags &&& 7 = 0 := by
    rw [show (7 : Nat) = AR_BP_EXECUTE ||| AR_BP_READ ||| AR_BP_WRITE from by decide]
    exact hflags
  obtain ⟨h1, h6⟩ := and_seven_zero flags h7
  have hnomatch : ∀ (stI : BpState),
      stI.bps = map_insert st.bps st.next_id
        ⟨st.next_id, addr, enabled, temporary, flags,
          ⟨(cond.getD "").data.take 255⟩, ⟨(cpu_id.getD "").data.take 63⟩⟩ →
      ∀ bp, (st.next_id, bp) ∈ stI.bps →
        ¬(bp.flags &&& AR_BP_EXECUTE ≠ 0 ∨
          bp.flags &&& (AR_BP_READ ||| AR_BP_WRITE) ≠ 0) := by
    intro stI hbps bp hbp
    rw [hbps] at hbp
    have hnotkey : st.next_id ∉ st.bps.map Prod.fst :=
      fun hmem => absurd (hfresh _ hmem) (by omega)
    have hbpv := mem_map_insert_fresh st.bps st.next_id _ bp hnotkey hbp
    rw [hbpv]
    simp only [AR_BP_EXECUTE, AR_BP_READ, AR_BP_WRITE]
    rw [show (0x2 : Nat) ||| 0x4 = 6 from by decide]
    simp [h1, h6]
  have hres : ar_bp_add env st addr flags enabled temporary cond cpu_id
      = (st.next_id, bp_sync env ({ st with
          next_id := st.next_id + 1,
          bps := map_insert st.bps st.next_id
            ⟨st.next_id, addr, enabled, temporary, flags,
              ⟨(cond.getD "").data.take 255⟩, ⟨(cpu_id.getD "").data.take 63⟩⟩ })) := by
    unfold ar_bp_add
    dsimp only
    split
    · next hmem =>
      obtain ⟨bp, hbp, hcond⟩ := bp_sync_failed_sources env _ hdif _ hmem
      exact absurd hcond (hnomatch _ rfl bp hbp)
    · rfl
  refine ⟨by rw [hres], by rw [hres]; exact hpos, ?_, ?_⟩
  · rw [hres]
    exact fun hmem => absurd (hfresh _ hmem) (by omega)
  · intro p hp
    rw [hres] at hp ⊢
    obtain ⟨bp, hbp, hcond⟩ := bp_sync_s2b_sources env _ hdif p hp
    intro hpn
    rw [hpn] at hbp
    exact absurd hcond (hnomatch _ rfl bp hbp)

/-- Witness for C9: adding a flagless breakpoint to an empty table in a
working debugger environment returns id 1 and creates no subscription. -/
theorem bp_add_no_flags_witness :
    (ar_bp_add ⟨some ⟨"cpu0", true⟩, [], true, fun n => (n : Int)⟩
        ⟨[], 1, [], [], [], 0⟩ 0x100 0 true false none none).1 = 1 ∧
    0 < (ar_bp_add ⟨some ⟨"cpu0", true⟩, [], true, fun n => (n : Int)⟩
        ⟨[], 1, [], [], [], 0⟩ 0x100 0 true false none none).1 ∧
    (ar_bp_add ⟨some ⟨"cpu0", true⟩, [], true, fun n => (n : Int)⟩
        ⟨[], 1, [], [], [], 0⟩ 0x100 0 true false none none).1 ∉
      (([] : List (Int × ar_breakpoint)).map Prod.fst) ∧
    (∀ p ∈ (ar_bp_add ⟨some ⟨"cpu0", true⟩, [], true, fun n => (n : Int)⟩
        ⟨[], 1, [], [], [], 0⟩ 0x100 0 true false none none).2.sub_to_bp,
      p.2 ≠ (ar_bp_add ⟨some ⟨"cpu0", true⟩, [], true, fun n => (n : Int)⟩
        ⟨[], 1, [], [], [], 0⟩ 0x100 0 true false none none).1) :=
  bp_add_no_flags ⟨some ⟨"cpu0", true⟩, [], true, fun n => (n : Int)⟩
    ⟨[], 1, [], [], [], 0⟩ 0x100 true false none none 0
    (by decide) rfl (by decide) (by simp)

/-- One line of `ar_bp_load`: skipped, or fed to `ar_bp_add` (empty
condition and cpu strings are passed as `NULL`). -/
def load_step (env : BpEnv) (st : BpState) (line : String) : BpState :=
  match parse_bp_line line with
  | none => st
  | some (cpu, addr, flags, enabled, temporary, cond) =>
    (ar_bp_add env st addr flags enabled temporary
      (if cond ≠ "" then some cond else none)
      (if cpu ≠ "" then some cpu else none)).2

/-- `ar_bp_load`: clear the table, then add a record per parseable line
(the auto-save suppression has no observable effect here). -/
def ar_bp_load (env : BpEnv) (st : BpState) (lines : List String) : BpState :=
  lines.foldl (load_step env) (ar_bp_clear env st)

/-! ### Persistence round-trip toolkit -/

/-- Characters emitted by `hexDigitsAux` are uppercase hex digits. -/
theorem hexDigitsAux_mem (fuel : Nat) :
    ∀ n, ∀ c ∈ hexDigitsAux fuel n, ∃ d, d < 16 ∧ c = hexDigitU d := by
  induction fuel with
  | zero => intro n c hc; simp [hexDigitsAux] at hc
  | succ fuel ih =>
    intro n c hc
    match n with
    | 0 => simp [hexDigitsAux] at hc
    | m + 1 =>
      simp only [hexDigitsAux, List.mem_append, List.mem_singleton] at hc
      rcases hc with hc | hc
      · exact ih _ c hc
      · exact ⟨(m + 1) % 16, Nat.mod_lt _ (by norm_num), hc⟩

/-- An uppercase hex digit is not whitespace, a separator, or an `0x`
marker, and `hexDigitVal` inverts it. -/
theorem hexDigitU_props : ∀ d < 16, isSpaceC (hexDigitU d) = false ∧
    hexDigitU d ≠ '.' ∧ hexDigitU d ≠ '#' ∧ hexDigitU d ≠ '\n' ∧
    hexDigitU d ≠ '\r' ∧ hexDigitU d ≠ 'x' ∧ hexDigitU d ≠ 'X' ∧
    hexDigitVal (hexDigitU d) = some d := by decide

/-- Characters of `fmtHex` are uppercase hex digits. -/
theorem fmtHex_mem (w n : Nat) :
    ∀ c ∈ fmtHex w n, ∃ d, d < 16 ∧ c = hexDigitU d := by
  intro c hc
  unfold fmtHex at hc
  simp only [List.mem_append] at hc
  rcases hc with hc | hc
  · exact ⟨0, by norm_num, by simpa using (List.eq_of_mem_replicate hc)⟩
  · by_cases hn : n = 0
    · rw [if_pos hn] at hc
      simp at hc
      exact ⟨0, by norm_num, by simpa using hc⟩
    · rw [if_neg hn] at hc
      exact hexDigitsAux_mem n n c hc

/-- `takeWhile` keeps a list all of whose elements satisfy the test. -/
theorem takeWhile_all (p : Char → Bool) (xs : List Char)
    (h : ∀ x ∈ xs, p x = true) : xs.takeWhile p = xs :=
  List.takeWhile_eq_self_iff.mpr h

/-- `takeWhile` over an all-satisfying prefix. -/
theorem takeWhile_append_all (p : Char → Bool) (xs ys : List Char)
    (h : ∀ x ∈ xs, p x = true) :
    (xs ++ ys).takeWhile p = xs ++ ys.takeWhile p := by
  induction xs with
  | nil => simp
  | cons a xs ih =>
    rw [List.cons_append, List.takeWhile_cons_of_pos (h a (List.mem_cons_self a xs)),
      ih (fun x hx => h x (List.mem_cons_of_mem a hx)), List.cons_append]

/-- `dropWhile` is the identity when the head fails the test. -/
theorem dropWhile_head_neg (p : Char → Bool) (l : List Char)
    (h : ∀ x ∈ l.head?, p x = false) : l.dropWhile p = l := by
  cases l with
  | nil => rfl
  | cons a t => exact List.dropWhile_cons_of_neg (by simpa using h a rfl)

/-- Reverse-side `dropWhile` is the identity when the last element fails
the test. -/
theorem reverse_dropWhile_id (p : Char → Bool) (xs : List Char)
    (h : ∀ c ∈ xs.getLast?, p c = false) :
    (xs.reverse.dropWhile p).reverse = xs := by
  rw [dropWhile_head_neg p xs.reverse
    (fun x hx => h x (by rwa [List.head?_reverse] at hx)), List.reverse_reverse]

/-- A `%s` scan over a non-empty non-space token followed by a space (or
the end of input) returns exactly the token. -/
theorem scan_s_exact (w : Nat) (tok rest : List Char)
    (hne : tok ≠ []) (htok : ∀ c ∈ tok, isSpaceC c = false)
    (hw : tok.length ≤ w)
    (hrest : ∀ c ∈ rest.head?, isSpaceC c = true) :
    scan_s w (tok ++ rest) = (tok, rest) := by
  unfold scan_s
  dsimp only
  have hdw : (tok ++ rest).dropWhile isSpaceC = tok ++ rest := by
    apply dropWhile_head_neg
    intro x hx
    cases tok with
    | nil => exact absurd rfl hne
    | cons a t =>
      simp only [List.cons_append, List.head?_cons, Option.mem_def,
        Option.some.injEq] at hx
      exact hx ▸ htok a (List.mem_cons_self a t)
  have htw : (tok ++ rest).takeWhile (fun c => ¬isSpaceC c) = tok := by
    rw [takeWhile_append_all _ _ _ (fun x hx => by simp [htok x hx])]
    cases rest with
    | nil => simp
    | cons c r2 =>
      rw [List.takeWhile_cons_of_neg (by simpa using hrest c rfl)]
      simp
  rw [hdw, htw, List.take_of_length_le hw, List.drop_left]

/-- The `%255[^\n]` scan of a space followed by a well-formed condition
returns exactly the condition. -/
theorem scan_rest_exact (cond : List Char)
    (hh : ∀ c ∈ cond.head?, isSpaceC c = false)
    (hnn : ∀ c ∈ cond, c ≠ '\n') (hlen : cond.length ≤ 255) :
    scan_rest (' ' :: cond) = (cond, []) := by
  unfold scan_rest
  dsimp only
  rw [List.dropWhile_cons_of_pos (by decide), dropWhile_head_neg _ _ hh,
    takeWhile_all _ _ (fun x hx => by simpa using hnn x hx),
    List.take_of_length_le hlen, List.drop_length]

/-- Trailing-whitespace trimming is the identity when the last character
is not a space or a tab. -/
theorem trimTrailWs_id (xs : List Char)
    (h : ∀ c ∈ xs.getLast?, c ≠ ' ' ∧ c ≠ '\t') : trimTrailWs xs = xs := by
  unfold trimTrailWs
  exact reverse_dropWhile_id _ _ (fun c hc => by simpa using h c hc)

/-- Line-terminator stripping is the identity when the last character is
not a line feed or a carriage return. -/
theorem stripLineEnd_id (xs : List Char)
    (h : ∀ c ∈ xs.getLast?, c ≠ '\n' ∧ c ≠ '\r') : stripLineEnd xs = xs := by
  unfold stripLineEnd
  exact reverse_dropWhile_id _ _ (fun c hc => by simpa using h c hc)

/-- `findIdx?` over a clean prefix finds the first satisfying position. -/
theorem findIdx_append_first (p : Char → Bool) (xs : List Char) (c : Char)
    (ys : List Char) (hxs : ∀ x ∈ xs, p x = false) (hc : p c = true) :
    (xs ++ c :: ys).findIdx? p = some xs.length := by
  induction xs with
  | nil => simp [List.findIdx?_cons, hc]
  | cons a xs ih =>
    rw [List.cons_append, List.findIdx?_cons,
      if_neg (by simp [hxs a (List.mem_cons_self a xs)]), List.findIdx?_succ,
      ih (fun x hx => hxs x (List.mem_cons_of_mem a hx))]
    simp

/-- `findIdx?` over a list with no satisfying element. -/
theorem findIdx_none (p : Char → Bool) (xs : List Char)
    (h : ∀ x ∈ xs, p x = false) : xs.findIdx? p = none := by
  rw [List.findIdx?_eq_none_iff]
  intro x hx
  simpa using h x hx

/-- Hex accumulation distributes over appending when the prefix is all
digits. -/
theorem hexAccum_append (xs ys : List Char) (v : Nat)
    (h : ∀ x ∈ xs, (hexDigitVal x).isSome) :
    hexAccum (xs ++ ys) v = hexAccum ys (hexAccum xs v) := by
  induction xs generalizing v with
  | nil => rfl
  | cons a xs ih =>
    have ha := h a (List.mem_cons_self a xs)
    obtain ⟨d, hd⟩ := Option.isSome_iff_exists.mp ha
    rw [List.cons_append]
    simp only [hexAccum, hd]
    exact ih _ (fun x hx => h x (List.mem_cons_of_mem a hx))

/-- Hex accumulation of the digit string of `n` (with enough fuel)
recovers `n`. -/
theorem hexAccum_digitsAux (fuel : Nat) :
    ∀ n v, n < 16 ^ fuel →
      hexAccum (hexDigitsAux fuel n) v = v * 16 ^ (hexDigitsAux fuel n).length + n := by
  induction fuel with
  | zero =>
    intro n v h
    interval_cases n
    simp [hexDigitsAux, hexAccum]
  | succ fuel ih =>
    intro n v h
    match n with
    | 0 => simp [hexDigitsAux, hexAccum]
    | m + 1 =>
      have hdig : ∀ x ∈ hexDigitsAux fuel ((m + 1) / 16), (hexDigitVal x).isSome := by
        intro x hx
        obtain ⟨d, hd, rfl⟩ := hexDigitsAux_mem fuel _ x hx
        rw [(hexDigitU_props d hd).2.2.2.2.2.2.2]
        rfl
      have hlt : (m + 1) / 16 < 16 ^ fuel := by
        rw [Nat.div_lt_iff_lt_mul (by norm_num)]
        calc m + 1 < 16 ^ (fuel + 1) := h
        _ = 16 ^ fuel * 16 := by ring
      simp only [hexDigitsAux]
      rw [hexAccum_append _ _ _ hdig, ih _ v hlt]
      simp only [hexAccum,
        (hexDigitU_props ((m + 1) % 16) (Nat.mod_lt _ (by norm_num))).2.2.2.2.2.2.2]
      rw [List.length_append, List.length_singleton]
      have hdm := Nat.div_add_mod (m + 1) 16
      ring_nf
      omega

/-- On an all-digit token `strtoull` is plain hex accumulation (no
whitespace to skip, no `0x` prefix to strip). -/
theorem strtoull16_digits (xs : List Char)
    (h : ∀ c ∈ xs, ∃ d, d < 16 ∧ c = hexDigitU d) :
    strtoull16 xs = hexAccum xs 0 := by
  unfold strtoull16
  dsimp only
  have hdw : xs.dropWhile isSpaceC = xs := by
    apply dropWhile_head_neg
    intro x hx
    have hmem : x ∈ xs := by
      cases xs with
      | nil => simp at hx
      | cons a t =>
        simp only [List.head?_cons, Option.mem_def, Option.some.injEq] at hx
        rw [← hx]
        exact List.mem_cons_self a t
    obtain ⟨d, hd, rfl⟩ := h x hmem
    exact (hexDigitU_props d hd).1
  rw [hdw]
  split
  next rest =>
    exfalso
    obtain ⟨d, hd, hcx⟩ := h 'x' (by simp)
    exact (hexDigitU_props d hd).2.2.2.2.2.1 hcx.symm
  next rest =>
    exfalso
    obtain ⟨d, hd, hcx⟩ := h 'X' (by simp)
    exact (hexDigitU_props d hd).2.2.2.2.2.2.1 hcx.symm
  next => rfl

/-- `strtoull(·, NULL, 16)` inverts `%0wX` formatting. -/
theorem strtoull16_fmtHex (w n : Nat) : strtoull16 (fmtHex w n) = n := by
  rw [strtoull16_digits _ (fmtHex_mem w n)]
  unfold fmtHex
  have hz : ∀ k v, hexAccum (List.replicate k '0') v = v * 16 ^ k := by
    intro k
    induction k with
    | zero => intro v; simp [hexAccum]
    | succ k ih =>
      intro v
      rw [List.replicate_succ]
      simp only [hexAccum, show hexDigitVal '0' = some 0 from rfl]
      rw [ih]
      ring
  rw [hexAccum_append _ _ 0 (by
    intro x hx
    have : ∃ d, d < 16 ∧ x = hexDigitU d :=
      ⟨0, by norm_num, by simpa using List.eq_of_mem_replicate hx⟩
    obtain ⟨d, hd, rfl⟩ := this
    rw [(hexDigitU_props d hd).2.2.2.2.2.2.2]
    rfl), hz, Nat.zero_mul]
  by_cases hn : n = 0
  · subst hn
    rfl
  · rw [if_neg hn]
    have := hexAccum_digitsAux n n 0 (Nat.lt_pow_self (by norm_num) n)
    simpa using this

/-- Digit-count bound: `n < 16 ^ k` yields at most `k` hex digits. -/
theorem hexDigitsAux_length_le (fuel : Nat) :
    ∀ n k, n < 16 ^ k → (hexDigitsAux fuel n).length ≤ k := by
  induction fuel with
  | zero => intro n k _; simp [hexDigitsAux]
  | succ fuel ih =>
    intro n k h
    match n with
    | 0 => simp [hexDigitsAux]
    | m + 1 =>
      match k with
      | 0 => simp at h
      | k + 1 =>
        have hlt : (m + 1) / 16 < 16 ^ k := by
          rw [Nat.div_lt_iff_lt_mul (by norm_num)]
          calc m + 1 < 16 ^ (k + 1) := h
          _ = 16 ^ k * 16 := by ring
        simp only [hexDigitsAux, List.length_append, List.length_singleton]
        have := ih ((m + 1) / 16) k hlt
        omega

/-- A `%04lX`-formatted 64-bit address is at most 16 characters long. -/
theorem fmtHex4_length_le (a : Nat) (h : a < 2 ^ 64) : (fmtHex 4 a).length ≤ 16 := by
  unfold fmtHex
  have hds : (if a = 0 then ['0'] else hexDigits a).length ≤ 16 := by
    by_cases ha : a = 0
    · simp [ha]
    · rw [if_neg ha]
      exact hexDigitsAux_length_le a a 16 (by norm_num at h ⊢; omega)
  simp only [List.length_append, List.length_replicate]
  omega

/-- Masking with a single bit, as a conditional. -/
theorem and_one_ite (x : Nat) : x &&& 1 = if x.testBit 0 then 1 else 0 := by
  have h := Nat.and_two_pow x 0
  rw [pow_zero] at h
  rw [h]
  cases x.testBit 0 <;> simp

/-- Masking with bit 1, as a conditional. -/
theorem and_two_ite (x : Nat) : x &&& 2 = if x.testBit 1 then 2 else 0 := by
  have h := Nat.and_two_pow x 1
  rw [pow_one] at h
  rw [h]
  cases x.testBit 1 <;> simp

/-- Masking with bit 2, as a conditional. -/
theorem and_four_ite (x : Nat) : x &&& 4 = if x.testBit 2 then 4 else 0 := by
  have h := Nat.and_two_pow x 2
  rw [show (2 : Nat) ^ 2 = 4 from by norm_num] at h
  rw [h]
  cases x.testBit 2 <;> simp

/-- The low three bits decompose into the three flag masks. -/
theorem and7_decompose (x : Nat) :
    x &&& 7 = (x &&& 1) ||| ((x &&& 2) ||| (x &&& 4)) := by
  apply Nat.eq_of_testBit_eq
  intro j
  simp only [Nat.testBit_or, Nat.testBit_and]
  rcases j with _ | _ | _ | j
  · rw [show Nat.testBit 7 0 = true from by decide,
      show Nat.testBit 1 0 = true from by decide,
      show Nat.testBit 2 0 = false from by decide,
      show Nat.testBit 4 0 = false from by decide]
    cases x.testBit 0 <;> rfl
  · rw [show Nat.testBit 7 1 = true from by decide,
      show Nat.testBit 1 1 = false from by decide,
      show Nat.testBit 2 1 = true from by decide,
      show Nat.testBit 4 1 = false from by decide]
    cases x.testBit 1 <;> rfl
  · rw [show Nat.testBit 7 2 = true from by decide,
      show Nat.testBit 1 2 = false from by decide,
      show Nat.testBit 2 2 = false from by decide,
      show Nat.testBit 4 2 = true from by decide]
    cases x.testBit 2 <;> rfl
  · have hb : ∀ m : Nat, m < 8 → Nat.testBit m (j + 3) = false := by
      intro m hm
      apply Nat.testBit_eq_false_of_lt
      calc m < 8 := hm
      _ = 2 ^ 3 := by norm_num
      _ ≤ 2 ^ (j + 3) := Nat.pow_le_pow_right (by norm_num) (by omega)
    rw [hb 7 (by norm_num), hb 1 (by norm_num), hb 2 (by norm_num),
      hb 4 (by norm_num)]
    cases x.testBit (j + 3) <;> rfl

/-- Parsing the saved flag letters recovers the masked flags, the enabled
bit, and the temporary bit. -/
theorem parse_flags_roundtrip (bp : ar_breakpoint) :
    parse_bp_flags (bp_flags_string bp).data (0, true, false) =
      (bp.flags &&& 7, bp.enabled, bp.temporary) := by
  have ha := and_one_ite bp.flags
  have hb := and_two_ite bp.flags
  have hc := and_four_ite bp.flags
  have h7 := and7_decompose bp.flags
  unfold bp_flags_string
  unfold AR_BP_EXECUTE AR_BP_READ AR_BP_WRITE
  rcases h0 : bp.flags.testBit 0 with _ | _ <;>
    rcases h1 : bp.flags.testBit 1 with _ | _ <;>
    rcases h2 : bp.flags.testBit 2 with _ | _ <;>
    rcases he : bp.enabled with _ | _ <;>
    rcases ht : bp.temporary with _ | _ <;>
    simp [ha, hb, hc, h7, h0, h1, h2] <;> decide

/-- The saved flag string is short, free of whitespace and line
terminators, and non-empty for any record that can round-trip. -/
theorem flags_string_props (bp : ar_breakpoint) :
    (∀ c ∈ (bp_flags_string bp).data,
      isSpaceC c = false ∧ c ≠ '\n' ∧ c ≠ '\r') ∧
    (bp_flags_string bp).data.length ≤ 5 ∧
    ((bp.flags &&& 7 ≠ 0 ∨ bp.temporary = true ∨ bp.enabled = false) →
      (bp_flags_string bp).data ≠ []) := by
  have ha := and_one_ite bp.flags
  have hb := and_two_ite bp.flags
  have hc := and_four_ite bp.flags
  have h7 := and7_decompose bp.flags
  unfold bp_flags_string
  unfold AR_BP_EXECUTE AR_BP_READ AR_BP_WRITE
  rcases h0 : bp.flags.testBit 0 with _ | _ <;>
    rcases h1 : bp.flags.testBit 1 with _ | _ <;>
    rcases h2 : bp.flags.testBit 2 with _ | _ <;>
    rcases he : bp.enabled with _ | _ <;>
    rcases ht : bp.temporary with _ | _ <;>
    simp [ha, hb, hc, h7, h0, h1, h2] <;> decide

/-- `%0wX` output is never empty. -/
theorem fmtHex_ne_nil (w n : Nat) : fmtHex w n ≠ [] := by
  unfold fmtHex
  intro hcon
  rcases List.append_eq_nil.mp hcon with ⟨h1, h2⟩
  by_cases hn : n = 0
  · rw [if_pos hn] at h2
    simp at h2
  · rw [if_neg hn] at h2
    match n, hn with
    | m + 1, _ => simp [hexDigits, hexDigitsAux] at h2

/-- A non-empty string has non-empty character data. -/
theorem data_ne_nil (s : String) (h : s ≠ "") : s.data ≠ [] := by
  intro hd
  apply h
  cases s
  exact congrArg String.mk hd

/-- A non-whitespace character is not a line terminator. -/
theorem nonspace_not_term (c : Char) (h : isSpaceC c = false) :
    c ≠ '\n' ∧ c ≠ '\r' := by
  constructor <;> rintro rfl <;> revert h <;> decide

/-- Character-level facts about uppercase hex digits. -/
theorem digit_char_props (c : Char) (h : ∃ d, d < 16 ∧ c = hexDigitU d) :
    isSpaceC c = false ∧ c ≠ '.' ∧ c ≠ '#' ∧ c ≠ '\n' ∧ c ≠ '\r' := by
  obtain ⟨d, hd, rfl⟩ := h
  have hp := hexDigitU_props d hd
  exact ⟨hp.1, hp.2.1, hp.2.2.1, hp.2.2.2.1, hp.2.2.2.2.1⟩

/-- A `%s` scan skips a leading space. -/
theorem scan_s_cons_space (w : Nat) (xs : List Char) :
    scan_s w (' ' :: xs) = scan_s w xs := by
  unfold scan_s
  dsimp only
  rw [List.dropWhile_cons_of_pos (by decide)]

/-- Well-formedness of a breakpoint record for the save/load round-trip:
the address fits in 64 bits (a `uint64_t` in the source); the saved flag
string is non-empty (an `X`/`R`/`W` bit, or temporary, or disabled — an
enabled, non-temporary record with no low flag bits saves a line that
`sscanf` rejects); the cpu id fits `%63s` with no whitespace, no dot, and
no leading `#`; and the condition fits `%255[^\n]` with no line
terminators and no leading whitespace or trailing blank. -/
def bp_wf (bp : ar_breakpoint) : Prop :=
  bp.address < 2 ^ 64 ∧
  (bp.flags &&& 7 ≠ 0 ∨ bp.temporary = true ∨ bp.enabled = false) ∧
  bp.cpu_id.data.length ≤ 63 ∧
  (∀ c ∈ bp.cpu_id.data, isSpaceC c = false ∧ c ≠ '.') ∧
  (∀ c ∈ bp.cpu_id.data.head?, c ≠ '#') ∧
  bp.condition.data.length ≤ 255 ∧
  (∀ c ∈ bp.condition.data, c ≠ '\n' ∧ c ≠ '\r') ∧
  (∀ c ∈ bp.condition.data.head?, isSpaceC c = false) ∧
  (∀ c ∈ bp.condition.data.getLast?, c ≠ ' ' ∧ c ≠ '\t')

instance decidableOptionBAll (P : Char → Prop) [DecidablePred P] :
    ∀ o : Option Char, Decidable (∀ c ∈ o, P c)
  | none => isTrue (by intro c hc; simp at hc)
  | some a => decidable_of_iff (P a) (by simp)

instance decidableBpWf (bp : ar_breakpoint) : Decidable (bp_wf bp) := by
  unfold bp_wf
  infer_instance

set_option maxHeartbeats 2000000 in
/-- Parsing a saved line recovers exactly the saved record's persisted
fields. -/
theorem parse_save_line (bp : ar_breakpoint) (h : bp_wf bp) :
    parse_bp_line (bp_save_line bp) =
      some (bp.cpu_id, bp.address, bp.flags &&& 7, bp.enabled, bp.temporary,
        bp.condition) := by
  obtain ⟨haddr, hflagwf, hcpulen, hcpuchars, hcpuhead, hcondlen, hcondnl,
    hcondhead, hcondlast⟩ := h
  have hfprops := flags_string_props bp
  have hFchars := hfprops.1
  have hFlen := hfprops.2.1
  have hFne : (bp_flags_string bp).data ≠ [] := hfprops.2.2 hflagwf
  have hAchars := fmtHex_mem 4 (bp.address % 2 ^ 64)
  have hAlen : (fmtHex 4 (bp.address % 2 ^ 64)).length ≤ 16 :=
    fmtHex4_length_le _ (Nat.mod_lt _ (by norm_num))
  have hAne : fmtHex 4 (bp.address % 2 ^ 64) ≠ [] := fmtHex_ne_nil _ _
  have hdata : (bp_save_line bp).data =
      ((if bp.cpu_id = "" then [] else bp.cpu_id.data ++ ['.']) ++
        fmtHex 4 (bp.address % 2 ^ 64)) ++
      (' ' :: ((bp_flags_string bp).data ++
        (if bp.condition = "" then [] else ' ' :: bp.condition.data))) := by
    unfold bp_save_line
    by_cases h1 : bp.cpu_id = "" <;> by_cases h2 : bp.condition = "" <;>
      simp [h1, h2, String.data_append,
        show (".").data = ['.'] from rfl, show (" ").data = [' '] from rfl,
        show ("").data = ([] : List Char) from rfl]
  have hchar : ∀ c ∈ (bp_save_line bp).data,
      c ∈ bp.cpu_id.data ∨ c = '.' ∨ c ∈ fmtHex 4 (bp.address % 2 ^ 64) ∨
      c = ' ' ∨ c ∈ (bp_flags_string bp).data ∨ c ∈ bp.condition.data := by
    intro c hc
    rw [hdata] at hc
    split_ifs at hc <;>
      simp only [List.mem_append, List.mem_cons, List.nil_append,
        List.not_mem_nil, or_false, false_or, List.mem_singleton] at hc <;>
      tauto
  have hterm : ∀ c ∈ (bp_save_line bp).data, c ≠ '\n' ∧ c ≠ '\r' := by
    intro c hc
    rcases hchar c hc with hm | rfl | hm | rfl | hm | hm
    · exact nonspace_not_term c (hcpuchars c hm).1
    · exact ⟨by decide, by decide⟩
    · have hp := digit_char_props c (hAchars c hm)
      exact ⟨hp.2.2.2.1, hp.2.2.2.2⟩
    · exact ⟨by decide, by decide⟩
    · exact ⟨(hFchars c hm).2.1, (hFchars c hm).2.2⟩
    · exact hcondnl c hm
  have hstrip : stripLineEnd (bp_save_line bp).data = (bp_save_line bp).data :=
    stripLineEnd_id _ (fun c hc => hterm c (List.mem_of_mem_getLast? hc))
  have hhead : ∃ c0 t, (bp_save_line bp).data = c0 :: t ∧ c0 ≠ '#' := by
    by_cases h1 : bp.cpu_id = ""
    · rcases hfm : fmtHex 4 (bp.address % 2 ^ 64) with _ | ⟨a, t⟩
      · exact absurd hfm hAne
      · refine ⟨a, t ++ (' ' :: ((bp_flags_string bp).data ++
          (if bp.condition = "" then [] else ' ' :: bp.condition.data))), ?_, ?_⟩
        · rw [hdata, if_pos h1, List.nil_append, hfm]
          rfl
        · have hma : a ∈ fmtHex 4 (bp.address % 2 ^ 64) := by
            rw [hfm]
            exact List.mem_cons_self a t
          exact (digit_char_props a (hAchars a hma)).2.2.1
    · rcases hcd : bp.cpu_id.data with _ | ⟨a, t⟩
      · exact absurd hcd (data_ne_nil _ h1)
      · refine ⟨a, ((t ++ ['.']) ++ fmtHex 4 (bp.address % 2 ^ 64)) ++
          (' ' :: ((bp_flags_string bp).data ++
            (if bp.condition = "" then [] else ' ' :: bp.condition.data))), ?_, ?_⟩
        · rw [hdata, if_neg h1, hcd]
          rfl
        · exact hcpuhead a (by rw [hcd]; rfl)
  obtain ⟨c0, t0, hcons, hc0⟩ := hhead
  have hscan1 : scan_s 127 ((bp_save_line bp).data) =
      ((if bp.cpu_id = "" then [] else bp.cpu_id.data ++ ['.']) ++
        fmtHex 4 (bp.address % 2 ^ 64),
       ' ' :: ((bp_flags_string bp).data ++
        (if bp.condition = "" then [] else ' ' :: bp.condition.data))) := by
    rw [hdata]
    apply scan_s_exact
    · intro hcontra
      exact hAne (List.append_eq_nil.mp hcontra).2
    · intro c hc
      rcases List.mem_append.mp hc with hm | hm
      · split_ifs at hm with h1
        · simp at hm
        · rcases List.mem_append.mp hm with hm2 | hm2
          · exact (hcpuchars c hm2).1
          · simp only [List.mem_singleton] at hm2
            subst hm2
            decide
      · exact (digit_char_props c (hAchars c hm)).1
    · rw [List.length_append]
      have hp : (if bp.cpu_id = "" then ([] : List Char) else
          bp.cpu_id.data ++ ['.']).length ≤ 64 := by
        split_ifs
        · simp
        · rw [List.length_append]
          simp only [List.length_singleton]
          omega
      omega
    · intro c hc
      simp only [List.head?_cons, Option.mem_def, Option.some.injEq] at hc
      subst hc
      decide
  have hscan2 : scan_s 63 ((bp_flags_string bp).data ++
      (if bp.condition = "" then [] else ' ' :: bp.condition.data)) =
      ((bp_flags_string bp).data,
       (if bp.condition = "" then [] else ' ' :: bp.condition.data)) := by
    apply scan_s_exact
    · exact hFne
    · intro c hc
      exact (hFchars c hc).1
    · omega
    · intro c hc
      split_ifs at hc with h2
      · simp at hc
      · simp only [List.head?_cons, Option.mem_def, Option.some.injEq] at hc
        subst hc
        decide
  have hsplit : split_cpu ((if bp.cpu_id = "" then [] else bp.cpu_id.data ++ ['.']) ++
      fmtHex 4 (bp.address % 2 ^ 64)) =
      (bp.cpu_id.data, fmtHex 4 (bp.address % 2 ^ 64)) := by
    by_cases h1 : bp.cpu_id = ""
    · rw [if_pos h1, List.nil_append, h1]
      unfold split_cpu
      rw [findIdx_none _ _ (fun x hx =>
        by simpa using (digit_char_props x (hAchars x hx)).2.1)]
    · rw [if_neg h1]
      unfold split_cpu
      have hlen1 : 1 ≤ bp.cpu_id.data.length := by
        rcases hcd : bp.cpu_id.data with _ | ⟨a, t⟩
        · exact absurd hcd (data_ne_nil _ h1)
        · simp
      rw [List.append_assoc, List.singleton_append,
        findIdx_append_first _ _ '.' _ (fun x hx =>
          by simpa using (hcpuchars x hx).2) (by simp)]
      dsimp only
      rw [if_pos ⟨by omega, by omega⟩, List.take_left' rfl,
        show bp.cpu_id.data ++ '.' :: fmtHex 4 (bp.address % 2 ^ 64) =
          (bp.cpu_id.data ++ ['.']) ++ fmtHex 4 (bp.address % 2 ^ 64) by simp,
        List.drop_left' (by simp)]
  have haddr2 : strtoull16 (fmtHex 4 (bp.address % 2 ^ 64)) = bp.address := by
    rw [strtoull16_fmtHex, Nat.mod_eq_of_lt haddr]
  have hrest3 : (scan_rest
      (if bp.condition = "" then [] else ' ' :: bp.condition.data)).1 =
      bp.condition.data := by
    by_cases h2 : bp.condition = ""
    · rw [if_pos h2, h2]
      rfl
    · rw [if_neg h2,
        scan_rest_exact _ hcondhead (fun c hc => (hcondnl c hc).1) hcondlen]
  have htrim : trimTrailWs bp.condition.data = bp.condition.data :=
    trimTrailWs_id _ hcondlast
  have hne1 : ¬((if bp.cpu_id = "" then [] else bp.cpu_id.data ++ ['.']) ++
      fmtHex 4 (bp.address % 2 ^ 64) = []) := fun hcontra =>
    hAne (List.append_eq_nil.mp hcontra).2
  unfold parse_bp_line
  rw [hstrip, hcons]
  dsimp only
  rw [if_neg hc0, ← hcons, hscan1]
  dsimp only
  rw [if_neg hne1, scan_s_cons_space, hscan2]
  dsimp only
  rw [if_neg hFne, hsplit]
  dsimp only
  rw [haddr2, parse_flags_roundtrip, hrest3, htrim]

/-- Under the environment hypotheses, every CPU the engine can find has a
memory region. -/
theorem find_cpu_has_mem (env : BpEnv)
    (hp : ∀ c, env.primary = some c → c.has_mem = true)
    (hc : ∀ c ∈ env.cpus, c.has_mem = true)
    (id : String) (c : BpCpu) (h : find_cpu env id = some c) :
    c.has_mem = true := by
  unfold find_cpu at h
  split_ifs at h
  · exact hp c h
  · exact hc c (List.mem_of_find?_eq_some h)

/-- With a non-negative oracle and memory everywhere, one sync step never
records a failure. -/
theorem sync_one_clean (env : BpEnv) (ho : ∀ n, 0 ≤ env.oracle n)
    (hp : ∀ c, env.primary = some c → c.has_mem = true)
    (hc : ∀ c ∈ env.cpus, c.has_mem = true)
    (s2b : List (Int × Int)) (pos : Nat) (id : Int) (bp : ar_breakpoint) :
    (sync_one env (s2b, [], pos) (id, bp)).2.1 = [] := by
  unfold sync_one
  dsimp only
  by_cases hen : ¬bp.enabled
  · rw [if_pos hen]
  · rw [if_neg hen]
    rcases hfc : find_cpu env bp.cpu_id with _ | cpu
    · rfl
    · have hm := find_cpu_has_mem env hp hc _ cpu hfc
      by_cases hx : bp.flags &&& AR_BP_EXECUTE ≠ 0
      · rw [if_pos hx, if_pos (ho pos)]
        dsimp only
        by_cases hrw : bp.flags &&& (AR_BP_READ ||| AR_BP_WRITE) ≠ 0
        · rw [if_pos hrw, if_neg (not_not_intro hm), if_pos (ho (pos + 1))]
        · rw [if_neg hrw]
      · rw [if_neg hx]
        dsimp only
        by_cases hrw : bp.flags &&& (AR_BP_READ ||| AR_BP_WRITE) ≠ 0
        · rw [if_pos hrw, if_neg (not_not_intro hm), if_pos (ho pos)]
        · rw [if_neg hrw]

/-- A whole sync pass never records a failure under the clean-environment
hypotheses. -/
theorem sync_fold_clean (env : BpEnv) (ho : ∀ n, 0 ≤ env.oracle n)
    (hp : ∀ c, env.primary = some c → c.has_mem = true)
    (hc : ∀ c ∈ env.cpus, c.has_mem = true)
    (l : List (Int × ar_breakpoint)) :
    ∀ (s2b : List (Int × Int)) (pos : Nat),
      (l.foldl (sync_one env) (s2b, [], pos)).2.1 = [] := by
  induction l with
  | nil => intro s2b pos; rfl
  | cons e l ih =>
    intro s2b pos
    rw [List.foldl_cons]
    obtain ⟨eid, ebp⟩ := e
    rcases hse : sync_one env (s2b, [], pos) (eid, ebp) with ⟨a, b, c⟩
    have h1 := sync_one_clean env ho hp hc s2b pos eid ebp
    rw [hse] at h1
    dsimp only at h1
    subst h1
    exact ih a c

/-- `sync_subscriptions` leaves an empty failure set under the
clean-environment hypotheses. -/
theorem bp_sync_clean (env : BpEnv) (st : BpState)
    (hd : env.hasDif = true) (ho : ∀ n, 0 ≤ env.oracle n)
    (hp : ∀ c, env.primary = some c → c.has_mem = true)
    (hc : ∀ c ∈ env.cpus, c.has_mem = true) :
    (bp_sync env st).sub_failed = [] := by
  unfold bp_sync
  rw [if_neg (fun hcon => hcon hd)]
  dsimp only
  exact sync_fold_clean env ho hp hc st.bps [] st.oracle_pos

/-- Under the clean-environment hypotheses `ar_bp_add` always succeeds,
returning the fresh id and the synchronised extended table. -/
theorem ar_bp_add_clean (env : BpEnv) (st : BpState) (addr flags : Nat)
    (enabled temporary : Bool) (cond cpu_id : Option String)
    (hd : env.hasDif = true) (ho : ∀ n, 0 ≤ env.oracle n)
    (hp : ∀ c, env.primary = some c → c.has_mem = true)
    (hc : ∀ c ∈ env.cpus, c.has_mem = true) :
    ar_bp_add env st addr flags enabled temporary cond cpu_id =
      (st.next_id,
        bp_sync env { st with
          next_id := st.next_id + 1,
          bps := map_insert st.bps st.next_id
            ⟨st.next_id, addr, enabled, temporary, flags,
              ⟨(cond.getD "").data.take 255⟩,
              ⟨(cpu_id.getD "").data.take 63⟩⟩ }) := by
  unfold ar_bp_add
  dsimp only
  rw [if_neg (by
    rw [bp_sync_clean env _ hd ho hp hc]
    simp)]

/-- Specification of the records a load pass appends: consecutive ids
from `n`, each record carrying the persisted fields of its source. -/
def load_record (n : Int) (bp : ar_breakpoint) : ar_breakpoint :=
  ⟨n, bp.address, bp.enabled, bp.temporary, bp.flags &&& 7, bp.condition,
    bp.cpu_id⟩

/-- The table fragment built by loading `rs` starting at id `n`. -/
def load_records (n : Int) : List ar_breakpoint → List (Int × ar_breakpoint)
  | [] => []
  | bp :: rest => (n, load_record n bp) :: load_records (n + 1) rest

/-- Inserting a key above every existing key appends at the end. -/
theorem map_insert_max (l : List (Int × ar_breakpoint)) (id : Int)
    (v : ar_breakpoint) (h : ∀ k ∈ l.map Prod.fst, k < id) :
    map_insert l id v = l ++ [(id, v)] := by
  induction l with
  | nil => rfl
  | cons a rest ih =>
    obtain ⟨k, w⟩ := a
    have ha : k < id := h k (by simp)
    simp only [map_insert]
    rw [if_neg (by omega), if_neg (by omega),
      ih (fun k2 hk2 => h k2 (by simp [hk2]))]
    rfl

set_option maxHeartbeats 2000000 in
/-- Folding the loader over saved lines of well-formed records appends
exactly the renumbered records. -/
theorem load_fold (env : BpEnv) (hd : env.hasDif = true)
    (ho : ∀ n, 0 ≤ env.oracle n)
    (hp : ∀ c, env.primary = some c → c.has_mem = true)
    (hcpus : ∀ c ∈ env.cpus, c.has_mem = true) :
    ∀ (rs : List ar_breakpoint) (st : BpState), (∀ bp ∈ rs, bp_wf bp) →
      (∀ k ∈ st.bps.map Prod.fst, k < st.next_id) →
      ((rs.map bp_save_line).foldl (load_step env) st).bps =
          st.bps ++ load_records st.next_id rs ∧
      ((rs.map bp_save_line).foldl (load_step env) st).next_id =
          st.next_id + (rs.length : Int) := by
  intro rs
  induction rs with
  | nil =>
    intro st _ _
    constructor
    · simp [load_records]
    · simp
  | cons bp rest ih =>
    intro st hwf hinv
    have hbp := hwf bp (List.mem_cons_self bp rest)
    have hcond2 : (⟨((if bp.condition ≠ "" then some bp.condition
        else none).getD "").data.take 255⟩ : String) = bp.condition := by
      by_cases h2 : bp.condition = ""
      · rw [h2]
        decide
      · rw [if_pos h2]
        show (⟨bp.condition.data.take 255⟩ : String) = bp.condition
        rw [List.take_of_length_le hbp.2.2.2.2.2.1]
    have hcpu2 : (⟨((if bp.cpu_id ≠ "" then some bp.cpu_id
        else none).getD "").data.take 63⟩ : String) = bp.cpu_id := by
      by_cases h1 : bp.cpu_id = ""
      · rw [h1]
        decide
      · rw [if_pos h1]
        show (⟨bp.cpu_id.data.take 63⟩ : String) = bp.cpu_id
        rw [List.take_of_length_le hbp.2.2.1]
    have hstep : load_step env st (bp_save_line bp) =
        bp_sync env { st with
          next_id := st.next_id + 1,
          bps := map_insert st.bps st.next_id (load_record st.next_id bp) } := by
      unfold load_step
      rw [parse_save_line bp hbp]
      dsimp only
      rw [ar_bp_add_clean env st _ _ _ _ _ _ hd ho hp hcpus]
      dsimp only
      rw [hcond2, hcpu2]
      rfl
    have hbps1 : (load_step env st (bp_save_line bp)).bps =
        st.bps ++ [(st.next_id, load_record st.next_id bp)] := by
      rw [hstep, bp_sync_bps]
      exact map_insert_max st.bps st.next_id _ hinv
    have hnid1 : (load_step env st (bp_save_line bp)).next_id =
        st.next_id + 1 := by
      rw [hstep, bp_sync_next_id]
    have hinv1 : ∀ k ∈ (load_step env st (bp_save_line bp)).bps.map Prod.fst,
        k < (load_step env st (bp_save_line bp)).next_id := by
      rw [hbps1, hnid1]
      intro k hk
      simp only [List.map_append, List.mem_append] at hk
      rcases hk with hk | hk
      · have := hinv k hk
        omega
      · simp at hk
        omega
    obtain ⟨hb2, hn2⟩ := ih (load_step env st (bp_save_line bp))
      (fun b hb => hwf b (List.mem_cons_of_mem bp hb)) hinv1
    rw [List.map_cons, List.foldl_cons]
    constructor
    · rw [hb2, hbps1, hnid1]
      simp [load_records]
    · rw [hn2, hnid1]
      simp only [List.length_cons, Nat.cast_add, Nat.cast_one]
      ring

/-- Masking to the low three bits is idempotent. -/
theorem and7_idem (x : Nat) : (x &&& 7) &&& 7 = x &&& 7 := by
  rw [and7, and7]
  omega

/-- Consecutive ids starting at `n`. -/
def idsFrom (n : Int) : Nat → List Int
  | 0 => []
  | k + 1 => n :: idsFrom (n + 1) k

/-- The loaded fragment carries consecutive ids. -/
theorem load_records_fst (rs : List ar_breakpoint) :
    ∀ n : Int, (load_records n rs).map Prod.fst = idsFrom n rs.length := by
  induction rs with
  | nil => intro n; rfl
  | cons bp rest ih =>
    intro n
    simp [load_records, List.length_cons, idsFrom, ih]

/-- The loaded fragment preserves the persisted field tuples. -/
theorem load_records_tuple (rs : List ar_breakpoint) :
    ∀ n : Int, (load_records n rs).map
      (fun p => (p.2.address, p.2.flags &&& 7, p.2.enabled, p.2.temporary,
        p.2.condition, p.2.cpu_id)) =
      rs.map (fun bp => (bp.address, bp.flags &&& 7, bp.enabled, bp.temporary,
        bp.condition, bp.cpu_id)) := by
  induction rs with
  | nil => intro n; rfl
  | cons bp rest ih =>
    intro n
    simp only [load_records, List.map_cons, ih]
    unfold load_record
    dsimp only
    rw [and7_idem]

/-- C3 (amended).  The round-trip `ar_bp_save` → `ar_bp_clear` →
`ar_bp_load` preserves the persisted tuples `(address, flags & 7, enabled,
temporary, condition, cpu id)` in order, renumbering ids consecutively
from the id counter, PROVIDED every record is well-formed (`bp_wf`: in
particular its saved flag string is non-empty — see the counterexample
for an enabled, non-temporary record with no `X`/`R`/`W` bits, whose
saved line `sscanf` rejects, silently dropping the record) and the
environment has a debugger interface, a non-negative subscribe oracle,
and memory regions on all CPUs (otherwise `ar_bp_add` rolls new records
back during the load). -/
theorem bp_save_load_roundtrip (env : BpEnv) (st : BpState)
    (hd : env.hasDif = true) (ho : ∀ n, 0 ≤ env.oracle n)
    (hp : ∀ c, env.primary = some c → c.has_mem = true)
    (hcpus : ∀ c ∈ env.cpus, c.has_mem = true)
    (hwf : ∀ p ∈ st.bps, bp_wf p.2) :
    ((ar_bp_load env st (ar_bp_save_lines st.bps)).bps.map
        (fun p => (p.2.address, p.2.flags &&& 7, p.2.enabled, p.2.temporary,
          p.2.condition, p.2.cpu_id)) =
      st.bps.map (fun p => (p.2.address, p.2.flags &&& 7, p.2.enabled,
        p.2.temporary, p.2.condition, p.2.cpu_id))) ∧
    (ar_bp_load env st (ar_bp_save_lines st.bps)).bps.map Prod.fst =
      idsFrom st.next_id st.bps.length ∧
    (ar_bp_load env st (ar_bp_save_lines st.bps)).next_id =
      st.next_id + (st.bps.length : Int) := by
  have hclear_bps : (ar_bp_clear env st).bps = [] := by
    unfold ar_bp_clear
    rw [bp_sync_bps]
  have hclear_nid : (ar_bp_clear env st).next_id = st.next_id := by
    unfold ar_bp_clear
    rw [bp_sync_next_id]
  have hlines : ar_bp_save_lines st.bps =
      (st.bps.map Prod.snd).map bp_save_line := by
    unfold ar_bp_save_lines
    rw [List.map_map]
    rfl
  obtain ⟨hb, hn⟩ := load_fold env hd ho hp hcpus (st.bps.map Prod.snd)
    (ar_bp_clear env st)
    (fun b hb => by
      obtain ⟨p, hpmem, rfl⟩ := List.mem_map.mp hb
      exact hwf p hpmem)
    (by
      rw [hclear_bps]
      intro k hk
      simp at hk)
  rw [hclear_bps, hclear_nid] at hb
  rw [hclear_nid] at hn
  unfold ar_bp_load
  rw [hlines, hb, hn]
  refine ⟨?_, ?_, ?_⟩
  · rw [List.nil_append, load_records_tuple, List.map_map]
    rfl
  · rw [List.nil_append, load_records_fst, List.length_map]
  · rw [List.length_map]

/-- Concrete instance of the amended round-trip: one well-formed execute
breakpoint at `$0100` survives the save/clear/load cycle with its tuple
intact and a fresh id. -/
theorem bp_save_load_roundtrip_witness :
    (⟨some ⟨"cpu0", true⟩, [], true, fun n => (n : Int)⟩ : BpEnv).hasDif = true ∧
    (∀ n : Nat, 0 ≤ ((⟨some ⟨"cpu0", true⟩, [], true,
      fun n => (n : Int)⟩ : BpEnv)).oracle n) ∧
    (∀ p ∈ (⟨[(1, ⟨1, 0x100, true, false, 1, "", ""⟩)], 2, [], [], [],
      0⟩ : BpState).bps, bp_wf p.2) ∧
    (((ar_bp_load ⟨some ⟨"cpu0", true⟩, [], true, fun n => (n : Int)⟩
        ⟨[(1, ⟨1, 0x100, true, false, 1, "", ""⟩)], 2, [], [], [], 0⟩
        (ar_bp_save_lines [(1, ⟨1, 0x100, true, false, 1, "", ""⟩)])).bps.map
        (fun p => (p.2.address, p.2.flags &&& 7, p.2.enabled, p.2.temporary,
          p.2.condition, p.2.cpu_id)) =
      ([(1, ⟨1, 0x100, true, false, 1, "", ""⟩)] :
          List (Int × ar_breakpoint)).map
        (fun p => (p.2.address, p.2.flags &&& 7, p.2.enabled,
          p.2.temporary, p.2.condition, p.2.cpu_id))) ∧
    (ar_bp_load ⟨some ⟨"cpu0", true⟩, [], true, fun n => (n : Int)⟩
        ⟨[(1, ⟨1, 0x100, true, false, 1, "", ""⟩)], 2, [], [], [], 0⟩
        (ar_bp_save_lines [(1, ⟨1, 0x100, true, false, 1, "", ""⟩)])).bps.map
          Prod.fst = idsFrom 2 1 ∧
    (ar_bp_load ⟨some ⟨"cpu0", true⟩, [], true, fun n => (n : Int)⟩
        ⟨[(1, ⟨1, 0x100, true, false, 1, "", ""⟩)], 2, [], [], [], 0⟩
        (ar_bp_save_lines [(1, ⟨1, 0x100, true, false, 1, "", ""⟩)])).next_id =
      2 + ((1 : Nat) : Int)) :=
  ⟨rfl, fun n => Int.natCast_nonneg n, by decide,
    bp_save_load_roundtrip
      ⟨some ⟨"cpu0", true⟩, [], true, fun n => (n : Int)⟩
      ⟨[(1, ⟨1, 0x100, true, false, 1, "", ""⟩)], 2, [], [], [], 0⟩
      rfl (fun n => Int.natCast_nonneg n)
      (fun c h => by injection h with h2; rw [← h2])
      (by simp) (by decide)⟩

/-- C3 counterexample to the unqualified claim: an enabled, non-temporary
record with no `X`/`R`/`W` flag bits saves as `"0100 "` (empty flag
token), which `sscanf` rejects (fewer than two assignments), so the load
of its own save file yields an empty table even though the saved set had
one record. -/
theorem bp_save_load_roundtrip_cex :
    parse_bp_line (bp_save_line ⟨1, 0x100, true, false, 0, "", ""⟩) = none ∧
    (ar_bp_load ⟨some ⟨"cpu0", true⟩, [], true, fun n => (n : Int)⟩
      ⟨[(1, ⟨1, 0x100, true, false, 0, "", ""⟩)], 2, [], [], [], 0⟩
      (ar_bp_save_lines [(1, ⟨1, 0x100, true, false, 0, "", ""⟩)])).bps = [] := by
  constructor
  · decide
  · decide

/-! ### Symbol address resolution (`ar_sym_resolve`, `symbols.cpp`)

A memory region is its id plus its memory map (`none` models missing
`get_memory_map`/`get_memory_map_count` function pointers; a map entry
whose `source` pointer is null carries `none`).  `ar_find_memory_by_id`
is modelled as an id lookup in the system's region list, and all
`uint64_t` arithmetic wraps modulo `2 ^ 64`. -/

/-- One `rd_MemoryMap` entry. -/
structure SymMap where
  source : Option String
  base_addr : Nat
  size : Nat
  source_base_addr : Nat
deriving Repr, DecidableEq

/-- One memory region visible to the resolver. -/
structure SymRegion where
  id : String
  maps : Option (List SymMap)
deriving Repr, DecidableEq

/-- The map-entry test of the resolver's inner loop: non-null source and
`base_addr <= addr < base_addr + size` (64-bit sum). -/
def map_hit (addr : Nat) (m : SymMap) : Bool :=
  m.source.isSome ∧ m.base_addr ≤ addr ∧ addr < (m.base_addr + m.size) % 2 ^ 64

/-- The hop the resolver takes through a matching map entry. -/
def map_next (addr : Nat) (m : SymMap) : String × Nat :=
  (m.source.getD "", (m.source_base_addr + (addr - m.base_addr)) % 2 ^ 64)

/-- One full loop iteration viewed as a partial step: `some` when the
walk descends through a map entry, `none` when the loop exits at this
region (unknown region, no map, or no matching entry). -/
def sym_step (env : List SymRegion) (cur : String) (addr : Nat) :
    Option (String × Nat) :=
  match env.find? (fun r => r.id = cur) with
  | none => none
  | some reg =>
    match reg.maps with
    | none => none
    | some maps =>
      match maps.find? (map_hit addr) with
      | none => none
      | some m => some (map_next addr m)

/-- The resolver loop.  The outer `Option` is the fuel bound (`none` is
exhaustion, which never occurs with fuel above the region count); the
inner `Option` is the function's result. -/
def sym_resolve_go (env : List SymRegion) :
    Nat → List String → String → Nat → Option (Option (String × Nat))
  | 0, _, _, _ => none
  | fuel + 1, visited, cur, addr =>
    if cur ∈ visited then some none
    else
      let visited := cur :: visited
      match env.find? (fun r => r.id = cur) with
      | none =>
        if visited.length = 1 then some none else some (some (cur, addr))
      | some reg =>
        match reg.maps with
        | none => some (some (cur, addr))
        | some maps =>
          match maps.find? (map_hit addr) with
          | none => some (some (cur, addr))
          | some m =>
            sym_resolve_go env fuel visited (map_next addr m).1 (map_next addr m).2

/-- `ar_sym_resolve` (the null region pointer aside): run the loop with
fuel `|regions| + 1`, which the termination theorem shows is never
exhausted. -/
def ar_sym_resolve (env : List SymRegion) (region : String) (addr : Nat) :
    Option (String × Nat) :=
  Option.join (sym_resolve_go env (env.length + 1) [] region addr)

/-- The walk's consecutive-hop predicate over an explicit chain. -/
def sym_chain_steps (env : List SymRegion) : List (String × Nat) → Prop
  | [] => True
  | [_] => True
  | p :: q :: rest =>
    sym_step env p.1 p.2 = some q ∧ sym_chain_steps env (q :: rest)

instance decidableChainSteps (env : List SymRegion) :
    ∀ ps, Decidable (sym_chain_steps env ps)
  | [] => isTrue trivial
  | [_] => isTrue trivial
  | p :: q :: rest =>
    haveI := decidableChainSteps env (q :: rest)
    inferInstanceAs (Decidable (sym_step env p.1 p.2 = some q ∧
      sym_chain_steps env (q :: rest)))

/-- A filter by a stronger test is no longer. -/
theorem length_filter_imp (l : List SymRegion) (p q : SymRegion → Bool)
    (h : ∀ x, p x = true → q x = true) :
    (l.filter p).length ≤ (l.filter q).length := by
  induction l with
  | nil => simp
  | cons a t ih =>
    simp only [List.filter_cons]
    by_cases hp : p a = true
    · rw [if_pos hp, if_pos (h a hp)]
      simpa using ih
    · rw [if_neg hp]
      by_cases hq : q a = true
      · rw [if_pos hq]
        simp only [List.length_cons]
        omega
      · rw [if_neg hq]
        exact ih

/-- Visiting a region the lookup can still find strictly shrinks the
count of unvisited regions — the loop's termination measure. -/
theorem sym_measure_dec (env : List SymRegion) (cur : String)
    (visited : List String) (reg : SymRegion)
    (hfind : env.find? (fun r => r.id = cur) = some reg)
    (hcur : cur ∉ visited) :
    (env.filter (fun r => r.id ∉ cur :: visited)).length <
    (env.filter (fun r => r.id ∉ visited)).length := by
  have hmem : reg ∈ env := List.mem_of_find?_eq_some hfind
  have hid : reg.id = cur := by
    have := List.find?_some hfind
    simpa using this
  clear hfind
  induction env with
  | nil => simp at hmem
  | cons a t ih =>
    simp only [List.filter_cons]
    have hmono := length_filter_imp t
      (fun r => decide (r.id ∉ cur :: visited))
      (fun r => decide (r.id ∉ visited))
      (fun x hx => by
        simp only [decide_eq_true_eq, List.mem_cons, not_or] at hx ⊢
        exact hx.2)
    rcases List.mem_cons.mp hmem with rfl | hmem2
    · rw [if_neg (by simp [hid]), if_pos (by simp [hid, hcur])]
      simp only [List.length_cons]
      omega
    · by_cases hac : a.id = cur
      · rw [if_neg (by simp [hac]), if_pos (by simp [hac, hcur])]
        simp only [List.length_cons]
        omega
      · by_cases hv : a.id ∈ visited
        · rw [if_neg (by simp [hv]), if_neg (by simp [hv])]
          exact ih hmem2
        · rw [if_pos (by simp [hac, hv]), if_pos (by simp [hv])]
          simp only [List.length_cons]
          have := ih hmem2
          omega

/-- Revisiting a region stops the loop with `none` at once. -/
theorem go_cycle_imm (env : List SymRegion) (fuel : Nat)
    (visited : List String) (cur : String) (addr : Nat)
    (hv : cur ∈ visited) :
    sym_resolve_go env (fuel + 1) visited cur addr = some none := by
  unfold sym_resolve_go
  rw [if_pos hv]

/-- A successful step from `sym_step` found the region. -/
theorem sym_step_find (env : List SymRegion) (cur : String) (addr : Nat)
    (next : String × Nat) (h : sym_step env cur addr = some next) :
    ∃ reg, env.find? (fun r => r.id = cur) = some reg := by
  unfold sym_step at h
  rcases hf : env.find? (fun r => r.id = cur) with _ | reg
  · rw [hf] at h
    simp at h
  · exact ⟨reg, hf⟩

/-- Unfolding of one loop iteration that descends. -/
theorem go_succ_step (env : List SymRegion) (fuel : Nat)
    (visited : List String) (cur : String) (addr : Nat) (next : String × Nat)
    (hnv : cur ∉ visited) (hstep : sym_step env cur addr = some next) :
    sym_resolve_go env (fuel + 1) visited cur addr =
      sym_resolve_go env fuel (cur :: visited) next.1 next.2 := by
  unfold sym_step at hstep
  conv_lhs => rw [sym_resolve_go]
  rw [if_neg hnv]
  dsimp only
  rcases hfind : env.find? (fun r => r.id = cur) with _ | reg
  · rw [hfind] at hstep
    simp at hstep
  · rw [hfind] at hstep
    dsimp only at hstep
    rw [hfind]
    dsimp only
    rcases hmaps : reg.maps with _ | maps
    · rw [hmaps] at hstep
      simp at hstep
    · rw [hmaps] at hstep
      dsimp only at hstep
      dsimp only
      rcases hfm : maps.find? (map_hit addr) with _ | m
      · rw [hfm] at hstep
        simp at hstep
      · rw [hfm] at hstep
        dsimp only at hstep
        dsimp only
        simp only [Option.some.injEq] at hstep
        rw [← hstep]

/-- Unfolding of one loop iteration that stops. -/
theorem go_succ_stop (env : List SymRegion) (fuel : Nat)
    (visited : List String) (cur : String) (addr : Nat)
    (hnv : cur ∉ visited) (hstep : sym_step env cur addr = none) :
    sym_resolve_go env (fuel + 1) visited cur addr =
      if env.find? (fun r => r.id = cur) = none ∧ visited = [] then some none
      else some (some (cur, addr)) := by
  unfold sym_step at hstep
  conv_lhs => rw [sym_resolve_go]
  rw [if_neg hnv]
  dsimp only
  rcases hfind : env.find? (fun r => r.id = cur) with _ | reg
  · rw [hfind]
    dsimp only
    rcases visited with _ | ⟨v, vs⟩
    · simp
    · simp
  · rw [hfind] at hstep
    dsimp only at hstep
    rw [hfind]
    dsimp only
    rcases hmaps : reg.maps with _ | maps
    · dsimp only
      rw [if_neg (by simp)]
    · rw [hmaps] at hstep
      dsimp only at hstep
      dsimp only
      rcases hfm : maps.find? (map_hit addr) with _ | m
      · dsimp only
        rw [if_neg (by simp)]
      · rw [hfm] at hstep
        simp at hstep

/-- Above the termination measure, the loop's result is independent of
the fuel. -/
theorem go_agree (env : List SymRegion) :
    ∀ (fuel fuel2 : Nat) (visited : List String) (cur : String) (addr : Nat),
      (env.filter (fun r => r.id ∉ visited)).length < fuel →
      (env.filter (fun r => r.id ∉ visited)).length < fuel2 →
      sym_resolve_go env fuel visited cur addr =
        sym_resolve_go env fuel2 visited cur addr := by
  intro fuel
  induction fuel with
  | zero =>
    intro fuel2 visited cur addr h1 _
    omega
  | succ fuel ih =>
    intro fuel2 visited cur addr h1 h2
    rcases fuel2 with _ | fuel2
    · omega
    · by_cases hv : cur ∈ visited
      · rw [go_cycle_imm env fuel visited cur addr hv,
          go_cycle_imm env fuel2 visited cur addr hv]
      · rcases hstep : sym_step env cur addr with _ | next
        · rw [go_succ_stop env fuel _ _ _ hv hstep,
            go_succ_stop env fuel2 _ _ _ hv hstep]
        · rw [go_succ_step env fuel _ _ _ _ hv hstep,
            go_succ_step env fuel2 _ _ _ _ hv hstep]
          obtain ⟨reg, hfind⟩ := sym_step_find env cur addr next hstep
          have hdec := sym_measure_dec env cur visited reg hfind hv
          exact ih fuel2 (cur :: visited) next.1 next.2 (by omega) (by omega)

/-- Above the termination measure, the loop never exhausts its fuel. -/
theorem go_total (env : List SymRegion) :
    ∀ (fuel : Nat) (visited : List String) (cur : String) (addr : Nat),
      (env.filter (fun r => r.id ∉ visited)).length < fuel →
      (sym_resolve_go env fuel visited cur addr).isSome = true := by
  intro fuel
  induction fuel with
  | zero =>
    intro visited cur addr h
    omega
  | succ fuel ih =>
    intro visited cur addr h1
    by_cases hv : cur ∈ visited
    · rw [go_cycle_imm env fuel visited cur addr hv]
      rfl
    · rcases hstep : sym_step env cur addr with _ | next
      · rw [go_succ_stop env fuel _ _ _ hv hstep]
        split_ifs <;> rfl
      · rw [go_succ_step env fuel _ _ _ _ hv hstep]
        obtain ⟨reg, hfind⟩ := sym_step_find env cur addr next hstep
        have hdec := sym_measure_dec env cur visited reg hfind hv
        exact ih (cur :: visited) next.1 next.2 (by omega)

/-- A repetition-free hop chain ending where no further hop exists drives
the loop to return its last pair (provided the walk is not the degenerate
first-region-unknown case). -/
theorem go_chain_last (env : List SymRegion) :
    ∀ (ps : List (String × Nat)) (p0 : String × Nat) (visited : List String)
      (fuel : Nat),
      sym_chain_steps env (p0 :: ps) →
      ((p0 :: ps).map Prod.fst).Nodup →
      (∀ r ∈ (p0 :: ps).map Prod.fst, r ∉ visited) →
      sym_step env ((p0 :: ps).getLast (List.cons_ne_nil p0 ps)).1
        ((p0 :: ps).getLast (List.cons_ne_nil p0 ps)).2 = none →
      (env.find? (fun r => r.id = p0.1) ≠ none ∨ visited ≠ [] ∨ ps ≠ []) →
      (env.filter (fun r => r.id ∉ visited)).length < fuel →
      sym_resolve_go env fuel visited p0.1 p0.2 =
        some (some ((p0 :: ps).getLast (List.cons_ne_nil p0 ps))) := by
  intro ps
  induction ps with
  | nil =>
    intro p0 visited fuel _ _ hdis hlast hfirst hfuel
    simp only [List.getLast_singleton] at hlast ⊢
    rcases fuel with _ | fuel
    · omega
    · have hnv : p0.1 ∉ visited := hdis p0.1 (by simp)
      rw [go_succ_stop env fuel _ _ _ hnv hlast, if_neg ?hc]
      case hc =>
        rintro ⟨hf, hve⟩
        rcases hfirst with h | h | h
        · exact h hf
        · exact h hve
        · exact h rfl
  | cons q rest ih =>
    intro p0 visited fuel hsteps hnd hdis hlast hfirst hfuel
    obtain ⟨hstep, hsteps2⟩ := hsteps
    rcases fuel with _ | fuel
    · omega
    have hnv : p0.1 ∉ visited := hdis p0.1 (by simp)
    rw [go_succ_step env fuel _ _ _ _ hnv hstep]
    obtain ⟨reg, hfind⟩ := sym_step_find env p0.1 p0.2 q hstep
    have hdec := sym_measure_dec env p0.1 visited reg hfind hnv
    have hgl : (p0 :: q :: rest).getLast (List.cons_ne_nil p0 (q :: rest)) =
        (q :: rest).getLast (List.cons_ne_nil q rest) :=
      List.getLast_cons (List.cons_ne_nil q rest)
    rw [hgl] at hlast ⊢
    apply ih q (p0.1 :: visited) fuel hsteps2
    · exact (List.nodup_cons.mp (by simpa using hnd)).2
    · intro r hr hmem
      rcases List.mem_cons.mp hmem with rfl | hm2
      · exact (List.nodup_cons.mp (by simpa using hnd)).1 hr
      · exact hdis r (List.mem_cons_of_mem _ hr) hm2
    · exact hlast
    · exact Or.inr (Or.inl (List.cons_ne_nil _ _))
    · omega

/-- A hop chain whose last region repeats an earlier one (or a previously
visited one) drives the loop to return `none`. -/
theorem go_chain_cycle (env : List SymRegion) :
    ∀ (ps : List (String × Nat)) (p0 : String × Nat) (visited : List String)
      (fuel : Nat),
      sym_chain_steps env (p0 :: ps) →
      (((p0 :: ps).dropLast).map Prod.fst).Nodup →
      (∀ r ∈ ((p0 :: ps).dropLast).map Prod.fst, r ∉ visited) →
      (((p0 :: ps).getLast (List.cons_ne_nil p0 ps)).1 ∈
          ((p0 :: ps).dropLast).map Prod.fst ∨
        ((p0 :: ps).getLast (List.cons_ne_nil p0 ps)).1 ∈ visited) →
      (env.filter (fun r => r.id ∉ visited)).length < fuel →
      sym_resolve_go env fuel visited p0.1 p0.2 = some none := by
  intro ps
  induction ps with
  | nil =>
    intro p0 visited fuel _ _ _ hcyc hfuel
    simp only [List.dropLast_single, List.map_nil, List.not_mem_nil, false_or,
      List.getLast_singleton] at hcyc
    rcases fuel with _ | fuel
    · omega
    · exact go_cycle_imm env fuel visited p0.1 p0.2 hcyc
  | cons q rest ih =>
    intro p0 visited fuel hsteps hnd hdis hcyc hfuel
    obtain ⟨hstep, hsteps2⟩ := hsteps
    rcases fuel with _ | fuel
    · omega
    have hdl : (p0 :: q :: rest).dropLast = p0 :: (q :: rest).dropLast := by
      simp
    rw [hdl] at hnd hdis hcyc
    have hnv : p0.1 ∉ visited := hdis p0.1 (by simp)
    rw [go_succ_step env fuel _ _ _ _ hnv hstep]
    obtain ⟨reg, hfind⟩ := sym_step_find env p0.1 p0.2 q hstep
    have hdec := sym_measure_dec env p0.1 visited reg hfind hnv
    have hgl : (p0 :: q :: rest).getLast (List.cons_ne_nil p0 (q :: rest)) =
        (q :: rest).getLast (List.cons_ne_nil q rest) :=
      List.getLast_cons (List.cons_ne_nil q rest)
    rw [hgl] at hcyc
    apply ih q (p0.1 :: visited) fuel hsteps2
    · exact (List.nodup_cons.mp (by simpa using hnd)).2
    · intro r hr hmem
      rcases List.mem_cons.mp hmem with rfl | hm2
      · exact (List.nodup_cons.mp (by simpa using hnd)).1 hr
      · exact hdis r (List.mem_cons_of_mem _ hr) hm2
    · rcases hcyc with h | h
      · rw [List.map_cons] at h
        rcases List.mem_cons.mp h with h2 | h2
        · exact Or.inr (by simp [h2])
        · exact Or.inl h2
      · exact Or.inr (List.mem_cons_of_mem _ h)
    · omega

set_option maxHeartbeats 1000000 in
/-- C7 (amended).  `ar_sym_resolve` terminates — one hop per distinct
region, so fuel above the region count never runs out and the result is
fuel-independent; it returns `none` when the ENTRY region is unknown and
when the chain revisits a region (a cycle); and a repetition-free chain
ends with the deepest backing pair — which is also returned, contrary to
the claim, when a region named deeper in the chain is unknown (see the
counterexample): only the first lookup failure yields `none`. -/
theorem ar_sym_resolve_spec :
    (∀ (env : List SymRegion) (fuel : Nat) (region : String) (addr : Nat),
      env.length < fuel →
      sym_resolve_go env fuel [] region addr =
        sym_resolve_go env (env.length + 1) [] region addr ∧
      (sym_resolve_go env fuel [] region addr).isSome = true) ∧
    (∀ (env : List SymRegion) (region : String) (addr : Nat),
      env.find? (fun r => r.id = region) = none →
      ar_sym_resolve env region addr = none) ∧
    (∀ (env : List SymRegion) (ps : List (String × Nat)) (p0 pl : String × Nat),
      sym_chain_steps env (p0 :: ps) →
      pl = (p0 :: ps).getLast (List.cons_ne_nil p0 ps) →
      ((p0 :: ps).map Prod.fst).Nodup →
      sym_step env pl.1 pl.2 = none →
      (env.find? (fun r => r.id = p0.1) ≠ none ∨ ps ≠ []) →
      ar_sym_resolve env p0.1 p0.2 = some pl) ∧
    (∀ (env : List SymRegion) (ps : List (String × Nat)) (p0 : String × Nat),
      sym_chain_steps env (p0 :: ps) →
      (((p0 :: ps).dropLast).map Prod.fst).Nodup →
      ((p0 :: ps).getLast (List.cons_ne_nil p0 ps)).1 ∈
        ((p0 :: ps).dropLast).map Prod.fst →
      ar_sym_resolve env p0.1 p0.2 = none) := by
  refine ⟨?_, ?_, ?_, ?_⟩
  · intro env fuel region addr hf
    have hm : (env.filter (fun r => r.id ∉ ([] : List String))).length ≤
        env.length := List.length_filter_le _ env
    exact ⟨go_agree env fuel (env.length + 1) [] region addr (by omega)
        (by omega),
      go_total env fuel [] region addr (by omega)⟩
  · intro env region addr hfind
    unfold ar_sym_resolve
    have hstep : sym_step env region addr = none := by
      unfold sym_step
      rw [hfind]
    rw [go_succ_stop env env.length [] region addr (by simp) hstep,
      if_pos ⟨hfind, rfl⟩]
    rfl
  · intro env ps p0 pl hsteps hpl hnd hlast hback
    unfold ar_sym_resolve
    subst hpl
    have hb : env.find? (fun r => r.id = p0.1) ≠ none ∨
        ([] : List String) ≠ [] ∨ ps ≠ [] := by
      rcases hback with h | h
      · exact Or.inl h
      · exact Or.inr (Or.inr h)
    have hm : (env.filter (fun r => r.id ∉ ([] : List String))).length <
        env.length + 1 := by
      have := List.length_filter_le
        (fun r => decide (r.id ∉ ([] : List String))) env
      omega
    rw [go_chain_last env ps p0 [] (env.length + 1) hsteps hnd
      (fun r hr => List.not_mem_nil r) hlast hb hm]
    rfl
  · intro env ps p0 hsteps hnd hcyc
    unfold ar_sym_resolve
    have hm : (env.filter (fun r => r.id ∉ ([] : List String))).length <
        env.length + 1 := by
      have := List.length_filter_le
        (fun r => decide (r.id ∉ ([] : List String))) env
      omega
    rw [go_chain_cycle env ps p0 [] (env.length + 1) hsteps hnd
      (fun r hr => List.not_mem_nil r) (Or.inl hcyc) hm]
    rfl

/-- Concrete instances of the amended resolution theorem: a two-region
environment with a one-hop chain ending at a mapless region, an unknown
entry region, and a two-region cycle. -/
theorem ar_sym_resolve_spec_witness :
    (([⟨"a", some [⟨some "b", 0, 256, 4096⟩]⟩, ⟨"b", none⟩] :
        List SymRegion).length < 5 ∧
      sym_resolve_go [⟨"a", some [⟨some "b", 0, 256, 4096⟩]⟩, ⟨"b", none⟩]
          5 [] "a" 80 =
        sym_resolve_go [⟨"a", some [⟨some "b", 0, 256, 4096⟩]⟩, ⟨"b", none⟩]
          (([⟨"a", some [⟨some "b", 0, 256, 4096⟩]⟩, ⟨"b", none⟩] :
            List SymRegion).length + 1) [] "a" 80) ∧
    (List.find? (fun r => r.id = "zzz")
        ([⟨"a", some [⟨some "b", 0, 256, 4096⟩]⟩, ⟨"b", none⟩] :
          List SymRegion) = none ∧
      ar_sym_resolve [⟨"a", some [⟨some "b", 0, 256, 4096⟩]⟩, ⟨"b", none⟩]
        "zzz" 7 = none) ∧
    (sym_chain_steps [⟨"a", some [⟨some "b", 0, 256, 4096⟩]⟩, ⟨"b", none⟩]
        [("a", 80), ("b", 4176)] ∧
      sym_step [⟨"a", some [⟨some "b", 0, 256, 4096⟩]⟩, ⟨"b", none⟩]
        "b" 4176 = none ∧
      ar_sym_resolve [⟨"a", some [⟨some "b", 0, 256, 4096⟩]⟩, ⟨"b", none⟩]
        "a" 80 = some ("b", 4176)) ∧
    (sym_chain_steps [⟨"a", some [⟨some "b", 0, 256, 4096⟩]⟩,
        ⟨"b", some [⟨some "a", 4096, 256, 0⟩]⟩]
        [("a", 10), ("b", 4106), ("a", 10)] ∧
      ar_sym_resolve [⟨"a", some [⟨some "b", 0, 256, 4096⟩]⟩,
        ⟨"b", some [⟨some "a", 4096, 256, 0⟩]⟩] "a" 10 = none) := by
  refine ⟨⟨by norm_num, ?_⟩, ⟨by decide, ?_⟩, ⟨by decide, by decide, ?_⟩,
    ⟨by decide, ?_⟩⟩
  · exact (ar_sym_resolve_spec.1 _ 5 "a" 80 (by norm_num)).1
  · exact ar_sym_resolve_spec.2.1 _ "zzz" 7 (by decide)
  · exact ar_sym_resolve_spec.2.2.1 _ [("b", 4176)] ("a", 80) ("b", 4176)
      (by decide) (by decide) (by decide) (by decide) (Or.inl (by decide))
  · exact ar_sym_resolve_spec.2.2.2 _ [("b", 4106), ("a", 10)] ("a", 10)
      (by decide) (by decide) (by decide)

/-- C7 counterexample to the unqualified claim: region `"a"` maps into
region `"b"`, which is unknown to the system; the walk leaves its loop
(the `visited.size() == 1` test fails past the first iteration) and
returns `some ("b", 4176)` rather than the `none` the claim requires
whenever "a region named in the chain is unknown". -/
theorem ar_sym_resolve_unknown_cex :
    sym_step [⟨"a", some [⟨some "b", 0, 256, 4096⟩]⟩] "a" 80 =
      some ("b", 4176) ∧
    List.find? (fun r => r.id = "b")
      ([⟨"a", some [⟨some "b", 0, 256, 4096⟩]⟩] : List SymRegion) = none ∧
    ar_sym_resolve [⟨"a", some [⟨some "b", 0, 256, 4096⟩]⟩] "a" 80 =
      some ("b", 4176) := by
  refine ⟨by decide, by decide, by decide⟩

/-! ### Symbol file loading (`ar_sym_load`, `symbols.cpp`)

The file's contents are a character list; the scanner walks it exactly as
the source does: find each `'\x7b'`, parse key/value pairs until `'\x7d'`,
and store the object if it has a region, an address, and a non-empty
label or comment.  `g_syms` (a `std::map` keyed by `(region, addr)`) is
modelled as an insert-or-assign association list. -/

/-- `json_unescape`: translate the recognised escapes, drop `\u` escapes
with their four digits, and keep a lone backslash before an unknown
escape character. -/
def json_unescape : List Char → List Char
  | [] => []
  | '\\' :: c :: rest =>
    if c = '"' then '"' :: json_unescape rest
    else if c = '\\' then '\\' :: json_unescape rest
    else if c = 'n' then '\n' :: json_unescape rest
    else if c = 'r' then '\r' :: json_unescape rest
    else if c = 't' then '\t' :: json_unescape rest
    else if c = 'u' then
      match rest with
      | _ :: _ :: _ :: _ :: r4 => json_unescape r4
      | _ => []
    else '\\' :: json_unescape (c :: rest)
  | c :: rest => c :: json_unescape rest

/-- The raw-scan loop of `parse_json_string`: collect characters (keeping
escape pairs) up to an unescaped closing quote; returns the raw string
and the remaining input. -/
def json_scan_raw : List Char → List Char × List Char
  | [] => ([], [])
  | '\\' :: c :: rest =>
    let r := json_scan_raw rest
    ('\\' :: c :: r.1, r.2)
  | '"' :: rest => ([], rest)
  | c :: rest =>
    let r := json_scan_raw rest
    (c :: r.1, r.2)

/-- `parse_json_string`: empty (with the input unconsumed) unless the
input starts with a quote; otherwise the unescaped raw contents. -/
def parse_json_string (cs : List Char) : List Char × List Char :=
  match cs with
  | '"' :: rest =>
    let r := json_scan_raw rest
    (json_unescape r.1, r.2)
  | _ => ([], cs)

/-- `parse_json_number`: accumulate decimal digits into a wrapping
`uint64_t`. -/
def parse_json_number : List Char → Nat → Nat × List Char
  | [], v => (v, [])
  | c :: rest, v =>
    if '0' ≤ c ∧ c ≤ '9' then
      parse_json_number rest ((v * 10 + (c.toNat - 48)) % 2 ^ 64)
    else (v, c :: rest)

/-- Whitespace-and-comma skip of the field loop. -/
def skipWsCommas (cs : List Char) : List Char :=
  cs.dropWhile (fun c => c = ' ' ∨ c = '\t' ∨ c = '\n' ∨ c = '\r' ∨ c = ',')

/-- Colon-and-blank skip between key and value. -/
def skipColonWs (cs : List Char) : List Char :=
  cs.dropWhile (fun c => c = ':' ∨ c = ' ' ∨ c = '\t')

/-- The per-object parse state of `ar_sym_load`. -/
structure SymObj where
  region : String
  addr : Nat
  label : String
  comment : String
  has_region : Bool
  has_addr : Bool
deriving Repr, DecidableEq

/-- The field loop of `ar_sym_load`: parse key/value pairs until the
closing `'\x7d'` (or a malformed key, or the end of input). -/
def sym_fields : Nat → List Char → SymObj → SymObj × List Char
  | 0, cs, ob => (ob, cs)
  | fuel + 1, cs, ob =>
    match cs with
    | [] => (ob, [])
    | c0 :: _ =>
      if c0 = '\x7d' then (ob, cs)
      else
        let cs1 := skipWsCommas cs
        match cs1 with
        | [] => (ob, [])
        | c1 :: _ =>
          if c1 = '\x7d' then (ob, cs1)
          else
            let kr := parse_json_string cs1
            if kr.1 = [] then (ob, kr.2)
            else
              let cs2 := skipColonWs kr.2
              match cs2 with
              | [] => (ob, [])
              | c2 :: _ =>
                if c2 = '"' then
                  let vr := parse_json_string cs2
                  let ob :=
                    if (⟨kr.1⟩ : String) = "region" then
                      { ob with region := ⟨vr.1⟩, has_region := true }
                    else if (⟨kr.1⟩ : String) = "label" then
                      { ob with label := ⟨vr.1⟩ }
                    else if (⟨kr.1⟩ : String) = "comment" then
                      { ob with comment := ⟨vr.1⟩ }
                    else ob
                  sym_fields fuel vr.2 ob
                else if '0' ≤ c2 ∧ c2 ≤ '9' then
                  let vr := parse_json_number cs2 0
                  let ob :=
                    if (⟨kr.1⟩ : String) = "addr" then
                      { ob with addr := vr.1, has_addr := true }
                    else ob
                  sym_fields fuel vr.2 ob
                else
                  sym_fields fuel (cs2.drop 1) ob

/-- `g_syms[{region, addr}] = entry` (insert-or-assign). -/
def sym_upsert (l : List ((String × Nat) × (String × String)))
    (k : String × Nat) (v : String × String) :
    List ((String × Nat) × (String × String)) :=
  match l with
  | [] => [(k, v)]
  | (a, b) :: rest =>
    if a = k then (a, v) :: rest else (a, b) :: sym_upsert rest k v

/-- The object loop of `ar_sym_load`: find each `'\x7b'`, parse its
fields, skip the closing `'\x7d'`, and store the entry when the object
has a region, an address, and a non-empty label or comment. -/
def ar_sym_load_go : Nat → List Char →
    List ((String × Nat) × (String × String)) →
    List ((String × Nat) × (String × String))
  | 0, _, syms => syms
  | fuel + 1, cs, syms =>
    let cs1 := cs.dropWhile (fun c => ¬(c = '\x7b'))
    match cs1 with
    | [] => syms
    | _ :: rest =>
      let r := sym_fields (rest.length + 1) rest ⟨"", 0, "", "", false, false⟩
      let cs2 := match r.2 with
        | '\x7d' :: t => t
        | other => other
      let syms :=
        if r.1.has_region ∧ r.1.has_addr ∧
            (r.1.label ≠ "" ∨ r.1.comment ≠ "") then
          sym_upsert syms (r.1.region, r.1.addr) (r.1.label, r.1.comment)
        else syms
      ar_sym_load_go fuel cs2 syms

/-- `ar_sym_load` on the file's contents (the table starts cleared). -/
def ar_sym_load (data : List Char) :
    List ((String × Nat) × (String × String)) :=
  ar_sym_load_go (data.length + 1) data []

/-- The same scan, collecting every object the loop visits. -/
def sym_objects : Nat → List Char → List SymObj
  | 0, _ => []
  | fuel + 1, cs =>
    let cs1 := cs.dropWhile (fun c => ¬(c = '\x7b'))
    match cs1 with
    | [] => []
    | _ :: rest =>
      let r := sym_fields (rest.length + 1) rest ⟨"", 0, "", "", false, false⟩
      let cs2 := match r.2 with
        | '\x7d' :: t => t
        | other => other
      r.1 :: sym_objects fuel cs2

/-- The loader is exactly the annotation-guarded fold over the scanned
object stream. -/
theorem sym_load_go_filter (fuel : Nat) :
    ∀ (cs : List Char) (syms : List ((String × Nat) × (String × String))),
      ar_sym_load_go fuel cs syms =
        (sym_objects fuel cs).foldl
          (fun acc ob =>
            if ob.has_region ∧ ob.has_addr ∧
                (ob.label ≠ "" ∨ ob.comment ≠ "") then
              sym_upsert acc (ob.region, ob.addr) (ob.label, ob.comment)
            else acc) syms := by
  induction fuel with
  | zero =>
    intro cs syms
    rfl
  | succ fuel ih =>
    intro cs syms
    unfold ar_sym_load_go sym_objects
    dsimp only
    rcases hcs : cs.dropWhile (fun c => ¬(c = '\x7b')) with _ | ⟨c, rest⟩
    · rfl
    · dsimp only
      rw [List.foldl_cons]
      exact ih _ _

set_option maxRecDepth 10000 in
set_option maxHeartbeats 1000000 in
/-- C10.  `ar_sym_load` stores an object's entry exactly when the object
has a region, an address, and a non-empty label or comment: the table is
the annotation-guarded fold over the scanned object stream (so an object
with region and addr but no non-empty annotation is silently dropped),
and on a concrete four-object file the two annotated objects load while
the bare `(region, addr)` object and the empty-label object are
dropped. -/
theorem sym_load_annotation_guard :
    (∀ (fuel : Nat) (cs : List Char)
        (syms : List ((String × Nat) × (String × String))),
      ar_sym_load_go fuel cs syms =
        (sym_objects fuel cs).foldl
          (fun acc ob =>
            if ob.has_region ∧ ob.has_addr ∧
                (ob.label ≠ "" ∨ ob.comment ≠ "") then
              sym_upsert acc (ob.region, ob.addr) (ob.label, ob.comment)
            else acc) syms) ∧
    ar_sym_load ("[\x7b\"region\":\"wram\",\"addr\":16\x7d,\x7b\"region\":\"wram\",\"addr\":32,\"label\":\"foo\"\x7d,\x7b\"region\":\"hram\",\"addr\":5,\"comment\":\"c\"\x7d,\x7b\"region\":\"x\",\"addr\":1,\"label\":\"\"\x7d]").data =
      [(("wram", 32), ("foo", "")), (("hram", 5), ("", "c"))] :=
  ⟨fun fuel => sym_load_go_filter fuel, by decide⟩

/-! ### Skip-map suppression (`debug_handle_event` / `ar_debug_set_skip`,
`backend.cpp`)

CPUs are identified by `Nat` (standing for the `rd_Cpu const *` pointers
keying `g_skip_addr` and `g_skip_temp_subs`, modelled as unique-key
association lists).  One invocation of the event dispatcher sees a fixed
environment: the system's CPU list (`none` models a null system pointer),
every CPU's current program counter, and the classification of the
triggering subscription (trace / step / breakpoint).  The trace branch
and both pause branches (halt and thread-block) leave the skip map alone;
the result records the returned flag, whether the event pauses, whether
the pause was suppressed by the skip map, and the state. -/

/-- Association-list lookup (`std::map::find`). -/
def amap_find {α : Type} (l : List (Nat × α)) (k : Nat) : Option α :=
  match l with
  | [] => none
  | (a, b) :: rest => if a = k then some b else amap_find rest k

/-- Association-list erase (`std::map::erase`). -/
def amap_erase {α : Type} (l : List (Nat × α)) (k : Nat) : List (Nat × α) :=
  match l with
  | [] => []
  | (a, b) :: rest => if a = k then rest else (a, b) :: amap_erase rest k

/-- Association-list insert-or-assign (`m[k] = v`). -/
def amap_set {α : Type} (l : List (Nat × α)) (k : Nat) (v : α) :
    List (Nat × α) :=
  match l with
  | [] => [(k, v)]
  | (a, b) :: rest =>
    if a = k then (a, v) :: rest else (a, b) :: amap_set rest k v

/-- The skip-map state (`g_skip_addr`, `g_skip_temp_subs`). -/
structure SkipState where
  skip_addr : List (Nat × Nat)
  skip_temp_subs : List (Nat × Int)
deriving Repr, DecidableEq

/-- The dispatcher's environment for one invocation. -/
structure DbgEnv where
  sys : Option (List Nat)
  pc : Nat → Nat
  trace_sub : Int → Bool
  step_active : Bool
  step_sub : Int
  bp_sub : Int → Bool

/-- The slice of `rd_Event` the skip logic reads. -/
structure DbgEvent where
  is_execution : Bool
  cpu : Nat
  can_halt : Bool
deriving Repr, DecidableEq

/-- Observable outcome of one dispatcher invocation. -/
structure DbgResult where
  ret : Bool
  pauses : Bool
  suppressed : Bool
  st : SkipState
deriving Repr, DecidableEq

/-- Phase 1, one CPU: drop its skip entry (and temp sub) when its PC has
moved off the recorded address. -/
def skip_clear_one (env : DbgEnv) (st : SkipState) (cpu : Nat) : SkipState :=
  match amap_find st.skip_addr cpu with
  | none => st
  | some a =>
    if env.pc cpu ≠ a then
      ⟨amap_erase st.skip_addr cpu, amap_erase st.skip_temp_subs cpu⟩
    else st

/-- Phase 1 of `debug_handle_event`: walk the system's CPUs. -/
def skip_phase1 (env : DbgEnv) (st : SkipState) : SkipState :=
  match env.sys with
  | none => st
  | some cpus => cpus.foldl (skip_clear_one env) st

/-- `debug_handle_event` (threading and logging side effects aside). -/
def debug_handle_event (env : DbgEnv) (st : SkipState) (sub_id : Int)
    (ev : DbgEvent) : DbgResult :=
  let st := skip_phase1 env st
  if st.skip_temp_subs.any (fun p => p.2 = sub_id) then ⟨false, false, false, st⟩
  else if env.trace_sub sub_id then ⟨false, false, false, st⟩
  else if ¬(env.step_active ∧ sub_id = env.step_sub) ∧ ¬env.bp_sub sub_id then
    ⟨false, false, false, st⟩
  else if ev.is_execution then
    match amap_find st.skip_addr ev.cpu with
    | some a =>
      if env.pc ev.cpu = a then ⟨false, false, true, st⟩
      else ⟨ev.can_halt, true, false, st⟩
    | none => ⟨ev.can_halt, true, false, st⟩
  else ⟨ev.can_halt, true, false, st⟩

/-- `ar_debug_set_skip`: clear both maps, then record every CPU's current
PC and (through the subscribe oracle) a broad temporary step
subscription. -/
def ar_debug_set_skip (env : DbgEnv) (oracle : Nat → Int) (st : SkipState) :
    SkipState :=
  match env.sys with
  | none => st
  | some cpus =>
    (cpus.foldl (fun (acc : SkipState × Nat) cpu =>
      let st1 := { acc.1 with
        skip_addr := amap_set acc.1.skip_addr cpu (env.pc cpu) }
      let sid := oracle acc.2
      let st2 := if sid ≥ 0 then
          { st1 with skip_temp_subs := amap_set st1.skip_temp_subs cpu sid }
        else st1
      (st2, acc.2 + 1)) (⟨[], []⟩, 0)).1

/-- A found entry is an entry. -/
theorem amap_find_mem {α : Type} (l : List (Nat × α)) (k : Nat) (v : α)
    (h : amap_find l k = some v) : (k, v) ∈ l := by
  induction l with
  | nil => simp [amap_find] at h
  | cons a rest ih =>
    obtain ⟨ka, va⟩ := a
    unfold amap_find at h
    by_cases hk : ka = k
    · rw [if_pos hk] at h
      simp only [Option.some.injEq] at h
      subst hk
      subst h
      exact List.mem_cons_self _ _
    · rw [if_neg hk] at h
      exact List.mem_cons_of_mem _ (ih h)

/-- A failed lookup means the key is absent. -/
theorem amap_find_no_key {α : Type} (l : List (Nat × α)) (k : Nat)
    (h : amap_find l k = none) : k ∉ l.map Prod.fst := by
  induction l with
  | nil => simp
  | cons a rest ih =>
    obtain ⟨ka, va⟩ := a
    unfold amap_find at h
    by_cases hk : ka = k
    · rw [if_pos hk] at h
      simp at h
    · rw [if_neg hk] at h
      simp only [List.map_cons, List.mem_cons]
      rintro (rfl | hm)
      · exact hk rfl
      · exact ih h hm

/-- With unique keys, membership determines the lookup. -/
theorem amap_mem_find {α : Type} (l : List (Nat × α)) (k : Nat) (v : α)
    (hnd : (l.map Prod.fst).Nodup) (h : (k, v) ∈ l) :
    amap_find l k = some v := by
  induction l with
  | nil => simp at h
  | cons a rest ih =>
    obtain ⟨ka, va⟩ := a
    simp only [List.map_cons, List.nodup_cons] at hnd
    unfold amap_find
    rcases List.mem_cons.mp h with heq | hm
    · injection heq with h1 h2
      subst h1
      subst h2
      rw [if_pos rfl]
    · have hk : ka ≠ k := by
        rintro rfl
        exact hnd.1 (List.mem_map_of_mem Prod.fst hm)
      rw [if_neg hk]
      exact ih hnd.2 hm

/-- Erasure only removes entries. -/
theorem amap_erase_subset {α : Type} (l : List (Nat × α)) (k : Nat) :
    ∀ p ∈ amap_erase l k, p ∈ l := by
  induction l with
  | nil =>
    intro p hp
    simp [amap_erase] at hp
  | cons a rest ih =>
    obtain ⟨ka, va⟩ := a
    intro p hp
    unfold amap_erase at hp
    by_cases hk : ka = k
    · rw [if_pos hk] at hp
      exact List.mem_cons_of_mem _ hp
    · rw [if_neg hk] at hp
      rcases List.mem_cons.mp hp with rfl | hm
      · exact List.mem_cons_self _ _
      · exact List.mem_cons_of_mem _ (ih p hm)

/-- Erasure preserves key uniqueness. -/
theorem amap_erase_nodup {α : Type} (l : List (Nat × α)) (k : Nat)
    (hnd : (l.map Prod.fst).Nodup) :
    ((amap_erase l k).map Prod.fst).Nodup := by
  induction l with
  | nil => simp [amap_erase]
  | cons a rest ih =>
    obtain ⟨ka, va⟩ := a
    simp only [List.map_cons, List.nodup_cons] at hnd
    unfold amap_erase
    by_cases hk : ka = k
    · rw [if_pos hk]
      exact hnd.2
    · rw [if_neg hk]
      simp only [List.map_cons, List.nodup_cons]
      refine ⟨?_, ih hnd.2⟩
      intro hmem
      obtain ⟨p, hp, hpk⟩ := List.mem_map.mp hmem
      exact hnd.1 (hpk ▸ List.mem_map_of_mem Prod.fst (amap_erase_subset rest k p hp))

/-- With unique keys, erasure removes the key entirely. -/
theorem amap_erase_no_key {α : Type} (l : List (Nat × α)) (k : Nat)
    (hnd : (l.map Prod.fst).Nodup) :
    k ∉ (amap_erase l k).map Prod.fst := by
  induction l with
  | nil => simp [amap_erase]
  | cons a rest ih =>
    obtain ⟨ka, va⟩ := a
    simp only [List.map_cons, List.nodup_cons] at hnd
    unfold amap_erase
    by_cases hk : ka = k
    · rw [if_pos hk]
      subst hk
      exact hnd.1
    · rw [if_neg hk]
      simp only [List.map_cons, List.mem_cons]
      rintro (rfl | hm)
      · exact hk rfl
      · exact ih hnd.2 hm

/-- One clearing step only removes entries. -/
theorem clear_one_subset (env : DbgEnv) (st : SkipState) (cpu : Nat) :
    ∀ p ∈ (skip_clear_one env st cpu).skip_addr, p ∈ st.skip_addr := by
  intro p hp
  unfold skip_clear_one at hp
  split at hp
  · exact hp
  · split_ifs at hp
    · exact amap_erase_subset _ _ p hp
    · exact hp

/-- One clearing step preserves key uniqueness. -/
theorem clear_one_nodup (env : DbgEnv) (st : SkipState) (cpu : Nat)
    (hnd : (st.skip_addr.map Prod.fst).Nodup) :
    (((skip_clear_one env st cpu).skip_addr).map Prod.fst).Nodup := by
  unfold skip_clear_one
  split
  · exact hnd
  · split_ifs
    · exact amap_erase_nodup _ _ hnd
    · exact hnd

/-- After its CPU is processed, a surviving skip entry records the
current PC. -/
theorem clear_one_key_sound (env : DbgEnv) (st : SkipState) (cpu : Nat)
    (hnd : (st.skip_addr.map Prod.fst).Nodup) :
    ∀ p ∈ (skip_clear_one env st cpu).skip_addr, p.1 = cpu →
      env.pc cpu = p.2 := by
  intro p hp hpc
  unfold skip_clear_one at hp
  split at hp
  next hf =>
    have hkey : p.1 ∈ st.skip_addr.map Prod.fst :=
      List.mem_map_of_mem Prod.fst hp
    rw [hpc] at hkey
    exact absurd hkey (amap_find_no_key _ _ hf)
  next a hf =>
    split_ifs at hp with hne
    · have hkey : p.1 ∈ (amap_erase st.skip_addr cpu).map Prod.fst :=
        List.mem_map_of_mem Prod.fst hp
      rw [hpc] at hkey
      exact absurd hkey (amap_erase_no_key _ _ hnd)
    · push_neg at hne
      have hfind : amap_find st.skip_addr p.1 = some p.2 :=
        amap_mem_find _ _ _ hnd hp
      rw [hpc, hf] at hfind
      simp only [Option.some.injEq] at hfind
      rw [← hfind]
      exact hne

/-- The phase-1 fold only removes entries. -/
theorem phase1_fold_subset (env : DbgEnv) :
    ∀ (cpus : List Nat) (st : SkipState),
      ∀ p ∈ (cpus.foldl (skip_clear_one env) st).skip_addr,
        p ∈ st.skip_addr := by
  intro cpus
  induction cpus with
  | nil =>
    intro st p hp
    exact hp
  | cons c rest ih =>
    intro st p hp
    exact clear_one_subset env st c p (ih (skip_clear_one env st c) p hp)

/-- The phase-1 fold preserves key uniqueness. -/
theorem phase1_fold_nodup (env : DbgEnv) :
    ∀ (cpus : List Nat) (st : SkipState),
      (st.skip_addr.map Prod.fst).Nodup →
      (((cpus.foldl (skip_clear_one env) st).skip_addr).map Prod.fst).Nodup := by
  intro cpus
  induction cpus with
  | nil =>
    intro st hnd
    exact hnd
  | cons c rest ih =>
    intro st hnd
    exact ih (skip_clear_one env st c) (clear_one_nodup env st c hnd)

/-- After the phase-1 fold, every surviving entry for a processed CPU
records that CPU's current PC. -/
theorem phase1_fold_sound (env : DbgEnv) :
    ∀ (cpus : List Nat) (st : SkipState),
      (st.skip_addr.map Prod.fst).Nodup →
      ∀ p ∈ (cpus.foldl (skip_clear_one env) st).skip_addr,
        p.1 ∈ cpus → env.pc p.1 = p.2 := by
  intro cpus
  induction cpus with
  | nil =>
    intro st _ p _ hmem
    simp at hmem
  | cons c rest ih =>
    intro st hnd p hp hmem
    rcases List.mem_cons.mp hmem with heq | hm
    · have hp1 : p ∈ (skip_clear_one env st c).skip_addr :=
        phase1_fold_subset env rest _ p hp
      have := clear_one_key_sound env st c hnd p hp1 heq
      rw [heq]
      exact this
    · exact ih (skip_clear_one env st c) (clear_one_nodup env st c hnd) p hp hm

/-- The dispatcher's final state is the phase-1 state. -/
theorem handle_event_st (env : DbgEnv) (st : SkipState) (sub_id : Int)
    (ev : DbgEvent) :
    (debug_handle_event env st sub_id ev).st = skip_phase1 env st := by
  unfold debug_handle_event
  dsimp only
  split_ifs <;> first
    | rfl
    | (split
       · split_ifs <;> rfl
       · rfl)

/-- The dispatcher reports a suppression only for an execution event
whose CPU has a live phase-1 entry equal to its PC. -/
theorem handle_event_suppressed (env : DbgEnv) (st : SkipState)
    (sub_id : Int) (ev : DbgEvent)
    (h : (debug_handle_event env st sub_id ev).suppressed = true) :
    ev.is_execution = true ∧
    amap_find (skip_phase1 env st).skip_addr ev.cpu = some (env.pc ev.cpu) := by
  unfold debug_handle_event at h
  dsimp only at h
  split_ifs at h with h1 h2 h3 h4
  split at h
  next a hf =>
    split_ifs at h with h5
    exact ⟨h4, by rw [hf, h5]⟩
  next hf => simp at h

set_option maxHeartbeats 1000000 in
/-- C1 (amended).  In one dispatcher invocation over a system whose CPU
list covers the skip map's keys (the only keys `ar_debug_set_skip`
creates) with unique keys: (1) every surviving skip entry records its
CPU's current PC — entries whose CPU has moved are removed before the
pause decision; (2) a suppression happens only for an execution event
whose CPU has a live entry equal to its current PC; (3) the dispatcher
never adds or changes entries; (4) an entry observed off its recorded
address is gone from the resulting state; and (5) a CPU without an entry
is never suppressed.  Together these give the claim's clearing property
and its no-halt-without-advancing reading, but NOT the claimed
at-most-one-suppression-per-resume: a CPU whose PC stays at the skip
address (a self-jump) is suppressed at every event — see the
counterexample. -/
theorem skip_map_clearing (env : DbgEnv) (st : SkipState) (sub_id : Int)
    (ev : DbgEvent) (cpus : List Nat)
    (hsys : env.sys = some cpus)
    (hnd : (st.skip_addr.map Prod.fst).Nodup)
    (hsub : ∀ k ∈ st.skip_addr.map Prod.fst, k ∈ cpus) :
    (∀ p ∈ (debug_handle_event env st sub_id ev).st.skip_addr,
      env.pc p.1 = p.2) ∧
    (∀ p ∈ (debug_handle_event env st sub_id ev).st.skip_addr,
      p ∈ st.skip_addr) ∧
    ((debug_handle_event env st sub_id ev).suppressed = true →
      ev.is_execution = true ∧
      amap_find st.skip_addr ev.cpu = some (env.pc ev.cpu)) ∧
    (∀ c a, c ∈ cpus → amap_find st.skip_addr c = some a → env.pc c ≠ a →
      c ∉ ((debug_handle_event env st sub_id ev).st.skip_addr.map Prod.fst)) ∧
    (amap_find st.skip_addr ev.cpu = none →
      (debug_handle_event env st sub_id ev).suppressed = false) := by
  have hst := handle_event_st env st sub_id ev
  have hph : skip_phase1 env st = cpus.foldl (skip_clear_one env) st := by
    unfold skip_phase1
    rw [hsys]
  have hsubset : ∀ p ∈ (skip_phase1 env st).skip_addr, p ∈ st.skip_addr := by
    rw [hph]
    exact phase1_fold_subset env cpus st
  have hsound : ∀ p ∈ (skip_phase1 env st).skip_addr, env.pc p.1 = p.2 := by
    intro p hp
    rw [hph] at hp
    exact phase1_fold_sound env cpus st hnd p hp
      (hsub p.1 (List.mem_map_of_mem Prod.fst
        (phase1_fold_subset env cpus st p hp)))
  refine ⟨?_, ?_, ?_, ?_, ?_⟩
  · intro p hp
    rw [hst] at hp
    exact hsound p hp
  · intro p hp
    rw [hst] at hp
    exact hsubset p hp
  · intro hsupp
    obtain ⟨hex, hfind1⟩ := handle_event_suppressed env st sub_id ev hsupp
    refine ⟨hex, ?_⟩
    have hmem1 := amap_find_mem _ _ _ hfind1
    have hmem0 := hsubset _ hmem1
    exact amap_mem_find _ _ _ hnd hmem0
  · intro c a hc hf hne hmem
    rw [hst] at hmem
    obtain ⟨p, hp, hpk⟩ := List.mem_map.mp hmem
    have hv := hsound p hp
    have hmem0 := hsubset p hp
    have hfind0 : amap_find st.skip_addr p.1 = some p.2 :=
      amap_mem_find _ _ _ hnd hmem0
    rw [hpk] at hfind0
    rw [hf] at hfind0
    simp only [Option.some.injEq] at hfind0
    apply hne
    rw [hpk] at hv
    rw [hv, ← hfind0]
  · intro hf
    rcases hsupp : (debug_handle_event env st sub_id ev).suppressed with _ | _
    · rfl
    · exfalso
      obtain ⟨hex, hfind1⟩ := handle_event_suppressed env st sub_id ev hsupp
      have hmem1 := amap_find_mem _ _ _ hfind1
      have hmem0 := hsubset _ hmem1
      exact amap_find_no_key _ _ hf (List.mem_map_of_mem Prod.fst hmem0)

/-- A two-CPU environment for the clearing theorem's instance: cpu 0 sits
at its skip address, cpu 1 has moved past its own. -/
def dbg_env_w : DbgEnv :=
  ⟨some [0, 1], fun c => if c = 0 then 0x200 else 0x300, fun _ => false,
    false, 0, fun s => s = 5⟩

/-- The matching skip state (cpu 1's entry is stale). -/
def skip_st_w : SkipState :=
  ⟨[(0, 0x200), (1, 0x250)], [(0, 7), (1, 8)]⟩

/-- Concrete instance of the amended clearing theorem on a breakpoint
execution event over `dbg_env_w`/`skip_st_w`. -/
theorem skip_map_clearing_witness :
    dbg_env_w.sys = some [0, 1] ∧
    (skip_st_w.skip_addr.map Prod.fst).Nodup ∧
    (∀ k ∈ skip_st_w.skip_addr.map Prod.fst, k ∈ [0, 1]) ∧
    ((∀ p ∈ (debug_handle_event dbg_env_w skip_st_w 5
        ⟨true, 0, true⟩).st.skip_addr, dbg_env_w.pc p.1 = p.2) ∧
      (∀ p ∈ (debug_handle_event dbg_env_w skip_st_w 5
        ⟨true, 0, true⟩).st.skip_addr, p ∈ skip_st_w.skip_addr) ∧
      ((debug_handle_event dbg_env_w skip_st_w 5
          ⟨true, 0, true⟩).suppressed = true →
        (⟨true, 0, true⟩ : DbgEvent).is_execution = true ∧
        amap_find skip_st_w.skip_addr (⟨true, 0, true⟩ : DbgEvent).cpu =
          some (dbg_env_w.pc (⟨true, 0, true⟩ : DbgEvent).cpu)) ∧
      (∀ c a, c ∈ [0, 1] → amap_find skip_st_w.skip_addr c = some a →
        dbg_env_w.pc c ≠ a →
        c ∉ ((debug_handle_event dbg_env_w skip_st_w 5
          ⟨true, 0, true⟩).st.skip_addr.map Prod.fst)) ∧
      (amap_find skip_st_w.skip_addr (⟨true, 0, true⟩ : DbgEvent).cpu = none →
        (debug_handle_event dbg_env_w skip_st_w 5
          ⟨true, 0, true⟩).suppressed = false)) :=
  ⟨rfl, by decide, by decide,
    skip_map_clearing dbg_env_w skip_st_w 5 ⟨true, 0, true⟩ [0, 1] rfl
      (by decide) (by decide)⟩

/-- A one-CPU environment whose CPU sits forever at `$0200` (a self-jump)
with breakpoint subscription `5`. -/
def dbg_env_c : DbgEnv :=
  ⟨some [0], fun _ => 0x200, fun _ => false, false, 0, fun s => s = 5⟩

/-- C1 counterexample to the at-most-one-suppression claim: after one
`ar_debug_set_skip`, a CPU whose PC never leaves the skip address has BOTH
of two consecutive pause-worthy breakpoint execution events suppressed
(the skip entry is only cleared when the PC is observed to differ). -/
theorem skip_double_suppression_cex :
    (debug_handle_event dbg_env_c
      (ar_debug_set_skip dbg_env_c (fun _ => 7) ⟨[], []⟩) 5
      ⟨true, 0, true⟩).suppressed = true ∧
    (debug_handle_event dbg_env_c
      (debug_handle_event dbg_env_c
        (ar_debug_set_skip dbg_env_c (fun _ => 7) ⟨[], []⟩) 5
        ⟨true, 0, true⟩).st 5 ⟨true, 0, true⟩).suppressed = true := by
  constructor
  · decide
  · decide

end Arret
